import Mathlib

/-!
Verification of the C2XC-Agent run scheduler, planning engine and
reasoning-bank protocol, as shallow Lean embeddings of the Python source.

Conventions used throughout:
* SQL/Python timestamps (REAL seconds) are modelled as natural numbers:
  every claim below depends only on their ordering, never on arithmetic.
* Python dicts used as insertion-ordered maps are modelled as association
  lists (`List (String × α)`), insertion appending at the end and lookup
  returning the first match.
* Each subsystem lives in its own namespace, mirroring the source module.
-/

/-! ### Nat.repr injectivity

The citation registry (`src/recap/engine.py`) allocates aliases as
`f"{prefix}{index}"`. Freshness of newly allocated aliases reduces to
injectivity of `Nat.repr`, which we prove here via the decimal value map.
-/

namespace NatReprInj

def charVal (c : Char) : Nat := c.toNat - 48

def digitsVal (ds : List Char) : Nat := ds.foldl (fun acc c => acc * 10 + charVal c) 0

end NatReprInj

/-! ### Worker: batch terminal status (src/runtime/worker.py)

`RunWorker._update_batch_terminal_status_if_done` reads the statuses of all
runs of a batch and derives the batch terminal status. We model the decision
on the extracted status list; `none` means no batch update is issued.
-/

namespace Worker

def _update_batch_terminal_status_if_done (statuses : List String) : Option String :=
  if statuses.isEmpty then none
  else if statuses.any (fun s => s == "queued" || s == "running") then none
  else if statuses.any (fun s => s == "failed") then some "failed"
  else if statuses.any (fun s => s == "canceled") then some "canceled"
  else some "completed"

end Worker

/-! ### Scheduler: claiming queued runs (src/storage/sqlite_store.py)

`SQLiteStore.claim_next_queued_run` runs inside one IMMEDIATE (single-writer)
transaction, so concurrent invocations serialize; we model the database as a
value and one claim invocation as a pure transformation of it. `now` stands
for the `_utc_ts()` call inside the transaction.
-/

namespace Sched

inductive RunStatus
  | queued | running | completed | failed | canceled
deriving DecidableEq, Repr

structure RunRow where
  run_id : String
  batch_id : String
  created_at : Nat
  status : RunStatus
  started_at : Option Nat
deriving DecidableEq, Repr

structure BatchRow where
  batch_id : String
  status : RunStatus
  started_at : Option Nat
deriving DecidableEq, Repr

structure DB where
  runs : List RunRow
  batches : List BatchRow
deriving DecidableEq, Repr

/-- `ORDER BY created_at ASC, run_id ASC` on the queued rows:
`r` sorts strictly before `m`. -/
def keyLt (r m : RunRow) : Bool :=
  r.created_at < m.created_at || (r.created_at == m.created_at && r.run_id < m.run_id)

/-- `SELECT ... WHERE status = 'queued' ORDER BY created_at ASC, run_id ASC LIMIT 1`. -/
def selectOldestQueued (runs : List RunRow) : Option RunRow :=
  runs.foldl
    (fun acc r =>
      if r.status = RunStatus.queued then
        match acc with
        | none => some r
        | some m => if keyLt r m then some r else some m
      else acc)
    none

/-- The guarded `UPDATE runs SET status='running', started_at=COALESCE(started_at, ts)
WHERE run_id = ? AND status = 'queued'`. -/
def updateRunClaim (now : Nat) (rid : String) (runs : List RunRow) : List RunRow :=
  runs.map fun r =>
    if r.run_id = rid ∧ r.status = RunStatus.queued then
      { r with status := RunStatus.running, started_at := some (r.started_at.getD now) }
    else r

/-- Row count of the guarded run UPDATE. -/
def claimRowcount (rid : String) (runs : List RunRow) : Nat :=
  (runs.filter fun r => r.run_id == rid && r.status == RunStatus.queued).length

/-- `UPDATE batches SET status='running', started_at=COALESCE(started_at, ts)
WHERE batch_id = ? AND status = 'queued'`. -/
def updateBatchClaim (now : Nat) (bid : String) (batches : List BatchRow) : List BatchRow :=
  batches.map fun b =>
    if b.batch_id = bid ∧ b.status = RunStatus.queued then
      { b with status := RunStatus.running, started_at := some (b.started_at.getD now) }
    else b

/-- `SQLiteStore.get_run`. -/
def getRun (runs : List RunRow) (rid : String) : Option RunRow :=
  runs.find? fun r => r.run_id == rid

/-- `SQLiteStore.claim_next_queued_run`, one transaction. -/
def claim_next_queued_run (db : DB) (now : Nat) : Option RunRow × DB :=
  match selectOldestQueued db.runs with
  | none => (none, db)
  | some row =>
    let runs' := updateRunClaim now row.run_id db.runs
    if claimRowcount row.run_id db.runs ≠ 1 then
      (none, { db with runs := runs' })
    else
      let batches' := updateBatchClaim now row.batch_id db.batches
      let db' : DB := { runs := runs', batches := batches' }
      (getRun db'.runs row.run_id, db')

/-- Iterated claim invocations (the serialized interleaving of any number of
concurrent callers), collecting each invocation's result. -/
def claimTrace (db : DB) : List Nat → List (Option RunRow) × DB
  | [] => ([], db)
  | now :: rest =>
    let step := claim_next_queued_run db now
    let tr := claimTrace step.2 rest
    (step.1 :: tr.1, tr.2)

/-- Run ids present in a database. -/
def runIds (db : DB) : List String := db.runs.map RunRow.run_id

end Sched

/-- Python `str.strip()`: drop leading and trailing whitespace. Defined on
the character list so that it evaluates by kernel reduction. -/
def pstrip (s : String) : String :=
  ((s.data.dropWhile Char.isWhitespace).reverse.dropWhile Char.isWhitespace).reverse.asString

/-! ### Reasoning-bank learn jobs (src/runtime/reasoningbank_jobs.py,
src/storage/sqlite_store.py)

`enqueue_rb_learn_job` runs in one IMMEDIATE transaction: it returns an
existing queued learn job for the run if any, otherwise inserts exactly one
new queued job, recording whether it supersedes a currently running one.
`freshId` stands for the generated `_new_id("rbjob")`, `now` for `_utc_ts()`.
-/

namespace RBJobs

structure RBJob where
  rb_job_id : String
  run_id : String
  kind : String
  created_at : Nat
  status : String
  enqueue_reason : String
  supersedes_rb_job_id : String
deriving DecidableEq, Repr

structure JobsState where
  jobs : List RBJob
  runs : List String
deriving DecidableEq, Repr

inductive JobsErr
  | missingRunId
  | runNotFound
deriving DecidableEq, Repr

/-- The WHERE clause of `get_latest_rb_job_for_run` (run, kind, status IN). -/
def jobMatches (rid kind : String) (statuses : List String) (j : RBJob) : Bool :=
  j.run_id == rid && j.kind == kind && statuses.contains j.status

/-- `ORDER BY created_at DESC, rb_job_id DESC`: `a` sorts strictly before `b`. -/
def jobKeyGt (a b : RBJob) : Bool :=
  b.created_at < a.created_at || (b.created_at == a.created_at && b.rb_job_id < a.rb_job_id)

/-- The `LIMIT 1` fold step keeping the newest row seen so far. -/
def latestStep (acc : Option RBJob) (j : RBJob) : Option RBJob :=
  match acc with
  | none => some j
  | some m => if jobKeyGt j m then some j else some m

/-- `SQLiteStore.get_latest_rb_job_for_run`. -/
def get_latest_rb_job_for_run (jobs : List RBJob) (run_id kind : String)
    (statuses : List String) : Option RBJob :=
  if pstrip run_id = "" then none
  else
    (jobs.filter (jobMatches (pstrip run_id) kind statuses)).foldl latestStep none

/-- `SQLiteStore.create_rb_job`: insert a fresh `queued` job row. -/
def create_rb_job (st : JobsState) (run_id kind freshId : String) (now : Nat)
    (reason supersedes : String) : Except JobsErr (RBJob × JobsState) :=
  if pstrip run_id = "" then .error .missingRunId
  else if ¬ st.runs.contains (pstrip run_id) then .error .runNotFound
  else
    let j : RBJob :=
      { rb_job_id := freshId
        run_id := pstrip run_id
        kind := if pstrip kind = "" then "learn" else pstrip kind
        created_at := now
        status := "queued"
        enqueue_reason := reason
        supersedes_rb_job_id := supersedes }
    .ok (j, { st with jobs := st.jobs ++ [j] })

/-- `enqueue_rb_learn_job` (dedupe inside one IMMEDIATE transaction). -/
def enqueue_rb_learn_job (st : JobsState) (run_id freshId : String) (now : Nat) :
    Except JobsErr (RBJob × JobsState) :=
  if pstrip run_id = "" then .error .missingRunId
  else
    match get_latest_rb_job_for_run st.jobs (pstrip run_id) "learn" ["queued"] with
    | some q => .ok (q, st)
    | none =>
      match get_latest_rb_job_for_run st.jobs (pstrip run_id) "learn" ["running"] with
      | some running =>
        create_rb_job st (pstrip run_id) "learn" freshId now "latest_compensation"
          running.rb_job_id
      | none => create_rb_job st (pstrip run_id) "learn" freshId now "enqueue" ""

/-- Number of queued learn jobs recorded for a run. -/
def countQueuedLearn (rid : String) (jobs : List RBJob) : Nat :=
  (jobs.filter (jobMatches rid "learn" ["queued"])).length

end RBJobs

/-! ### API: idempotent batch creation (src/api/routers/batches.py,
src/storage/sqlite_store.py)

`create_batch` (the router handler) hashes the raw request body, then inside
one IMMEDIATE transaction either replays the stored response for the key,
raises a 409 conflict, or creates the batch, its N runs and the idempotency
record together. `hashFn` stands for `sha256` of the canonical JSON dump,
`freshBatchId`/`freshRunId` for the generated ids, `now` for `_utc_ts()`.
-/

namespace Api

structure Body where
  user_request : String
  n_runs : Nat
  recipes_per_run : Nat
deriving DecidableEq, Repr

structure BatchRec where
  batch_id : String
  created_at : Nat
  user_request : String
  n_runs : Nat
  recipes_per_run : Nat
  status : Sched.RunStatus
deriving DecidableEq, Repr

structure RunRec where
  run_id : String
  batch_id : String
  run_index : Nat
  created_at : Nat
  status : Sched.RunStatus
deriving DecidableEq, Repr

/-- The JSON response of the endpoint, modelled structurally (the stored
`response_json` round-trips through `json.dumps`/`json.loads` unchanged). -/
structure Response where
  batch : BatchRec
  runs : List RunRec
deriving DecidableEq, Repr

structure IdemRow where
  key : String
  request_hash : String
  response : Response
deriving DecidableEq, Repr

structure ApiState where
  idem : List IdemRow
  batches : List BatchRec
  runs : List RunRec
deriving DecidableEq, Repr

inductive ApiErr
  | conflict
deriving DecidableEq, Repr

/-- `SQLiteStore.get_idempotency`. -/
def get_idempotency (idem : List IdemRow) (key : String) : Option IdemRow :=
  idem.find? fun r => r.key == key

/-- `SQLiteStore.put_idempotency` (`INSERT ... ON CONFLICT(key) DO NOTHING`). -/
def put_idempotency (idem : List IdemRow) (key request_hash : String)
    (response : Response) : List IdemRow :=
  match get_idempotency idem key with
  | some _ => idem
  | none => idem ++ [⟨key, request_hash, response⟩]

/-- `SQLiteStore.create_batch` (with `commit=False`, inside the transaction). -/
def mkBatch (body : Body) (freshBatchId : String) (now : Nat) : BatchRec :=
  { batch_id := freshBatchId
    created_at := now
    user_request := body.user_request
    n_runs := body.n_runs
    recipes_per_run := body.recipes_per_run
    status := Sched.RunStatus.queued }

/-- `store.create_run(batch_id=batch.batch_id, run_index=i + 1)` for
`i in range(body.n_runs)`. -/
def mkRuns (body : Body) (freshBatchId : String) (freshRunId : Nat → String)
    (now : Nat) : List RunRec :=
  (List.range body.n_runs).map fun i =>
    { run_id := freshRunId i
      batch_id := freshBatchId
      run_index := i + 1
      created_at := now
      status := Sched.RunStatus.queued }

/-- The idempotency-guarded body of the `create_batch` route (the
`with store.transaction(mode="IMMEDIATE")` block). -/
def create_batch (st : ApiState) (idempotency_key : Option String)
    (hashFn : Body → String) (body : Body) (freshBatchId : String)
    (freshRunId : Nat → String) (now : Nat) : Except ApiErr (Response × ApiState) :=
  let request_hash := hashFn body
  let makeNew : Except ApiErr (Response × ApiState) :=
    let batch := mkBatch body freshBatchId now
    let runs := mkRuns body freshBatchId freshRunId now
    let response : Response := ⟨batch, runs⟩
    let idem' :=
      match idempotency_key with
      | some k => put_idempotency st.idem k request_hash response
      | none => st.idem
    .ok (response,
      { idem := idem'
        batches := st.batches ++ [batch]
        runs := st.runs ++ runs })
  match idempotency_key with
  | some k =>
    match get_idempotency st.idem k with
    | some existing =>
      if existing.request_hash ≠ request_hash then .error .conflict
      else .ok (existing.response, st)
    | none => makeNew
  | none => makeNew

end Api

/-! ### Evidence registry: global kb_search aliases (src/recap/engine.py,
kb_search branch; src/tools/citation_aliases.py)

Within one run, `kb_search` assigns each canonical ref a global alias
`f"{cfg.citations.alias_prefix}{kb_next_index}"` on first sight and reuses it
afterwards; the four registry structures only grow. Python dicts are modelled
as association lists with insertion at the end (all inserted keys are fresh
in the source, so this is exact). The field `alias` of `AliasedKBChunk` is
named `aliasTok` because `alias` is a Lean keyword.
-/

namespace KB

structure KBChunk where
  ref : String
  source : String
  content : String
  kb_namespace : String
  lightrag_chunk_id : Option String
deriving DecidableEq, Repr

structure AliasedKBChunk where
  aliasTok : String
  ref : String
  source : String
  content : String
  kb_namespace : String
  lightrag_chunk_id : Option String
deriving DecidableEq, Repr

/-- The registry slice of `_RuntimeState` (kb_* fields). -/
structure KBReg where
  kb_alias_map : List (String × String)
  kb_ref_to_alias : List (String × String)
  kb_all_aliased_chunks : List AliasedKBChunk
  kb_alias_to_chunk : List (String × AliasedKBChunk)
  kb_next_index : Nat
deriving DecidableEq, Repr

/-- `f"{cfg.citations.alias_prefix}{index}"`. -/
def mkAlias (pfx : String) (i : Nat) : String := pfx ++ Nat.repr i

/-- Registry state as initialised in `RecapEngine.run` (`kb_next_index=1`). -/
def initReg : KBReg := ⟨[], [], [], [], 1⟩

/-- Fold state of the per-search loop `for ch in chunks:`. -/
structure SearchFold where
  reg : KBReg
  seen_in_obs : List String
  aliased_for_obs : List AliasedKBChunk
deriving Repr

/-- Registry well-formedness, established for every reachable registry. -/
structure RegWF (pfx : String) (reg : KBReg) : Prop where
  refKeysNodup : (reg.kb_ref_to_alias.map Prod.fst).Nodup
  aliasNodup : (reg.kb_ref_to_alias.map Prod.snd).Nodup
  aliasIdx : ∀ p ∈ reg.kb_ref_to_alias, ∃ i, 1 ≤ i ∧ i < reg.kb_next_index ∧ p.2 = mkAlias pfx i
  mapInv : reg.kb_alias_map = reg.kb_ref_to_alias.map fun p => (p.2, p.1)
  chunkKeysNodup : (reg.kb_alias_to_chunk.map Prod.fst).Nodup
  chunkConsist : ∀ q ∈ reg.kb_alias_to_chunk,
    q.2.aliasTok = q.1 ∧ reg.kb_ref_to_alias.lookup q.2.ref = some q.1
  onePos : 1 ≤ reg.kb_next_index

/-- The freshly stored chunk built from `ch` (alias still to be decided). -/
def storedFor (a : String) (ch : KBChunk) : AliasedKBChunk :=
  ⟨a, ch.ref, ch.source, ch.content, ch.kb_namespace, ch.lightrag_chunk_id⟩

/-- The alias-assignment part of one kb_search loop iteration
(engine lines 1461-1487): returns the updated registry, the alias and the
stored chunk for `ch`. -/
def registerChunk (pfx : String) (reg : KBReg) (ch : KBChunk) :
    KBReg × String × AliasedKBChunk :=
  match (reg.kb_ref_to_alias.lookup ch.ref : Option String) with
  | none =>
    let a := mkAlias pfx reg.kb_next_index
    let stored : AliasedKBChunk :=
      ⟨a, ch.ref, ch.source, ch.content, ch.kb_namespace, ch.lightrag_chunk_id⟩
    (⟨reg.kb_alias_map ++ [(a, ch.ref)],
      reg.kb_ref_to_alias ++ [(ch.ref, a)],
      reg.kb_all_aliased_chunks ++ [stored],
      reg.kb_alias_to_chunk ++ [(a, stored)],
      reg.kb_next_index + 1⟩, a, stored)
  | some a =>
    match (reg.kb_alias_to_chunk.lookup a : Option AliasedKBChunk) with
    | some stored => (reg, a, stored)
    | none =>
      let stored : AliasedKBChunk :=
        ⟨a, ch.ref, ch.source, ch.content, ch.kb_namespace, ch.lightrag_chunk_id⟩
      -- Do NOT append to kb_all_aliased_chunks here: alias already existed.
      ({ reg with kb_alias_to_chunk := reg.kb_alias_to_chunk ++ [(a, stored)] },
       a, stored)

/-- One iteration of the kb_search aliasing loop, including the
`seen_in_obs` / `aliased_for_obs` bookkeeping (engine lines 1488-1496). -/
def processChunk (pfx : String) (s : SearchFold) (ch : KBChunk) : SearchFold :=
  let step := registerChunk pfx s.reg ch
  if step.2.1 ∈ s.seen_in_obs then
    { reg := step.1, seen_in_obs := s.seen_in_obs, aliased_for_obs := s.aliased_for_obs }
  else
    { reg := step.1
      seen_in_obs := s.seen_in_obs ++ [step.2.1]
      aliased_for_obs := s.aliased_for_obs ++ [step.2.2] }

/-- Invariant carried through the per-search fold: the registry is
well-formed and every observation entry carries the alias registered for its
ref. -/
def FoldInv (pfx : String) (s : SearchFold) : Prop :=
  RegWF pfx s.reg ∧
  ∀ e ∈ s.aliased_for_obs, s.reg.kb_ref_to_alias.lookup e.ref = some e.aliasTok

/-- One `kb_search` action: registry update plus the observation list. -/
def kb_search_register (pfx : String) (reg : KBReg) (chunks : List KBChunk) :
    KBReg × List AliasedKBChunk :=
  let f := chunks.foldl (processChunk pfx) ⟨reg, [], []⟩
  (f.reg, f.aliased_for_obs)

/-- A whole run's sequence of kb_search actions, from the initial registry. -/
def runKBSearches (pfx : String) (searches : List (List KBChunk)) : KBReg :=
  searches.foldl (fun reg chunks => (kb_search_register pfx reg chunks).1) initReg

end KB

/-! ### ReCAP planning engine: empty-subtasks transition and parse retry
(src/recap/engine.py, src/recap/node.py, src/recap/state.py)

The recursive node tree is modelled as the active stack of nodes (current
node first, then its ancestors), as suggested by the parent-chain use in the
engine. `pstrip` models Python `str.strip()`. The LLM is an oracle indexed
by attempt number; cancellation checkpoints are outside these claims.
-/

namespace Recap

inductive RecapState
  | DOWN | ACTION_TAKEN | UP
deriving DecidableEq, Repr

/-- A structured subtask document; only its `type` key drives dispatch, the
remaining keys are carried opaquely. -/
structure Subtask where
  type : String
  payload : List (String × String)
deriving DecidableEq, Repr

structure RecapInfo where
  think : String
  subtasks : List Subtask
  result : String
deriving DecidableEq, Repr

structure Node where
  task_name : String
  role : String
  info_list : List RecapInfo
  obs_list : List String
deriving DecidableEq, Repr

def Node.set_info (n : Node) (info : RecapInfo) : Node :=
  { n with info_list := n.info_list ++ [info] }

def Node.get_latest_info (n : Node) : RecapInfo :=
  (n.info_list.getLast?).getD ⟨"", [], ""⟩

/-- The slice of `_RuntimeState` read and written by the modelled branch. -/
structure RT where
  stack : List Node
  state : RecapState
  depth : Nat
  latest_obs : String
  remaining_subtasks : List Subtask
  done_task_name : String
  done_task_result : String
  previous_stage_task_name : String
  previous_stage_think : String
deriving Repr

inductive RecapErr
  | rootEndedWithoutGenerate
  | emptyStack
  | parseRetriesExhausted
  | maxStepsExceeded
deriving DecidableEq, Repr

def emptyResultError : String :=
  "ERROR: Task ended with empty subtasks but without a `result`.\n" ++
  "When subtasks=[], you MUST include a non-empty `result` summarizing the deliverable " ++
  "(and key conclusions / constraints / citations if applicable)."

/-- Engine lines 705-744 restricted to a parsed response with empty
`subtasks`: record the info on the current node, then either reject an empty
result (non-root), fail the run (root), or pop to the parent in state UP. -/
def stepEmptySubtasks (rt : RT) (info : RecapInfo) : Except RecapErr RT :=
  match rt.stack with
  | [] => .error .emptyStack
  | node :: parents =>
    let node' := node.set_info info
    match parents with
    | parent :: rest =>
      if pstrip info.result = "" then
        .ok { rt with
          stack := node' :: parent :: rest
          latest_obs := emptyResultError
          remaining_subtasks := []
          state := RecapState.ACTION_TAKEN }
      else
        let parent_info := parent.get_latest_info
        .ok { rt with
          stack := parent :: rest
          done_task_name := node'.task_name
          done_task_result := pstrip info.result
          depth := rt.depth - 1
          previous_stage_task_name := parent.task_name
          previous_stage_think := parent_info.think
          remaining_subtasks := parent_info.subtasks.drop 1
          state := RecapState.UP }
    | [] => .error .rootEndedWithoutGenerate

structure Msg where
  role : String
  content : String
deriving DecidableEq, Repr

/-- `_trim_history`: keep the pinned first message plus the last
`2 * max_rounds` messages. -/
def _trim_history (history : List Msg) (max_rounds : Nat) : List Msg :=
  if max_rounds = 0 then history
  else if history.length ≤ 1 then history
  else
    let pinned := history.take 1
    let tail := history.drop 1
    let limit := max_rounds * 2
    if tail.length ≤ limit then pinned ++ tail
    else pinned ++ tail.drop (tail.length - limit)

/-- One LLM call as seen by the parse loop: either `_parse_recap_info`
succeeded on the raw content, or it raised `JSONExtractionError`. -/
inductive ChatAttempt
  | parsed (info : RecapInfo) (content : String)
  | parseError (e : String) (content : String)

/-- The ephemeral correction message built on a parse failure. -/
def formatErrorMsg (e : String) : Msg :=
  ⟨"user",
   "FORMAT ERROR: Your previous output was not valid ReCAP JSON.\n" ++ e ++
   "\n\nReturn ONLY a single valid JSON object with keys:\n- think: string\n" ++
   "- subtasks: array of objects (structured subtasks)\n" ++
   "- result: string or JSON (REQUIRED when subtasks=[])\nNo extra text."⟩

/-- Engine lines 616-686: `for attempt in range(1, 4)` with the step-budget
check, keeping the correction instruction in the ephemeral
`extra_user_messages` list (replaced, not accumulated, on each failure). -/
def planRetryLoop (oracle : Nat → ChatAttempt) (max_steps : Nat) :
    List Nat → Nat → List Msg → Except RecapErr (RecapInfo × String × Nat)
  | [], _, _ => .error .parseRetriesExhausted
  | attempt :: rest, steps, _extra =>
    if max_steps ≤ steps then .error .maxStepsExceeded
    else
      match oracle attempt with
      | .parsed info content => .ok (info, content, steps + 1)
      | .parseError e _ => planRetryLoop oracle max_steps rest (steps + 1) [formatErrorMsg e]

/-- Engine lines 616-691: the retry loop followed by the commit of exactly
the successful prompt/response exchange into the shared history. -/
def planStep (oracle : Nat → ChatAttempt) (max_steps max_rounds : Nat)
    (history : List Msg) (prompt : String) (steps : Nat) :
    Except RecapErr (RecapInfo × List Msg × Nat) :=
  match planRetryLoop oracle max_steps [1, 2, 3] steps [] with
  | .error e => .error e
  | .ok (info, content, steps') =>
    .ok (info,
      _trim_history (history ++ [⟨"user", prompt⟩, ⟨"assistant", content⟩]) max_rounds,
      steps')

end Recap

/-! ### Citation extraction (src/tools/citation_aliases.py)

`extract_citation_aliases` matches `\[([A-Z]+\d+)\]`, `extract_memory_ids`
matches `\bmem:(<uuid>)\b`; both return first-seen-deduplicated match lists.
The regex scans are implemented as character scanners: a match never
contains `[` (respectively never overlaps a later `mem:` start in a way
that changes the deduplicated result), so scanning every position is
equivalent to the non-overlapping `finditer` walk. -/

namespace Cit

def isUpperAZ (c : Char) : Bool := 'A' ≤ c && c ≤ 'Z'

def isDigit09 (c : Char) : Bool := '0' ≤ c && c ≤ '9'

/-- Try to match `[A-Z]+\d+\]` right after an opening `[`. -/
def parseAlias (l : List Char) : Option String :=
  let letters := l.takeWhile isUpperAZ
  let rest1 := l.dropWhile isUpperAZ
  let digits := rest1.takeWhile isDigit09
  let rest2 := rest1.dropWhile isDigit09
  match rest2 with
  | ']' :: _ => if letters.isEmpty || digits.isEmpty then none
                else some (letters ++ digits).asString
  | _ => none

def scanAliases : List Char → List String
  | [] => []
  | c :: rest =>
    if c = '[' then
      match parseAlias rest with
      | some tok => tok :: scanAliases rest
      | none => scanAliases rest
    else scanAliases rest

/-- First-seen order, de-duplicated. -/
def dedupFirst (l : List String) : List String :=
  l.foldl (fun acc x => if x ∈ acc then acc else acc ++ [x]) []

def extract_citation_aliases (text : String) : List String :=
  dedupFirst (scanAliases text.data)

def isHex (c : Char) : Bool :=
  ('0' ≤ c && c ≤ '9') || ('a' ≤ c && c ≤ 'f') || ('A' ≤ c && c ≤ 'F')

def isWordChar (c : Char) : Bool := c.isAlphanum || c = '_'

/-- Consume exactly `n` hex characters. -/
def takeHex : Nat → List Char → Option (List Char × List Char)
  | 0, l => some ([], l)
  | n + 1, [] => none
  | n + 1, c :: rest =>
    if isHex c then
      match takeHex n rest with
      | some (g, l') => some (c :: g, l')
      | none => none
    else none

/-- Match `mem:<8-4-4-4-12 hex uuid>` with a trailing word boundary,
returning the uuid (the `mem_id` group). -/
def parseMem (l : List Char) : Option String :=
  match l with
  | 'm' :: 'e' :: 'm' :: ':' :: rest =>
    match takeHex 8 rest with
    | some (g1, '-' :: r1) =>
      match takeHex 4 r1 with
      | some (g2, '-' :: r2) =>
        match takeHex 4 r2 with
        | some (g3, '-' :: r3) =>
          match takeHex 4 r3 with
          | some (g4, '-' :: r4) =>
            match takeHex 12 r4 with
            | some (g5, r5) =>
              match r5 with
              | [] => some (g1 ++ '-' :: g2 ++ '-' :: g3 ++ '-' :: g4 ++ '-' :: g5).asString
              | c :: _ =>
                if isWordChar c then none
                else some (g1 ++ '-' :: g2 ++ '-' :: g3 ++ '-' :: g4 ++ '-' :: g5).asString
            | none => none
          | _ => none
        | _ => none
      | _ => none
    | _ => none
  | _ => none

def scanMems : Option Char → List Char → List String
  | prev, [] => []
  | prev, c :: rest =>
    let boundary := match prev with
      | none => true
      | some p => ! isWordChar p
    if c = 'm' && boundary then
      match parseMem (c :: rest) with
      | some tok => tok :: scanMems (some c) rest
      | none => scanMems (some c) rest
    else scanMems (some c) rest

def extract_memory_ids (text : String) : List String :=
  dedupFirst (scanMems none text.data)

end Cit

/-! ### Final-answer acceptance (src/recap/engine.py, generate_recipes)

The final-output loop of `generate_recipes` (engine lines 926-1437): up to
20 turns; each turn either handles tool calls or requests the final JSON and
validates it through the ordered chain of checks, appending a corrective
user message and retrying on every violation. The LLM is an oracle indexed
by turn number; the parsed final output is modelled structurally
(`recipes = none` models a missing or non-list `recipes` key; `dump` is
`json.dumps(parsed)`). -/

namespace Gen

/-- One entry of the parsed `recipes` list: a JSON dict with its

`str(r.get("rationale") or "")`, or a non-dict entry (skipped by the
per-recipe citation check). -/
structure RecipeObj where
  isDict : Bool
  rationale : String
deriving DecidableEq, Repr

structure ParsedOut where
  recipes : Option (List RecipeObj)
  dump : String
deriving DecidableEq, Repr

structure RTMemItem where
  status : String
deriving DecidableEq, Repr

structure GenCtx where
  recipes_per_run : Nat
  kb_alias_map : List (String × String)
  mem_id_to_item : List (String × RTMemItem)
  max_steps : Nat
deriving Repr

/-- One step of the `resolve_aliases` dict comprehension: a failed lookup
becomes the KeyError carrying the alias. -/
def resolveStep (alias_map : List (String × String))
    (acc : Except String (List (String × String))) (a : String) :
    Except String (List (String × String)) :=
  match acc with
  | .error e => .error e
  | .ok m =>
    match alias_map.lookup a with
    | none => .error a
    | some r => .ok (m ++ [(a, r)])

/-- `resolve_aliases` (src/tools/citation_aliases.py): KeyError on an
unknown alias. -/
def resolve_aliases (aliases : List String) (alias_map : List (String × String)) :
    Except String (List (String × String)) :=
  aliases.foldl (resolveStep alias_map) (.ok [])

inductive Verdict
  | countError
  | missingCitations
  | noCitations
  | unknownAlias (a : String)
  | unknownMem (ids : List String)
  | archivedMem (ids : List String)
  | accepted (recipes : List RecipeObj) (citations : List (String × String))
      (mem_ids : List String)
deriving DecidableEq, Repr

/-- A dict recipe whose rationale has neither a KB alias nor a memory id
(counted into `missing_citations`; non-dict entries are skipped). -/
def recipeLacksCitation (r : RecipeObj) : Bool :=
  r.isDict && (Cit.extract_citation_aliases r.rationale).isEmpty
    && (Cit.extract_memory_ids r.rationale).isEmpty

/-- A cited mem id absent from the run memory registry. -/
def memUnknown (ctx : GenCtx) (mid : String) : Bool :=
  (ctx.mem_id_to_item.lookup mid).isNone

/-- A cited mem id present but not `active`. -/
def memArchived (ctx : GenCtx) (mid : String) : Bool :=
  match ctx.mem_id_to_item.lookup mid with
  | some it => it.status ≠ "active"
  | none => false

/-- The ordered validation chain applied to one parsed final output
(engine lines 1304-1437). -/
def validateFinal (ctx : GenCtx) (parsed : ParsedOut) : Verdict :=
  match parsed.recipes with
  | none => .countError
  | some recipes =>
    if recipes.length ≠ ctx.recipes_per_run then .countError
    else if (recipes.filter recipeLacksCitation).length ≠ 0 then .missingCitations
    else
      let used_aliases := Cit.extract_citation_aliases parsed.dump
      let used_mem_ids := Cit.extract_memory_ids parsed.dump
      if used_aliases.isEmpty && used_mem_ids.isEmpty then .noCitations
      else
        match resolve_aliases used_aliases ctx.kb_alias_map with
        | .error a => .unknownAlias a
        | .ok citations =>
          let invalid_mem := used_mem_ids.filter (memUnknown ctx)
          let archived_mem := used_mem_ids.filter (memArchived ctx)
          if ¬ invalid_mem.isEmpty then .unknownMem invalid_mem
          else if ¬ archived_mem.isEmpty then .archivedMem archived_mem
          else .accepted recipes citations used_mem_ids

structure GenMsg where
  role : String
  content : String
deriving DecidableEq, Repr

/-- The corrective user message appended for each rejection (texts from the
engine; list/value interpolation approximated by `", "`-joined rendering). -/
def correctionMsg : Verdict → GenMsg
  | .countError => ⟨"user", "ERROR: Invalid recipe count."⟩
  | .missingCitations =>
      ⟨"user", "ERROR: Each recipe rationale must include at least one inline citation."⟩
  | .noCitations => ⟨"user", "ERROR: No citations found in final output."⟩
  | .unknownAlias a => ⟨"user", "ERROR: Unknown citation alias in output: " ++ a ++ "."⟩
  | .unknownMem ids =>
      ⟨"user", "ERROR: Unknown mem:<id> cited in output. Unknown: "
        ++ String.intercalate ", " ids⟩
  | .archivedMem ids =>
      ⟨"user", "ERROR: Archived mem:<id> cited in output. Archived: "
        ++ String.intercalate ", " ids⟩
  | .accepted _ _ _ => ⟨"user", ""⟩

def formatErrMsg (e : String) : GenMsg :=
  ⟨"user", "FORMAT ERROR: " ++ e ++
    "\n\nReturn ONLY a single valid JSON object matching the required schema. No extra text."⟩

/-- What one loop turn produced: tool calls (with the messages appended for
them), or a final-output attempt (`none` = `JSONExtractionError` with its
message). -/
inductive TurnOut
  | toolCalls (msgs : List GenMsg)
  | finalAttempt (cand : Option ParsedOut) (parseErr : String)

inductive GenErr
  | maxSteps
  | formatErrors3
  | maxTurns
deriving DecidableEq, Repr

/-- The `for turn in range(1, 21)` loop of `generate_recipes`; `fuel` is the
number of remaining turns. -/
def generateLoop (ctx : GenCtx) (oracle : Nat → TurnOut) :
    Nat → Nat → List GenMsg → Nat → Nat →
    Except GenErr (ParsedOut × List (String × String) × List String)
  | _, 0, _, _, _ => .error .maxTurns
  | turn, fuel + 1, gen_history, format_errors, steps =>
    if ctx.max_steps ≤ steps then .error .maxSteps
    else
      match oracle turn with
      | .toolCalls msgs =>
        generateLoop ctx oracle (turn + 1) fuel (gen_history ++ msgs) format_errors
          (steps + 1)
      | .finalAttempt cand parseErr =>
        if ctx.max_steps ≤ steps + 1 then .error .maxSteps
        else
          match cand with
          | none =>
            if 3 ≤ format_errors + 1 then .error .formatErrors3
            else
              generateLoop ctx oracle (turn + 1) fuel
                (gen_history ++ [formatErrMsg parseErr]) (format_errors + 1) (steps + 2)
          | some parsed =>
            match validateFinal ctx parsed with
            | .accepted recipes citations mems => .ok (parsed, citations, mems)
            | v =>
              generateLoop ctx oracle (turn + 1) fuel (gen_history ++ [correctionMsg v])
                format_errors (steps + 2)

/-- Entry point: `gen_history = list(history) + [gen_prompt]`, twenty turns,
`format_errors = 0`. -/
def generate_recipes_loop (ctx : GenCtx) (oracle : Nat → TurnOut)
    (history : List GenMsg) (gen_prompt : String) (steps : Nat) :
    Except GenErr (ParsedOut × List (String × String) × List String) :=
  generateLoop ctx oracle 1 20 (history ++ [⟨"user", gen_prompt⟩]) 0 steps

end Gen

/-! ### Reasoning-bank memory store and delta rollback
(src/storage/reasoningbank_store.py, src/runtime/reasoningbank_jobs.py,
src/runtime/reasoningbank_learn.py)

The Chroma collection is modelled as a list of `MemoryItem`s keyed by
`mem_id` (`putItem` is the collection upsert), timestamps as `Nat`, dict
`extra` payloads as association lists.  `upsert`, `archive`,
`_restore_snapshot`, `rollback_rb_delta` and the learn skeleton are
translated from the source; `clock` stands for `_utc_ts()` and `freshId`
arguments for generated uuids / `_new_id(...)` values. -/

namespace RB

structure MemoryItem where
  mem_id : String
  status : String
  role : String
  type : String
  content : String
  source_run_id : Option String
  created_at : Nat
  updated_at : Nat
  schema_version : Nat
  extra : List (String × String)
deriving DecidableEq, Repr

inductive RBErr where
  | invalidStatus
  | invalidRole
  | invalidType
  | emptyContent
  | notFound
  | invalidSnapshot
  | valueError
deriving DecidableEq, Repr

def _parse_status (s : String) : Except RBErr String :=
  let t := pstrip s
  if t = "active" || t = "archived" then .ok t else .error .invalidStatus

def _parse_role (s : String) : Except RBErr String :=
  let t := pstrip s
  if t = "global" || t = "orchestrator" || t = "mof_expert" || t = "tio2_expert"
  then .ok t else .error .invalidRole

def _parse_type (s : String) : Except RBErr String :=
  let t := pstrip s
  if t = "reasoningbank_item" || t = "manual_note" then .ok t
  else .error .invalidType

/-- `ReasoningBankStore.get`: lookup by stripped, non-empty mem_id. -/
def rbGet (st : List MemoryItem) (mem_id : String) : Option MemoryItem :=
  let mid := pstrip mem_id
  if mid = "" then none else st.find? (fun it => it.mem_id = mid)

/-- The Chroma `collection.upsert` keyed by id: replace in place, else append. -/
def putItem (st : List MemoryItem) (item : MemoryItem) : List MemoryItem :=
  if st.any (fun it => it.mem_id = item.mem_id)
  then st.map (fun it => if it.mem_id = item.mem_id then item else it)
  else st ++ [item]

/-- `ReasoningBankStore.upsert`. `clock` models `_utc_ts()`, `freshId` the
generated uuid used when `mem_id` is absent/empty. -/
def upsert (st : List MemoryItem) (clock : Nat) (mem_id : Option String)
    (status role type content : String) (source_run_id : Option String)
    (schema_version : Nat) (extra : List (String × String))
    (now_ts : Option Nat) (preserve_created_at : Bool) (freshId : String) :
    Except RBErr (MemoryItem × List MemoryItem) :=
  let now := match now_ts with | some t => t | none => clock
  let mid0 := pstrip (match mem_id with | some m => m | none => "")
  let mid := if mid0 = "" then freshId else mid0
  let existing := rbGet st mid
  let created_at :=
    match existing with
    | some e => if preserve_created_at then e.created_at else now
    | none => now
  match _parse_status status with
  | .error e => .error e
  | .ok st' =>
    match _parse_role role with
    | .error e => .error e
    | .ok rl' =>
      match _parse_type type with
      | .error e => .error e
      | .ok ty' =>
        let item : MemoryItem :=
          { mem_id := mid, status := st', role := rl', type := ty',
            content := pstrip content,
            source_run_id := source_run_id.map pstrip,
            created_at := created_at, updated_at := now,
            schema_version := schema_version, extra := extra }
        if item.content = "" then .error .emptyContent
        else .ok (item, putItem st item)

/-- `ReasoningBankStore.archive`: soft-delete by upserting with status
`archived`, preserving `created_at`; no-op when already archived. -/
def archive (st : List MemoryItem) (clock : Nat) (mem_id : String)
    (now_ts : Option Nat) : Except RBErr (MemoryItem × List MemoryItem) :=
  match rbGet st mem_id with
  | none => .error .notFound
  | some existing =>
    if existing.status = "archived" then .ok (existing, st)
    else
      upsert st clock (some existing.mem_id) "archived" existing.role
        existing.type existing.content existing.source_run_id
        existing.schema_version existing.extra now_ts true ""

/-- `_restore_snapshot` (reasoningbank_jobs.py): write an exact `before`
snapshot back via `upsert`, preserving the existing item's `created_at`
(`preserve_created_at=True`) and stamping `updated_at` from the snapshot. -/
def _restore_snapshot (st : List MemoryItem) (clock : Nat)
    (snap : MemoryItem) : Except RBErr (MemoryItem × List MemoryItem) :=
  let mid := pstrip snap.mem_id
  if mid = "" then .error .invalidSnapshot
  else
    upsert st clock (some mid)
      (if snap.status = "" then "active" else snap.status)
      (if snap.role = "" then "global" else snap.role)
      (if snap.type = "" then "manual_note" else snap.type)
      snap.content
      (match snap.source_run_id with
       | none => none
       | some s => if pstrip s = "" then none else some (pstrip s))
      (if snap.schema_version = 0 then 1 else snap.schema_version)
      snap.extra
      (if snap.updated_at = 0 then none else some snap.updated_at)
      true ""

/-- One op of a recorded delta (`ops_json` entries). `before` holds the
snapshot captured at delta-creation time, when present. -/
inductive RBOp where
  | add (mem_id : String)
  | update (mem_id : String) (before : Option MemoryItem)
  | archiveOp (mem_id : String) (before : Option MemoryItem)
  | unknown
deriving DecidableEq, Repr

/-- The body of the strict-rollback loop of `rollback_rb_delta`, for one op:
an `add` is undone by archiving the created item (never deleting it); an
`update`/`archive` with a recorded snapshot is undone by `_restore_snapshot`;
an archive without snapshot falls back to unarchiving; unknown ops and ops
with an empty mem_id are skipped. -/
def rollbackOne (clock : Nat) (st : List MemoryItem) (op : RBOp) :
    Except RBErr (List MemoryItem) :=
  match op with
  | .unknown => .ok st
  | .add mem_id =>
    let mid := pstrip mem_id
    if mid = "" then .ok st
    else
      match rbGet st mid with
      | none => .ok st
      | some _ =>
        match archive st clock mid none with
        | .error e => .error e
        | .ok (_, st') => .ok st'
  | .update mem_id before =>
    let mid := pstrip mem_id
    if mid = "" then .ok st
    else
      match before with
      | some snap =>
        match _restore_snapshot st clock snap with
        | .error e => .error e
        | .ok (_, st') => .ok st'
      | none => .ok st
  | .archiveOp mem_id before =>
    let mid := pstrip mem_id
    if mid = "" then .ok st
    else
      match before with
      | some snap =>
        match _restore_snapshot st clock snap with
        | .error e => .error e
        | .ok (_, st') => .ok st'
      | none =>
        match rbGet st mid with
        | none => .ok st
        | some b =>
          if b.status = "archived" then
            match upsert st clock (some b.mem_id) "active" b.role b.type
                b.content b.source_run_id b.schema_version b.extra none
                true "" with
            | .error e => .error e
            | .ok (_, st') => .ok st'
          else .ok st

/-- Sequential replay of a list of (already reversed) ops. -/
def rollbackOps (clock : Nat) : List RBOp → List MemoryItem →
    Except RBErr (List MemoryItem)
  | [], st => .ok st
  | op :: rest, st =>
    match rollbackOne clock st op with
    | .error e => .error e
    | .ok st' => rollbackOps clock rest st'

structure RBDelta where
  delta_id : String
  run_id : String
  created_at : Nat
  status : String
  ops : List RBOp
deriving DecidableEq, Repr

structure RBState where
  mems : List MemoryItem
  deltas : List RBDelta
deriving DecidableEq, Repr

/-- `SQLiteStore.create_rb_delta`: insert one new row with status
`applied`; `freshId` models `_new_id("rbd")`. -/
def create_rb_delta (deltas : List RBDelta) (rid : String) (clock : Nat)
    (ops : List RBOp) (freshId : String) : RBDelta × List RBDelta :=
  let d : RBDelta :=
    { delta_id := freshId, run_id := rid, created_at := clock,
      status := "applied", ops := ops }
  (d, deltas ++ [d])

/-- `ORDER BY created_at DESC, delta_id DESC` key of
`list_rb_deltas_for_run`. -/
def deltaKeyGt (a b : RBDelta) : Bool :=
  decide (b.created_at < a.created_at) ||
    (a.created_at = b.created_at && decide (b.delta_id < a.delta_id))

/-- The first applied delta of `list_rb_deltas_for_run` (newest first):
the max of the run's applied deltas under the SQL ordering key. -/
def latestApplied (deltas : List RBDelta) (rid : String) : Option RBDelta :=
  (deltas.filter (fun d => d.run_id = rid && d.status = "applied")).foldl
    (fun acc d =>
      match acc with
      | none => some d
      | some b => if deltaKeyGt d b then some d else acc) none

def markRolledBack (did : String) (l : List RBDelta) : List RBDelta :=
  l.map (fun x => if x.delta_id = did then { x with status := "rolled_back" }
                  else x)

/-- `rollback_rb_delta` (reasoningbank_jobs.py): pick the delta (by id, or
the newest applied one), no-op if already rolled back, otherwise replay its
ops **in reverse order** and mark the row `rolled_back`. -/
def rollback_rb_delta (clock : Nat) (st : RBState) (run_id : String)
    (delta_id : Option String) : Except RBErr (String × RBState) :=
  let rid := pstrip run_id
  if rid = "" then .error .valueError
  else
    let chosen : Option RBDelta :=
      match delta_id with
      | some did0 =>
        if pstrip did0 = "" then none
        else st.deltas.find? (fun d => d.delta_id = pstrip did0)
      | none => latestApplied st.deltas rid
    match chosen with
    | none => .error .valueError
    | some d =>
      if d.run_id ≠ rid then .error .valueError
      else if d.status = "rolled_back" then .ok (d.delta_id, st)
      else
        match rollbackOps clock d.ops.reverse st.mems with
        | .error e => .error e
        | .ok mems' =>
          .ok (d.delta_id,
            { mems := mems', deltas := markRolledBack d.delta_id st.deltas })

/-- The rollback-before-relearn loop of `learn_reasoningbank_for_run`:
roll back every currently applied delta of the run, one by one. -/
def rollbackForRelearn (clock : Nat) (rid : String) :
    List String → RBState → Except RBErr RBState
  | [], st => .ok st
  | did :: rest, st =>
    match rollback_rb_delta clock st rid (some did) with
    | .error e => .error e
    | .ok (_, st') => rollbackForRelearn clock rid rest st'

/-- The delta ids the learn pass rolls back: the run's deltas whose status
is currently `applied`, newest first (`list_rb_deltas_for_run` order with
chronologically appended rows). -/
def appliedIdsFor (deltas : List RBDelta) (rid : String) : List String :=
  ((deltas.filter (fun d => d.run_id = rid && d.status = "applied")).map
    (fun d => d.delta_id)).reverse

/-- Skeleton of `learn_reasoningbank_for_run` (reasoningbank_learn.py):
first roll back every applied delta of the run, then run the
extraction/mutation phase (`mutate`, an oracle standing for the LLM-driven
merge/add loop) on the post-rollback memories, and finally record the whole
pass as exactly one new delta via `create_rb_delta` — also when `mutate`
produced zero ops. -/
def learn_reasoningbank_for_run (clock : Nat) (st : RBState)
    (run_id : String)
    (mutate : List MemoryItem → List MemoryItem × List RBOp)
    (freshDeltaId : String) : Except RBErr (String × RBState) :=
  let rid := pstrip run_id
  if rid = "" then .error .valueError
  else
    match rollbackForRelearn clock rid (appliedIdsFor st.deltas rid) st with
    | .error e => .error e
    | .ok st1 =>
      let res := mutate st1.mems
      let created := create_rb_delta st1.deltas rid clock res.2 freshDeltaId
      .ok (created.1.delta_id, { mems := res.1, deltas := created.2 })

/-- An item as the store itself produces it: canonical (stripped) non-empty
mem_id, validated status/role/type, stripped non-empty content, a real
(positive) update timestamp. -/
def wfItem (it : MemoryItem) : Bool :=
  pstrip it.mem_id = it.mem_id && it.mem_id ≠ "" &&
  (it.status = "active" || it.status = "archived") &&
  (it.role = "global" || it.role = "orchestrator" || it.role = "mof_expert"
    || it.role = "tio2_expert") &&
  (it.type = "reasoningbank_item" || it.type = "manual_note") &&
  pstrip it.content = it.content && it.content ≠ "" &&
  decide (0 < it.updated_at)

def wfStore (st : List MemoryItem) : Bool := st.all wfItem

/-- A delta row as `create_rb_delta`/`mark_rb_delta_rolled_back` produce it. -/
def wfDelta (d : RBDelta) : Bool :=
  pstrip d.delta_id = d.delta_id && d.delta_id ≠ "" &&
  (d.status = "applied" || d.status = "rolled_back")

def wfDeltas (l : List RBDelta) : Bool := l.all wfDelta

/-- The write target of an op during rollback (the skip conditions of the
loop body): which mem_id the op can touch. -/
def opTarget : RBOp → Option String
  | .add m => if pstrip m = "" then none else some (pstrip m)
  | .update m before =>
    if pstrip m = "" then none
    else match before with
      | some snap => some (pstrip snap.mem_id)
      | none => none
  | .archiveOp m before =>
    if pstrip m = "" then none
    else match before with
      | some snap => some (pstrip snap.mem_id)
      | none => some (pstrip m)
  | .unknown => none

def targets (ops : List RBOp) : List String := ops.filterMap opTarget

/-- How the learn pass records ops at delta-creation time
(reasoningbank_learn.py mutation loop): an `update` op stores the current
item as its `before` snapshot and upserts the merged content over it; an
`add` op upserts a brand-new item under a fresh uuid.  `Recorded clock st
ops st'` says that running the mutation phase from memories `st` performed
exactly `ops` (in order) and ended in memories `st'`. -/
inductive Recorded (clock : Nat) : List MemoryItem → List RBOp →
    List MemoryItem → Prop where
  | nil (st : List MemoryItem) : Recorded clock st [] st
  | update (st stFin : List MemoryItem) (rest : List RBOp) (it res : MemoryItem)
      (stMid : List MemoryItem) (content : String)
      (extra : List (String × String))
      (hget : rbGet st it.mem_id = some it)
      (hup : upsert st clock (some it.mem_id) it.status it.role it.type
        content it.source_run_id it.schema_version extra none true ""
        = .ok (res, stMid))
      (hrest : Recorded clock stMid rest stFin) :
      Recorded clock st (RBOp.update it.mem_id (some it) :: rest) stFin
  | add (st stFin : List MemoryItem) (rest : List RBOp) (res : MemoryItem)
      (stMid : List MemoryItem) (role type content : String)
      (source : Option String) (extra : List (String × String))
      (fresh : String)
      (hfr : pstrip fresh = fresh) (hfne : fresh ≠ "")
      (hnew : rbGet st fresh = none)
      (hup : upsert st clock none "active" role type content source 1 extra
        none true fresh = .ok (res, stMid))
      (hrest : Recorded clock stMid rest stFin) :
      Recorded clock st (RBOp.add res.mem_id :: rest) stFin

/-- How one rollback pass may evolve a stored delta row: everything but the
status is untouched, and the status either stays or becomes `rolled_back`. -/
def rolledForward (d d' : RBDelta) : Prop :=
  d'.delta_id = d.delta_id ∧ d'.run_id = d.run_id ∧ d'.ops = d.ops ∧
  d'.created_at = d.created_at ∧
  (d'.status = d.status ∨ d'.status = "rolled_back")

end RB

-- ======================= THEOREMS =======================

namespace NatReprInj

theorem charVal_digitChar : ∀ d : Nat, d < 10 → charVal (Nat.digitChar d) = d := by
  decide

theorem toDigitsCore_append (b : Nat) :
    ∀ (fuel n : Nat) (ds : List Char),
      Nat.toDigitsCore b fuel n ds = Nat.toDigitsCore b fuel n [] ++ ds := by
  intro fuel
  induction fuel with
  | zero => intro n ds; simp [Nat.toDigitsCore]
  | succ f ih =>
    intro n ds
    simp only [Nat.toDigitsCore]
    by_cases h : n / b = 0
    · simp [h]
    · simp only [h, if_false]
      rw [ih (n / b) (Nat.digitChar (n % b) :: ds), ih (n / b) [Nat.digitChar (n % b)]]
      simp

theorem digitsVal_append_singleton (xs : List Char) (c : Char) :
    digitsVal (xs ++ [c]) = digitsVal xs * 10 + charVal c := by
  simp [digitsVal, List.foldl_append]

theorem digitsVal_toDigitsCore :
    ∀ (fuel n : Nat), n < 10 ^ fuel →
      digitsVal (Nat.toDigitsCore 10 fuel n []) = n := by
  intro fuel
  induction fuel with
  | zero =>
    intro n hn
    simp only [pow_zero, Nat.lt_one_iff] at hn
    subst hn
    simp [Nat.toDigitsCore, digitsVal]
  | succ f ih =>
    intro n hn
    simp only [Nat.toDigitsCore]
    by_cases h : n / 10 = 0
    · have hlt : n < 10 := by
        have := (Nat.div_eq_zero_iff (by norm_num : 0 < 10)).mp h
        omega
      simp [h, digitsVal, Nat.mod_eq_of_lt hlt, charVal_digitChar n hlt]
    · simp only [h, if_false]
      rw [toDigitsCore_append 10 f (n / 10) [Nat.digitChar (n % 10)]]
      rw [digitsVal_append_singleton]
      have hdiv : n / 10 < 10 ^ f := by
        rw [Nat.div_lt_iff_lt_mul (by norm_num : 0 < 10)]
        calc n < 10 ^ (f + 1) := hn
        _ = 10 ^ f * 10 := by ring
      rw [ih (n / 10) hdiv, charVal_digitChar (n % 10) (Nat.mod_lt n (by norm_num))]
      omega

theorem digitsVal_toDigits (n : Nat) : digitsVal (Nat.toDigits 10 n) = n := by
  have hbound : n < 10 ^ (n + 1) := by
    calc n < 10 ^ n := Nat.lt_pow_self (by norm_num) n
    _ ≤ 10 ^ (n + 1) := Nat.pow_le_pow_right (by norm_num) (Nat.le_succ n)
  exact digitsVal_toDigitsCore (n + 1) n hbound

theorem natRepr_injective : Function.Injective Nat.repr := by
  intro m n h
  have hdata : Nat.toDigits 10 m = Nat.toDigits 10 n := by
    have := congrArg String.data h
    simpa [Nat.repr, List.asString] using this
  have := congrArg digitsVal hdata
  rwa [digitsVal_toDigits, digitsVal_toDigits] at this

end NatReprInj

namespace Sched

theorem keyLt_eq_true_iff (a b : RunRow) :
    keyLt a b = true ↔
      a.created_at < b.created_at ∨ (a.created_at = b.created_at ∧ a.run_id < b.run_id) := by
  simp [keyLt]

theorem keyLt_self (m : RunRow) : keyLt m m = false := by
  simp [keyLt]

/-- `k z ≤ k y ≤ k x` implies `k z ≤ k x` (stated via the negation of `keyLt`). -/
theorem keyLt_false_trans {x y z : RunRow}
    (h₁ : keyLt x y = false) (h₂ : keyLt y z = false) : keyLt x z = false := by
  rw [← Bool.not_eq_true] at h₁ h₂ ⊢
  rw [keyLt_eq_true_iff] at h₁ h₂ ⊢
  push_neg at h₁ h₂ ⊢
  obtain ⟨h₁c, h₁r⟩ := h₁
  obtain ⟨h₂c, h₂r⟩ := h₂
  refine ⟨le_trans h₂c h₁c, fun hxz => ?_⟩
  have hy : y.created_at = x.created_at := by omega
  have hz : z.created_at = y.created_at := by omega
  exact le_trans (h₂r hz.symm) (h₁r hy.symm)

/-- `k x < k y` and `k z ≤ k x` imply `k z < k y`, hence `¬ k y ≤lex k z`. -/
theorem keyLt_trans_tf {x y z : RunRow}
    (h₁ : keyLt x y = true) (h₂ : keyLt x z = false) : keyLt y z = false := by
  rw [← Bool.not_eq_true] at h₂ ⊢
  rw [keyLt_eq_true_iff] at h₁ h₂ ⊢
  push_neg at h₂ ⊢
  obtain ⟨h₂c, h₂r⟩ := h₂
  constructor
  · rcases h₁ with h | ⟨heq, _⟩
    · omega
    · omega
  · intro hyz
    rcases h₁ with h | ⟨heq, hrid⟩
    · omega
    · have hzx : z.created_at = x.created_at := by omega
      exact le_of_lt (lt_of_le_of_lt (h₂r hzx.symm) hrid)

/-- The fold step of `selectOldestQueued`. -/
def selStep (acc : Option RunRow) (r : RunRow) : Option RunRow :=
  if r.status = RunStatus.queued then
    match acc with
    | none => some r
    | some m => if keyLt r m then some r else some m
  else acc

theorem selectOldestQueued_eq_foldl (runs : List RunRow) :
    selectOldestQueued runs = runs.foldl selStep none := rfl

theorem selFold_none_iff :
    ∀ (runs : List RunRow) (acc : Option RunRow),
      runs.foldl selStep acc = none ↔ acc = none ∧ ∀ r ∈ runs, r.status ≠ RunStatus.queued := by
  intro runs
  induction runs with
  | nil => intro acc; simp
  | cons r rest ih =>
    intro acc
    rw [List.foldl_cons, ih (selStep acc r)]
    constructor
    · rintro ⟨hstep, hrest⟩
      by_cases hq : r.status = RunStatus.queued
      · exfalso
        cases acc with
        | none => simp [selStep, hq] at hstep
        | some a =>
          simp only [selStep, hq, if_true] at hstep
          split at hstep <;> simp at hstep
      · simp only [selStep, hq, if_false] at hstep
        exact ⟨hstep, fun x hx => (List.mem_cons.mp hx).elim (fun he => he ▸ hq) (hrest x)⟩
    · rintro ⟨hacc, hall⟩
      have hq := hall r (List.mem_cons_self r rest)
      refine ⟨?_, fun x hx => hall x (List.mem_cons_of_mem r hx)⟩
      simp [selStep, hq, hacc]

theorem selFold_some_origin :
    ∀ (runs : List RunRow) (acc : Option RunRow) (m : RunRow),
      runs.foldl selStep acc = some m →
      acc = some m ∨ (m ∈ runs ∧ m.status = RunStatus.queued) := by
  intro runs
  induction runs with
  | nil => intro acc m h; exact Or.inl h
  | cons r rest ih =>
    intro acc m h
    rw [List.foldl_cons] at h
    rcases ih (selStep acc r) m h with hstep | ⟨hmem, hq⟩
    · by_cases hq : r.status = RunStatus.queued
      · cases acc with
        | none =>
          simp only [selStep, hq, if_true] at hstep
          injection hstep with he
          exact Or.inr ⟨List.mem_cons.mpr (Or.inl he.symm), he ▸ hq⟩
        | some a =>
          simp only [selStep, hq, if_true] at hstep
          split at hstep
          · injection hstep with he
            exact Or.inr ⟨List.mem_cons.mpr (Or.inl he.symm), he ▸ hq⟩
          · exact Or.inl hstep
      · simp only [selStep, hq, if_false] at hstep
        exact Or.inl hstep
    · exact Or.inr ⟨List.mem_cons_of_mem _ hmem, hq⟩

theorem selFold_min :
    ∀ (runs : List RunRow) (acc : Option RunRow) (m : RunRow),
      runs.foldl selStep acc = some m →
      (∀ r ∈ runs, r.status = RunStatus.queued → keyLt r m = false) ∧
      (∀ a, acc = some a → keyLt a m = false) := by
  intro runs
  induction runs with
  | nil =>
    intro acc m h
    rw [List.foldl_nil] at h
    refine ⟨by simp, fun a ha => ?_⟩
    rw [h] at ha
    injection ha with he
    exact he ▸ keyLt_self m
  | cons r rest ih =>
    intro acc m h
    rw [List.foldl_cons] at h
    obtain ⟨hrest, haccmin⟩ := ih (selStep acc r) m h
    by_cases hq : r.status = RunStatus.queued
    · cases hacc0 : acc with
      | none =>
        have hr : keyLt r m = false := haccmin r (by simp [selStep, hq, hacc0])
        refine ⟨?_, ?_⟩
        · intro x hx hxq
          rcases List.mem_cons.mp hx with he | hxm
          · exact he ▸ hr
          · exact hrest x hxm hxq
        · intro a ha
          simp at ha
      | some a =>
        cases hlt : keyLt r a with
        | true =>
          have hr : keyLt r m = false := haccmin r (by simp [selStep, hq, hacc0, hlt])
          have ha2 : keyLt a m = false := keyLt_trans_tf hlt hr
          refine ⟨?_, ?_⟩
          · intro x hx hxq
            rcases List.mem_cons.mp hx with he | hxm
            · exact he ▸ hr
            · exact hrest x hxm hxq
          · intro a' ha'
            injection ha' with he
            exact he ▸ ha2
        | false =>
          have ha2 : keyLt a m = false := haccmin a (by simp [selStep, hq, hacc0, hlt])
          have hr : keyLt r m = false := keyLt_false_trans hlt ha2
          refine ⟨?_, ?_⟩
          · intro x hx hxq
            rcases List.mem_cons.mp hx with he | hxm
            · exact he ▸ hr
            · exact hrest x hxm hxq
          · intro a' ha'
            injection ha' with he
            exact he ▸ ha2
    · refine ⟨?_, ?_⟩
      · intro x hx hxq
        rcases List.mem_cons.mp hx with he | hxm
        · exact absurd (he ▸ hxq) hq
        · exact hrest x hxm hxq
      · intro a ha
        exact haccmin a (by simp [selStep, hq, ha])

theorem filter_eq_singleton_of_nodup {l : List RunRow} {p : RunRow → Bool} {a : RunRow}
    (hnd : l.Nodup) (hmem : a ∈ l) (hpa : p a = true)
    (huniq : ∀ x ∈ l, p x = true → x = a) : l.filter p = [a] := by
  induction l with
  | nil => simp at hmem
  | cons x t ih =>
    obtain ⟨hxt, hndt⟩ := List.nodup_cons.mp hnd
    rcases List.mem_cons.mp hmem with he | hmt
    · subst he
      rw [List.filter_cons, if_pos hpa]
      have ht : t.filter p = [] := by
        rw [List.filter_eq_nil_iff]
        intro y hy hpy
        exact hxt ((huniq y (List.mem_cons_of_mem _ hy) (by simpa using hpy)) ▸ hy)
      rw [ht]
    · have hpx : p x = false := by
        cases hp : p x with
        | false => rfl
        | true => exact absurd ((huniq x (List.mem_cons_self _ _) hp) ▸ hmt) hxt
      rw [List.filter_cons, hpx]
      simp only [Bool.false_eq_true, if_false]
      exact ih hndt hmt fun y hy hpy => huniq y (List.mem_cons_of_mem _ hy) hpy

theorem claimRowcount_eq_one {db : DB} {row : RunRow}
    (hnd : (runIds db).Nodup) (hmem : row ∈ db.runs) (hq : row.status = RunStatus.queued) :
    claimRowcount row.run_id db.runs = 1 := by
  have hfil : db.runs.filter
      (fun r => r.run_id == row.run_id && r.status == RunStatus.queued) = [row] := by
    apply filter_eq_singleton_of_nodup (List.Nodup.of_map _ hnd) hmem
    · simp [hq]
    · intro x hx hpx
      simp only [Bool.and_eq_true, beq_iff_eq] at hpx
      exact List.inj_on_of_nodup_map hnd hx hmem hpx.1
  rw [claimRowcount, hfil]
  rfl

theorem getRun_of_mem {runs : List RunRow} {row : RunRow}
    (hnd : (runs.map RunRow.run_id).Nodup) (hmem : row ∈ runs) :
    runs.find? (fun r => r.run_id == row.run_id) = some row := by
  induction runs with
  | nil => simp at hmem
  | cons x t ih =>
    have hndt : (t.map RunRow.run_id).Nodup := by
      rw [List.map_cons, List.nodup_cons] at hnd
      exact hnd.2
    by_cases hx : x.run_id = row.run_id
    · have hx2 : x = row :=
        List.inj_on_of_nodup_map hnd (List.mem_cons_self _ _) hmem hx
      rw [List.find?_cons_of_pos]
      · exact congrArg some hx2
      · simp [hx]
    · have hmt : row ∈ t := by
        rcases List.mem_cons.mp hmem with he | hmt
        · exact absurd (show x.run_id = row.run_id by rw [he]) hx
        · exact hmt
      rw [List.find?_cons_of_neg]
      · exact ih hndt hmt
      · simp [hx]

theorem getRun_updateRunClaim {now : Nat} {runs : List RunRow} {row : RunRow}
    (hnd : (runs.map RunRow.run_id).Nodup) (hmem : row ∈ runs)
    (hq : row.status = RunStatus.queued) :
    getRun (updateRunClaim now row.run_id runs) row.run_id =
      some { row with status := RunStatus.running,
                      started_at := some (row.started_at.getD now) } := by
  rw [getRun, updateRunClaim, List.find?_map]
  have hfun : ((fun r : RunRow => r.run_id == row.run_id) ∘
      (fun r : RunRow =>
        if r.run_id = row.run_id ∧ r.status = RunStatus.queued then
          { r with status := RunStatus.running, started_at := some (r.started_at.getD now) }
        else r)) = fun r : RunRow => r.run_id == row.run_id := by
    funext r
    by_cases hc : r.run_id = row.run_id ∧ r.status = RunStatus.queued
    · simp only [Function.comp_apply, if_pos hc]
    · simp only [Function.comp_apply, if_neg hc]
  rw [hfun, getRun_of_mem hnd hmem]
  simp [hq]

theorem claim_some_eq {db : DB} {now : Nat} {row : RunRow}
    (hnd : (runIds db).Nodup) (hsel : selectOldestQueued db.runs = some row) :
    claim_next_queued_run db now =
      (some { row with status := RunStatus.running,
                       started_at := some (row.started_at.getD now) },
       { runs := updateRunClaim now row.run_id db.runs,
         batches := updateBatchClaim now row.batch_id db.batches }) := by
  have horig := selFold_some_origin db.runs none row
    (by rw [← selectOldestQueued_eq_foldl]; exact hsel)
  rcases horig with hno | ⟨hmem, hq⟩
  · cases hno
  · have hrc := claimRowcount_eq_one hnd hmem hq
    have hget := @getRun_updateRunClaim now _ _ hnd hmem hq
    simp only [claim_next_queued_run, hsel, hrc]
    simp [hget]

theorem updateRunClaim_preserves_notQueued {runs : List RunRow} {now : Nat} {rid id : String}
    (h : ∀ q ∈ runs, q.run_id = id → q.status ≠ RunStatus.queued) :
    ∀ q ∈ updateRunClaim now rid runs, q.run_id = id → q.status ≠ RunStatus.queued := by
  intro q hq hid
  rw [updateRunClaim, List.mem_map] at hq
  obtain ⟨q0, hq0, he⟩ := hq
  by_cases hc : q0.run_id = rid ∧ q0.status = RunStatus.queued
  · rw [if_pos hc] at he
    rw [← he]
    simp
  · rw [if_neg hc] at he
    exact h q0 hq0 (he ▸ hid) |>.imp fun hh => he ▸ hh

theorem updateRunClaim_clears_id (now : Nat) (rid : String) (runs : List RunRow) :
    ∀ q ∈ updateRunClaim now rid runs, q.run_id = rid → q.status ≠ RunStatus.queued := by
  intro q hq hid
  rw [updateRunClaim, List.mem_map] at hq
  obtain ⟨q0, hq0, he⟩ := hq
  by_cases hc : q0.run_id = rid ∧ q0.status = RunStatus.queued
  · rw [if_pos hc] at he
    rw [← he]
    simp
  · rw [if_neg hc] at he
    subst he
    intro hqs
    exact hc ⟨hid, hqs⟩

/-- Any successful claim names the oldest-queued row's id and leaves the run
table updated by the guarded UPDATE for exactly that id. -/
theorem claim_fst_characterize {db : DB} {now : Nat} {res : RunRow}
    (h : (claim_next_queued_run db now).1 = some res) :
    ∃ row, selectOldestQueued db.runs = some row ∧ res.run_id = row.run_id ∧
      (claim_next_queued_run db now).2.runs = updateRunClaim now row.run_id db.runs := by
  cases hsel : selectOldestQueued db.runs with
  | none =>
    exfalso
    simp [claim_next_queued_run, hsel] at h
  | some row =>
    by_cases hrc : claimRowcount row.run_id db.runs ≠ 1
    · exfalso
      simp [claim_next_queued_run, hsel, hrc] at h
    · refine ⟨row, rfl, ?_, ?_⟩
      · have h' : getRun (updateRunClaim now row.run_id db.runs) row.run_id = some res := by
          simpa [claim_next_queued_run, hsel, hrc] using h
        have := List.find?_some h'
        simpa using this
      · by_cases hrc2 : claimRowcount row.run_id db.runs ≠ 1
        · exact absurd hrc2 hrc
        · simp [claim_next_queued_run, hsel, hrc2]

theorem claim_snd_runs_cases (db : DB) (now : Nat) :
    (claim_next_queued_run db now).2.runs = db.runs ∨
    ∃ rid, (claim_next_queued_run db now).2.runs = updateRunClaim now rid db.runs := by
  cases hsel : selectOldestQueued db.runs with
  | none =>
    left
    simp [claim_next_queued_run, hsel]
  | some row =>
    right
    refine ⟨row.run_id, ?_⟩
    by_cases hrc : claimRowcount row.run_id db.runs ≠ 1
    · simp [claim_next_queued_run, hsel, hrc]
    · simp [claim_next_queued_run, hsel, hrc]

theorem claim_queued_exists {db : DB} {now : Nat} {res : RunRow}
    (h : (claim_next_queued_run db now).1 = some res) :
    ∃ q ∈ db.runs, q.run_id = res.run_id ∧ q.status = RunStatus.queued := by
  obtain ⟨row, hsel, hid, _⟩ := claim_fst_characterize h
  rcases selFold_some_origin db.runs none row
      (by rw [← selectOldestQueued_eq_foldl]; exact hsel) with hno | ⟨hmem, hq⟩
  · cases hno
  · exact ⟨row, hmem, hid.symm, hq⟩

theorem claim_clears_claimed_id {db : DB} {now : Nat} {res : RunRow}
    (h : (claim_next_queued_run db now).1 = some res) :
    ∀ q ∈ (claim_next_queued_run db now).2.runs,
      q.run_id = res.run_id → q.status ≠ RunStatus.queued := by
  obtain ⟨row, _, hid, hruns⟩ := claim_fst_characterize h
  rw [hruns, hid]
  exact updateRunClaim_clears_id now row.run_id db.runs

theorem claimTrace_avoid :
    ∀ (ts : List Nat) (db : DB) (id : String),
      (∀ q ∈ db.runs, q.run_id = id → q.status ≠ RunStatus.queued) →
      ∀ s ∈ ((claimTrace db ts).1.filterMap fun o => o.map RunRow.run_id), s ≠ id := by
  intro ts
  induction ts with
  | nil => intro db id _ s hs; simp [claimTrace] at hs
  | cons now rest ih =>
    intro db id havoid s hs
    have hdb' : ∀ q ∈ (claim_next_queued_run db now).2.runs,
        q.run_id = id → q.status ≠ RunStatus.queued := by
      rcases claim_snd_runs_cases db now with hsame | ⟨rid, hupd⟩
      · rw [hsame]; exact havoid
      · rw [hupd]; exact updateRunClaim_preserves_notQueued havoid
    have hcons : (claimTrace db (now :: rest)).1 =
        (claim_next_queued_run db now).1 ::
          (claimTrace (claim_next_queued_run db now).2 rest).1 := rfl
    rw [hcons, List.filterMap_cons] at hs
    cases hres : (claim_next_queued_run db now).1 with
    | none =>
      rw [hres] at hs
      exact ih (claim_next_queued_run db now).2 id hdb' s hs
    | some r =>
      rw [hres] at hs
      rcases List.mem_cons.mp hs with he | hs
      · obtain ⟨q, hq, hqid, hqst⟩ := claim_queued_exists hres
        intro hcontra
        exact havoid q hq (by rw [hqid, ← he, hcontra]) hqst
      · exact ih (claim_next_queued_run db now).2 id hdb' s hs

theorem claimTrace_nodup :
    ∀ (ts : List Nat) (db : DB),
      ((claimTrace db ts).1.filterMap fun o => o.map RunRow.run_id).Nodup := by
  intro ts
  induction ts with
  | nil => intro db; simp [claimTrace]
  | cons now rest ih =>
    intro db
    have hcons : (claimTrace db (now :: rest)).1 =
        (claim_next_queued_run db now).1 ::
          (claimTrace (claim_next_queued_run db now).2 rest).1 := rfl
    rw [hcons, List.filterMap_cons]
    cases hres : (claim_next_queued_run db now).1 with
    | none => exact ih (claim_next_queued_run db now).2
    | some r =>
      refine List.nodup_cons.mpr ⟨?_, ih (claim_next_queued_run db now).2⟩
      intro hmem
      exact claimTrace_avoid rest (claim_next_queued_run db now).2 r.run_id
        (claim_clears_claimed_id hres) r.run_id hmem rfl

/-- C1: `claim_next_queued_run` selects the oldest queued run (FIFO by
`created_at`, ties broken by `run_id`), transitions that run to `running`
(setting `started_at` only if null) and its batch to `running` only if the
batch is still `queued`, and returns the claimed run; when no queued run
exists it returns `none` with no state change; and across any serialized
sequence of claim invocations (the guarded queued-only UPDATE) every run id
is returned at most once, so each queued run transitions
`queued → running` exactly once. -/
theorem claim_next_queued_run_spec (db : DB) (now : Nat) (ts : List Nat)
    (hnd : (runIds db).Nodup) :
    ((∀ r ∈ db.runs, r.status ≠ RunStatus.queued) →
        claim_next_queued_run db now = (none, db))
    ∧ ((claim_next_queued_run db now).1 = none →
        ∀ r ∈ db.runs, r.status ≠ RunStatus.queued)
    ∧ (∀ res, (claim_next_queued_run db now).1 = some res →
        ∃ row ∈ db.runs,
          row.status = RunStatus.queued ∧
          (∀ q ∈ db.runs, q.status = RunStatus.queued → keyLt q row = false) ∧
          res = { row with status := RunStatus.running,
                           started_at := some (row.started_at.getD now) } ∧
          getRun (claim_next_queued_run db now).2.runs row.run_id = some res ∧
          (∀ b ∈ db.batches,
            (b.batch_id = row.batch_id ∧ b.status = RunStatus.queued →
              { b with status := RunStatus.running,
                       started_at := some (b.started_at.getD now) }
                ∈ (claim_next_queued_run db now).2.batches) ∧
            (¬(b.batch_id = row.batch_id ∧ b.status = RunStatus.queued) →
              b ∈ (claim_next_queued_run db now).2.batches)) ∧
          (∀ q ∈ db.runs, q.run_id ≠ row.run_id →
            q ∈ (claim_next_queued_run db now).2.runs))
    ∧ ((claimTrace db ts).1.filterMap fun o => o.map RunRow.run_id).Nodup := by
  refine ⟨?_, ?_, ?_, claimTrace_nodup ts db⟩
  · intro hall
    have hsel : selectOldestQueued db.runs = none := by
      rw [selectOldestQueued_eq_foldl]
      exact (selFold_none_iff db.runs none).mpr ⟨rfl, hall⟩
    simp [claim_next_queued_run, hsel]
  · intro hnone r hr hq
    cases hsel : selectOldestQueued db.runs with
    | none =>
      have := (selFold_none_iff db.runs none).mp
        (by rw [← selectOldestQueued_eq_foldl]; exact hsel)
      exact this.2 r hr hq
    | some row =>
      rw [claim_some_eq hnd hsel] at hnone
      simp at hnone
  · intro res hres
    obtain ⟨row, hsel, _, _⟩ := claim_fst_characterize hres
    have hclaim := @claim_some_eq _ now _ hnd hsel
    have hfold : db.runs.foldl selStep none = some row := by
      rw [← selectOldestQueued_eq_foldl]; exact hsel
    rcases selFold_some_origin db.runs none row hfold with hno | ⟨hmem, hq⟩
    · cases hno
    have hres_eq :
        res = { row with status := RunStatus.running,
                         started_at := some (row.started_at.getD now) } := by
      rw [hclaim] at hres
      exact (Option.some_inj.mp hres).symm
    refine ⟨row, hmem, hq, (selFold_min db.runs none row hfold).1, hres_eq, ?_, ?_, ?_⟩
    · rw [hclaim]
      rw [hres_eq]
      exact getRun_updateRunClaim hnd hmem hq
    · intro b hb
      constructor
      · intro hcond
        rw [hclaim]
        show _ ∈ updateBatchClaim now row.batch_id db.batches
        rw [updateBatchClaim]
        exact List.mem_map.mpr ⟨b, hb, by simp [hcond]⟩
      · intro hcond
        rw [hclaim]
        show _ ∈ updateBatchClaim now row.batch_id db.batches
        rw [updateBatchClaim]
        exact List.mem_map.mpr ⟨b, hb, by simp [hcond]⟩
    · intro q hq2 hqid
      rw [hclaim]
      show _ ∈ updateRunClaim now row.run_id db.runs
      rw [updateRunClaim]
      have hcnot : ¬(q.run_id = row.run_id ∧ q.status = RunStatus.queued) :=
        fun hc => hqid hc.1
      exact List.mem_map.mpr ⟨q, hq2, by simp [hcnot]⟩

/-- Witness for C1: a database with one queued run; the hypothesis
`(runIds db).Nodup` holds by evaluation and the exclusivity conjunct is
extracted at that input. -/
theorem claim_next_queued_run_spec_witness :
    (runIds ⟨[⟨"run_a", "batch_a", 5, RunStatus.queued, none⟩],
             [⟨"batch_a", RunStatus.queued, none⟩]⟩).Nodup ∧
    ((claimTrace ⟨[⟨"run_a", "batch_a", 5, RunStatus.queued, none⟩],
                  [⟨"batch_a", RunStatus.queued, none⟩]⟩ [1, 2]).1.filterMap
        fun o => o.map RunRow.run_id).Nodup :=
  ⟨by decide,
   (claim_next_queued_run_spec
      ⟨[⟨"run_a", "batch_a", 5, RunStatus.queued, none⟩],
       [⟨"batch_a", RunStatus.queued, none⟩]⟩ 7 [1, 2] (by decide)).2.2.2⟩

end Sched

namespace Worker

theorem any_perm_eq {l l' : List String} (hp : l.Perm l') (f : String → Bool) :
    l.any f = l'.any f := by
  apply Bool.eq_iff_iff.mpr
  simp only [List.any_eq_true]
  exact ⟨fun ⟨x, hx, hfx⟩ => ⟨x, hp.mem_iff.mp hx, hfx⟩,
         fun ⟨x, hx, hfx⟩ => ⟨x, hp.mem_iff.mpr hx, hfx⟩⟩

/-- C9: for a batch whose runs' statuses are all terminal (none queued or
running), the worker sets the batch status as a function of the multiset of
run statuses only (invariant under permutation): `failed` if any run failed,
else `canceled` if any run was canceled, else `completed`; and no terminal
batch status is set while any run is still queued or running. -/
theorem update_batch_terminal_status_spec (l l' : List String) (hperm : l.Perm l') :
    (_update_batch_terminal_status_if_done l = _update_batch_terminal_status_if_done l')
    ∧ ((∃ s ∈ l, s = "queued" ∨ s = "running") →
        _update_batch_terminal_status_if_done l = none)
    ∧ (l ≠ [] → (∀ s ∈ l, s ≠ "queued" ∧ s ≠ "running") →
        _update_batch_terminal_status_if_done l =
          some (if ∃ s ∈ l, s = "failed" then "failed"
                else if ∃ s ∈ l, s = "canceled" then "canceled"
                else "completed")) := by
  refine ⟨?_, ?_, ?_⟩
  · rw [_update_batch_terminal_status_if_done, _update_batch_terminal_status_if_done,
      hperm.isEmpty_eq, any_perm_eq hperm, any_perm_eq hperm, any_perm_eq hperm]
  · rintro ⟨s, hs, hqr⟩
    have hany : l.any (fun s => s == "queued" || s == "running") = true := by
      rw [List.any_eq_true]
      refine ⟨s, hs, ?_⟩
      rcases hqr with h | h <;> simp [h]
    by_cases he : l.isEmpty <;> simp [_update_batch_terminal_status_if_done, he, hany]
  · intro hne hterm
    have he : l.isEmpty = false := by
      rw [← Bool.not_eq_true, List.isEmpty_iff]
      exact hne
    have hact : l.any (fun s => s == "queued" || s == "running") = false := by
      rw [← Bool.not_eq_true, List.any_eq_true]
      rintro ⟨s, hs, hsb⟩
      obtain ⟨h1, h2⟩ := hterm s hs
      rcases Bool.or_eq_true _ _ |>.mp hsb with hb | hb
      · exact h1 (by simpa using hb)
      · exact h2 (by simpa using hb)
    rw [_update_batch_terminal_status_if_done, he, hact]
    simp only [Bool.false_eq_true, if_false]
    by_cases hf : ∃ s ∈ l, s = "failed"
    · have hanyf : l.any (fun s => s == "failed") = true := by
        rw [List.any_eq_true]
        obtain ⟨s, hs, hfe⟩ := hf
        exact ⟨s, hs, by simp [hfe]⟩
      simp [hanyf, hf]
    · have hanyf : l.any (fun s => s == "failed") = false := by
        rw [← Bool.not_eq_true, List.any_eq_true]
        rintro ⟨s, hs, hsb⟩
        exact hf ⟨s, hs, by simpa using hsb⟩
      by_cases hc : ∃ s ∈ l, s = "canceled"
      · have hanyc : l.any (fun s => s == "canceled") = true := by
          rw [List.any_eq_true]
          obtain ⟨s, hs, hce⟩ := hc
          exact ⟨s, hs, by simp [hce]⟩
        simp [hanyf, hanyc, hf, hc]
      · have hanyc : l.any (fun s => s == "canceled") = false := by
          rw [← Bool.not_eq_true, List.any_eq_true]
          rintro ⟨s, hs, hsb⟩
          exact hc ⟨s, hs, by simpa using hsb⟩
        simp [hanyf, hanyc, hf, hc]

/-- Witness for C9 at a concrete status multiset. -/
theorem update_batch_terminal_status_spec_witness :
    (["failed", "completed"] : List String).Perm ["completed", "failed"] ∧
    _update_batch_terminal_status_if_done ["failed", "completed"]
      = _update_batch_terminal_status_if_done ["completed", "failed"] :=
  ⟨List.Perm.swap "completed" "failed" [],
   (update_batch_terminal_status_spec ["failed", "completed"] ["completed", "failed"]
      (List.Perm.swap "completed" "failed" [])).1⟩

end Worker

namespace RBJobs

theorem latestFold_none_iff :
    ∀ (l : List RBJob) (acc : Option RBJob),
      l.foldl latestStep acc = none ↔ acc = none ∧ l = [] := by
  intro l
  induction l with
  | nil => intro acc; simp
  | cons j t ih =>
    intro acc
    rw [List.foldl_cons, ih (latestStep acc j)]
    constructor
    · rintro ⟨hstep, _⟩
      exfalso
      cases acc with
      | none => simp [latestStep] at hstep
      | some m =>
        simp only [latestStep] at hstep
        split at hstep <;> simp at hstep
    · rintro ⟨_, hcons⟩
      cases hcons

theorem latestFold_some_mem :
    ∀ (l : List RBJob) (acc : Option RBJob) (m : RBJob),
      l.foldl latestStep acc = some m → acc = some m ∨ m ∈ l := by
  intro l
  induction l with
  | nil => intro acc m h; exact Or.inl h
  | cons j t ih =>
    intro acc m h
    rw [List.foldl_cons] at h
    rcases ih (latestStep acc j) m h with hstep | hmem
    · cases acc with
      | none =>
        simp only [latestStep] at hstep
        injection hstep with he
        exact Or.inr (List.mem_cons.mpr (Or.inl he.symm))
      | some a =>
        simp only [latestStep] at hstep
        split at hstep
        · injection hstep with he
          exact Or.inr (List.mem_cons.mpr (Or.inl he.symm))
        · exact Or.inl hstep
    · exact Or.inr (List.mem_cons_of_mem _ hmem)

theorem get_latest_none_iff {jobs : List RBJob} {rid kind : String} {statuses : List String}
    (htr : pstrip rid = rid) (hne : rid ≠ "") :
    get_latest_rb_job_for_run jobs rid kind statuses = none ↔
      jobs.filter (jobMatches rid kind statuses) = [] := by
  rw [get_latest_rb_job_for_run, htr, if_neg hne, latestFold_none_iff]
  simp

theorem get_latest_some_mem {jobs : List RBJob} {rid kind : String} {statuses : List String}
    {q : RBJob} (htr : pstrip rid = rid)
    (h : get_latest_rb_job_for_run jobs rid kind statuses = some q) :
    q ∈ jobs ∧ jobMatches rid kind statuses q = true := by
  rw [get_latest_rb_job_for_run, htr] at h
  split at h
  · cases h
  · rcases latestFold_some_mem _ none q h with hno | hmem
    · cases hno
    · exact ⟨(List.mem_filter.mp hmem).1, (List.mem_filter.mp hmem).2⟩

theorem create_rb_job_ok {st : JobsState} {run_id : String} (htr : pstrip run_id = run_id)
    (hne : run_id ≠ "") (hrun : st.runs.contains run_id = true)
    (kind freshId : String) (now : Nat) (reason supersedes : String) :
    ∃ j, create_rb_job st run_id kind freshId now reason supersedes =
        .ok (j, { st with jobs := st.jobs ++ [j] }) ∧
      j = { rb_job_id := freshId, run_id := run_id,
            kind := if pstrip kind = "" then "learn" else pstrip kind,
            created_at := now, status := "queued", enqueue_reason := reason,
            supersedes_rb_job_id := supersedes } := by
  rw [create_rb_job, htr, if_neg hne, if_neg (fun hc => hc hrun)]
  exact ⟨_, rfl, rfl⟩

/-- C10: `enqueue_rb_learn_job` first looks for an existing queued learn job
for the run inside the single-writer transaction and returns it without
inserting anything; only when none is queued does it insert one new queued
job, recording whether it supersedes a currently running job; hence the
number of queued learn jobs per run never exceeds one. -/
theorem enqueue_rb_learn_job_spec (st : JobsState) (run_id freshId : String) (now : Nat)
    (htr : pstrip run_id = run_id) (hne : run_id ≠ "") :
    (∀ q, get_latest_rb_job_for_run st.jobs run_id "learn" ["queued"] = some q →
        enqueue_rb_learn_job st run_id freshId now = .ok (q, st))
    ∧ (∀ q, get_latest_rb_job_for_run st.jobs run_id "learn" ["queued"] = some q →
        q ∈ st.jobs ∧ q.run_id = run_id ∧ q.kind = "learn" ∧ q.status = "queued")
    ∧ (get_latest_rb_job_for_run st.jobs run_id "learn" ["queued"] = none →
        st.runs.contains run_id = true →
        ∃ j, enqueue_rb_learn_job st run_id freshId now =
              .ok (j, { st with jobs := st.jobs ++ [j] }) ∧
          j.run_id = run_id ∧ j.status = "queued" ∧
          (∀ r, get_latest_rb_job_for_run st.jobs run_id "learn" ["running"] = some r →
              j.enqueue_reason = "latest_compensation" ∧
              j.supersedes_rb_job_id = r.rb_job_id) ∧
          (get_latest_rb_job_for_run st.jobs run_id "learn" ["running"] = none →
              j.enqueue_reason = "enqueue" ∧ j.supersedes_rb_job_id = ""))
    ∧ (∀ j st', countQueuedLearn run_id st.jobs ≤ 1 →
        enqueue_rb_learn_job st run_id freshId now = .ok (j, st') →
        countQueuedLearn run_id st'.jobs ≤ 1) := by
  refine ⟨?_, ?_, ?_, ?_⟩
  · intro q hq
    rw [enqueue_rb_learn_job, htr, if_neg hne, hq]
  · intro q hq
    obtain ⟨hmem, hmatch⟩ := get_latest_some_mem htr hq
    simp only [jobMatches, Bool.and_eq_true, beq_iff_eq, List.contains_cons,
      List.contains_nil, Bool.or_false] at hmatch
    exact ⟨hmem, hmatch.1.1, hmatch.1.2, by simpa using hmatch.2⟩
  · intro hq hrun
    rw [enqueue_rb_learn_job, htr, if_neg hne, hq]
    cases hrunning : get_latest_rb_job_for_run st.jobs run_id "learn" ["running"] with
    | some r =>
      obtain ⟨j, hcj, hjval⟩ :=
        create_rb_job_ok htr hne hrun "learn" freshId now "latest_compensation" r.rb_job_id
      refine ⟨j, ?_, ?_, ?_, ?_, ?_⟩
      · show create_rb_job st run_id "learn" freshId now "latest_compensation" r.rb_job_id
            = _
        exact hcj
      · rw [hjval]
      · rw [hjval]
      · intro r' hr'
        injection hr' with he
        rw [hjval, he]
        exact ⟨rfl, rfl⟩
      · intro hnone
        cases hnone
    | none =>
      obtain ⟨j, hcj, hjval⟩ :=
        create_rb_job_ok htr hne hrun "learn" freshId now "enqueue" ""
      refine ⟨j, ?_, ?_, ?_, ?_, ?_⟩
      · show create_rb_job st run_id "learn" freshId now "enqueue" "" = _
        exact hcj
      · rw [hjval]
      · rw [hjval]
      · intro r' hr'
        cases hr'
      · intro _
        rw [hjval]
        exact ⟨rfl, rfl⟩
  · intro j st' hcount henq
    rw [enqueue_rb_learn_job, htr, if_neg hne] at henq
    cases hq : get_latest_rb_job_for_run st.jobs run_id "learn" ["queued"] with
    | some q =>
      rw [hq] at henq
      have henq' : (Except.ok (q, st) : Except JobsErr (RBJob × JobsState)) =
          .ok (j, st') := henq
      injection henq' with hpair
      injection hpair with _ hst
      rw [← hst]
      exact hcount
    | none =>
      rw [hq] at henq
      have hempty : st.jobs.filter (jobMatches run_id "learn" ["queued"]) = [] :=
        (get_latest_none_iff htr hne).mp hq
      have hst' : st'.jobs = st.jobs ++ [j] := by
        cases hrunning : get_latest_rb_job_for_run st.jobs run_id "learn" ["running"] with
        | some r =>
          rw [hrunning] at henq
          have henq' : create_rb_job st run_id "learn" freshId now "latest_compensation"
              r.rb_job_id = .ok (j, st') := henq
          rw [create_rb_job, htr, if_neg hne] at henq'
          split at henq'
          · simp at henq'
          · injection henq' with hpair
            injection hpair with hj hst
            rw [← hst, ← hj]
        | none =>
          rw [hrunning] at henq
          have henq' : create_rb_job st run_id "learn" freshId now "enqueue" "" =
              .ok (j, st') := henq
          rw [create_rb_job, htr, if_neg hne] at henq'
          split at henq'
          · simp at henq'
          · injection henq' with hpair
            injection hpair with hj hst
            rw [← hst, ← hj]
      rw [countQueuedLearn, hst', List.filter_append, hempty, List.nil_append]
      calc (List.filter (jobMatches run_id "learn" ["queued"]) [j]).length
          ≤ [j].length := List.length_filter_le _ _
      _ = 1 := rfl

/-- Witness for C10: enqueue on a fresh run inserts exactly one queued job. -/
theorem enqueue_rb_learn_job_spec_witness :
    pstrip "run1" = "run1" ∧ ("run1" : String) ≠ "" ∧
    (∀ j st', countQueuedLearn "run1" (JobsState.mk [] ["run1"]).jobs ≤ 1 →
      enqueue_rb_learn_job (JobsState.mk [] ["run1"]) "run1" "rbjob_1" 3 = .ok (j, st') →
      countQueuedLearn "run1" st'.jobs ≤ 1) :=
  ⟨by decide, by decide,
   (enqueue_rb_learn_job_spec (JobsState.mk [] ["run1"]) "run1" "rbjob_1" 3
      (by decide) (by decide)).2.2.2⟩

end RBJobs

namespace Api

/-- C2: idempotent batch creation. If a record is stored under the key and
its hash matches the hash of the new body, the stored response is returned
and the state is unchanged (no batch or run is created); if the stored hash
differs, a conflict is raised and the state is unchanged; otherwise the
batch, all of its `n_runs` runs (each `queued`, pointing at the batch) and
the idempotency record are created together in the single returned state
(one transaction: all or nothing). -/
theorem create_batch_idempotency_spec (st : ApiState) (k : String)
    (hashFn : Body → String) (body : Body) (freshBatchId : String)
    (freshRunId : Nat → String) (now : Nat) :
    (∀ rec, get_idempotency st.idem k = some rec →
        rec.request_hash = hashFn body →
        create_batch st (some k) hashFn body freshBatchId freshRunId now =
          .ok (rec.response, st))
    ∧ (∀ rec, get_idempotency st.idem k = some rec →
        rec.request_hash ≠ hashFn body →
        create_batch st (some k) hashFn body freshBatchId freshRunId now =
          .error .conflict)
    ∧ (get_idempotency st.idem k = none →
        ∃ batch runs,
          create_batch st (some k) hashFn body freshBatchId freshRunId now =
            .ok (⟨batch, runs⟩,
              { idem := st.idem ++ [⟨k, hashFn body, ⟨batch, runs⟩⟩]
                batches := st.batches ++ [batch]
                runs := st.runs ++ runs }) ∧
          runs.length = body.n_runs ∧
          batch.status = Sched.RunStatus.queued ∧
          batch.n_runs = body.n_runs ∧
          batch.recipes_per_run = body.recipes_per_run ∧
          batch.user_request = body.user_request ∧
          ∀ r ∈ runs, r.batch_id = batch.batch_id ∧ r.status = Sched.RunStatus.queued) := by
  refine ⟨?_, ?_, ?_⟩
  · intro rec hrec hmatch
    simp only [create_batch, hrec]
    rw [if_neg (fun hne => hne hmatch)]
  · intro rec hrec hdiff
    simp only [create_batch, hrec]
    rw [if_pos hdiff]
  · intro hnone
    refine ⟨mkBatch body freshBatchId now, mkRuns body freshBatchId freshRunId now,
      ?_, ?_, rfl, rfl, rfl, rfl, ?_⟩
    · simp only [create_batch, hnone, put_idempotency]
    · simp [mkRuns]
    · intro r hr
      simp only [mkRuns, List.mem_map] at hr
      obtain ⟨i, _, he⟩ := hr
      rw [← he]
      exact ⟨rfl, rfl⟩

/-- Witness for C2: creating a batch of two runs under a fresh key. -/
theorem create_batch_idempotency_spec_witness :
    get_idempotency (ApiState.mk [] [] []).idem "key1" = none ∧
    (∃ batch runs,
      create_batch (ApiState.mk [] [] []) (some "key1") (fun _ => "h")
          ⟨"req", 2, 1⟩ "b1" (fun _ => "r1") 3 =
        .ok (⟨batch, runs⟩,
          { idem := (ApiState.mk [] [] []).idem ++ [⟨"key1", (fun _ : Body => "h") ⟨"req", 2, 1⟩, ⟨batch, runs⟩⟩]
            batches := (ApiState.mk [] [] []).batches ++ [batch]
            runs := (ApiState.mk [] [] []).runs ++ runs }) ∧
      runs.length = (Body.mk "req" 2 1).n_runs ∧
      batch.status = Sched.RunStatus.queued ∧
      batch.n_runs = (Body.mk "req" 2 1).n_runs ∧
      batch.recipes_per_run = (Body.mk "req" 2 1).recipes_per_run ∧
      batch.user_request = (Body.mk "req" 2 1).user_request ∧
      ∀ r ∈ runs, r.batch_id = batch.batch_id ∧ r.status = Sched.RunStatus.queued) :=
  ⟨rfl,
   (create_batch_idempotency_spec (ApiState.mk [] [] []) "key1" (fun _ => "h")
      ⟨"req", 2, 1⟩ "b1" (fun _ => "r1") 3).2.2 rfl⟩

end Api

namespace KB

theorem mkAlias_inj (pfx : String) {i j : Nat} (h : mkAlias pfx i = mkAlias pfx j) :
    i = j := by
  have hdata := congrArg String.data h
  rw [mkAlias, mkAlias, String.data_append, String.data_append] at hdata
  have hrepr : (Nat.repr i).data = (Nat.repr j).data := List.append_cancel_left hdata
  exact NatReprInj.natRepr_injective (String.ext hrepr)

theorem lookup_some_mem {α β : Type} [BEq α] [LawfulBEq α] {l : List (α × β)} {k : α}
    {v : β} (h : l.lookup k = some v) : (k, v) ∈ l := by
  obtain ⟨l₁, l₂, he, _⟩ := List.lookup_eq_some_iff.mp h
  rw [he]
  exact List.mem_append.mpr (Or.inr (List.mem_cons_self _ _))

theorem lookup_append_left {α β : Type} [BEq α] [LawfulBEq α] {l t : List (α × β)}
    {k : α} {v : β} (h : l.lookup k = some v) : (l ++ t).lookup k = some v := by
  rw [List.lookup_append, h]
  rfl

theorem initReg_wf (pfx : String) : RegWF pfx initReg := by
  refine ⟨?_, ?_, ?_, ?_, ?_, ?_, ?_⟩ <;> simp [initReg]

theorem registerChunk_none_eq (pfx : String) (reg : KBReg) (ch : KBChunk)
    (hl : reg.kb_ref_to_alias.lookup ch.ref = none) :
    registerChunk pfx reg ch =
      (⟨reg.kb_alias_map ++ [(mkAlias pfx reg.kb_next_index, ch.ref)],
        reg.kb_ref_to_alias ++ [(ch.ref, mkAlias pfx reg.kb_next_index)],
        reg.kb_all_aliased_chunks ++ [storedFor (mkAlias pfx reg.kb_next_index) ch],
        reg.kb_alias_to_chunk ++
          [(mkAlias pfx reg.kb_next_index, storedFor (mkAlias pfx reg.kb_next_index) ch)],
        reg.kb_next_index + 1⟩,
       mkAlias pfx reg.kb_next_index, storedFor (mkAlias pfx reg.kb_next_index) ch) := by
  simp only [registerChunk, hl, storedFor]

theorem registerChunk_hit_eq (pfx : String) (reg : KBReg) (ch : KBChunk) {a : String}
    {stored : AliasedKBChunk} (hl : reg.kb_ref_to_alias.lookup ch.ref = some a)
    (hc : reg.kb_alias_to_chunk.lookup a = some stored) :
    registerChunk pfx reg ch = (reg, a, stored) := by
  simp only [registerChunk, hl, hc]

theorem registerChunk_repair_eq (pfx : String) (reg : KBReg) (ch : KBChunk) {a : String}
    (hl : reg.kb_ref_to_alias.lookup ch.ref = some a)
    (hc : reg.kb_alias_to_chunk.lookup a = none) :
    registerChunk pfx reg ch =
      ({ reg with kb_alias_to_chunk := reg.kb_alias_to_chunk ++ [(a, storedFor a ch)] },
       a, storedFor a ch) := by
  simp only [registerChunk, hl, hc, storedFor]

theorem registerChunk_spec (pfx : String) (reg : KBReg) (ch : KBChunk)
    (hwf : RegWF pfx reg) :
    RegWF pfx (registerChunk pfx reg ch).1
    ∧ (∃ t, (registerChunk pfx reg ch).1.kb_ref_to_alias = reg.kb_ref_to_alias ++ t)
    ∧ (∃ t, (registerChunk pfx reg ch).1.kb_alias_map = reg.kb_alias_map ++ t)
    ∧ (∃ t, (registerChunk pfx reg ch).1.kb_alias_to_chunk = reg.kb_alias_to_chunk ++ t)
    ∧ (∃ t, (registerChunk pfx reg ch).1.kb_all_aliased_chunks
          = reg.kb_all_aliased_chunks ++ t)
    ∧ (registerChunk pfx reg ch).1.kb_ref_to_alias.lookup ch.ref
        = some (registerChunk pfx reg ch).2.1
    ∧ (registerChunk pfx reg ch).2.2.aliasTok = (registerChunk pfx reg ch).2.1
    ∧ (registerChunk pfx reg ch).2.2.ref = ch.ref := by
  cases hl : (reg.kb_ref_to_alias.lookup ch.ref : Option String) with
  | none =>
    have hkeyfresh : ∀ p ∈ reg.kb_ref_to_alias, p.1 ≠ ch.ref := by
      intro p hp he
      have := List.lookup_eq_none_iff.mp hl p hp
      simp [he] at this
    have haliasfresh : ∀ p ∈ reg.kb_ref_to_alias,
        p.2 ≠ mkAlias pfx reg.kb_next_index := by
      intro p hp he
      obtain ⟨i, _, hlt, heq⟩ := hwf.aliasIdx p hp
      rw [heq] at he
      exact absurd (mkAlias_inj pfx he) (Nat.ne_of_lt hlt)
    have hchunkfresh : ∀ q ∈ reg.kb_alias_to_chunk,
        q.1 ≠ mkAlias pfx reg.kb_next_index := by
      intro q hq he
      have hcons : List.lookup q.2.ref reg.kb_ref_to_alias = some q.1 :=
        (hwf.chunkConsist q hq).2
      exact haliasfresh _ (lookup_some_mem hcons) he
    rw [registerChunk_none_eq pfx reg ch hl]
    refine ⟨?_, ⟨_, rfl⟩, ⟨_, rfl⟩, ⟨_, rfl⟩, ⟨_, rfl⟩, ?_, rfl, rfl⟩
    · refine ⟨?_, ?_, ?_, ?_, ?_, ?_, ?_⟩
      · show (List.map Prod.fst (reg.kb_ref_to_alias ++ _)).Nodup
        rw [List.map_append, List.nodup_append]
        refine ⟨hwf.refKeysNodup, by simp, ?_⟩
        intro x hx hx2
        simp only [List.map_cons, List.map_nil, List.mem_singleton] at hx2
        obtain ⟨p, hp, hpe⟩ := List.mem_map.mp hx
        exact hkeyfresh p hp (by rw [hpe, hx2])
      · show (List.map Prod.snd (reg.kb_ref_to_alias ++ _)).Nodup
        rw [List.map_append, List.nodup_append]
        refine ⟨hwf.aliasNodup, by simp, ?_⟩
        intro x hx hx2
        simp only [List.map_cons, List.map_nil, List.mem_singleton] at hx2
        obtain ⟨p, hp, hpe⟩ := List.mem_map.mp hx
        exact haliasfresh p hp (by rw [hpe, hx2])
      · intro p hp
        rcases List.mem_append.mp hp with hold | hnew
        · obtain ⟨i, h1, h2, h3⟩ := hwf.aliasIdx p hold
          exact ⟨i, h1, Nat.lt_succ_of_lt h2, h3⟩
        · simp only [List.mem_singleton] at hnew
          exact ⟨reg.kb_next_index, hwf.onePos, Nat.lt_succ_self _, by rw [hnew]⟩
      · show reg.kb_alias_map ++ _ = List.map _ (reg.kb_ref_to_alias ++ _)
        rw [hwf.mapInv, List.map_append]
        rfl
      · show (List.map Prod.fst (reg.kb_alias_to_chunk ++ _)).Nodup
        rw [List.map_append, List.nodup_append]
        refine ⟨hwf.chunkKeysNodup, by simp, ?_⟩
        intro x hx hx2
        simp only [List.map_cons, List.map_nil, List.mem_singleton] at hx2
        obtain ⟨q, hq, hqe⟩ := List.mem_map.mp hx
        exact hchunkfresh q hq (by rw [hqe, hx2])
      · intro q hq
        rcases List.mem_append.mp hq with hold | hnew
        · obtain ⟨h1, h2⟩ := hwf.chunkConsist q hold
          exact ⟨h1, lookup_append_left h2⟩
        · simp only [List.mem_singleton] at hnew
          subst hnew
          refine ⟨rfl, ?_⟩
          show List.lookup ch.ref (reg.kb_ref_to_alias ++ _) = _
          rw [List.lookup_append, hl]
          simp
      · exact Nat.le_succ_of_le hwf.onePos
    · show List.lookup ch.ref (reg.kb_ref_to_alias ++ _) = _
      rw [List.lookup_append, hl]
      simp
  | some a =>
    cases hc : (reg.kb_alias_to_chunk.lookup a : Option AliasedKBChunk) with
    | some stored =>
      have hcons := hwf.chunkConsist (a, stored) (lookup_some_mem hc)
      have hc1 : stored.aliasTok = a := hcons.1
      have hc2 : List.lookup stored.ref reg.kb_ref_to_alias = some a := hcons.2
      rw [registerChunk_hit_eq pfx reg ch hl hc]
      refine ⟨hwf, ⟨[], by simp⟩, ⟨[], by simp⟩, ⟨[], by simp⟩, ⟨[], by simp⟩,
        hl, hc1, ?_⟩
      have hm1 : (stored.ref, a) ∈ reg.kb_ref_to_alias := lookup_some_mem hc2
      have hm2 : (ch.ref, a) ∈ reg.kb_ref_to_alias := lookup_some_mem hl
      have := List.inj_on_of_nodup_map hwf.aliasNodup hm1 hm2 rfl
      exact congrArg Prod.fst this
    | none =>
      have hchunkfresh : ∀ q ∈ reg.kb_alias_to_chunk, q.1 ≠ a := by
        intro q hq he
        have := List.lookup_eq_none_iff.mp hc q hq
        simp [he] at this
      rw [registerChunk_repair_eq pfx reg ch hl hc]
      refine ⟨?_, ⟨[], by simp⟩, ⟨[], by simp⟩, ⟨_, rfl⟩, ⟨[], by simp⟩, hl, rfl, rfl⟩
      refine ⟨hwf.refKeysNodup, hwf.aliasNodup, hwf.aliasIdx, hwf.mapInv, ?_, ?_,
        hwf.onePos⟩
      · show (List.map Prod.fst (reg.kb_alias_to_chunk ++ _)).Nodup
        rw [List.map_append, List.nodup_append]
        refine ⟨hwf.chunkKeysNodup, by simp, ?_⟩
        intro x hx hx2
        simp only [List.map_cons, List.map_nil, List.mem_singleton] at hx2
        obtain ⟨q, hq, hqe⟩ := List.mem_map.mp hx
        exact hchunkfresh q hq (by rw [hqe, hx2])
      · intro q hq
        rcases List.mem_append.mp hq with hold | hnew
        · exact hwf.chunkConsist q hold
        · simp only [List.mem_singleton] at hnew
          subst hnew
          exact ⟨rfl, hl⟩

theorem processChunk_inv (pfx : String) (s : SearchFold) (ch : KBChunk)
    (h : FoldInv pfx s) :
    FoldInv pfx (processChunk pfx s ch)
    ∧ (∃ t, (processChunk pfx s ch).reg.kb_ref_to_alias = s.reg.kb_ref_to_alias ++ t)
    ∧ (∃ t, (processChunk pfx s ch).reg.kb_alias_map = s.reg.kb_alias_map ++ t)
    ∧ (∃ t, (processChunk pfx s ch).reg.kb_alias_to_chunk = s.reg.kb_alias_to_chunk ++ t)
    ∧ (∃ t, (processChunk pfx s ch).reg.kb_all_aliased_chunks
          = s.reg.kb_all_aliased_chunks ++ t)
    ∧ ((processChunk pfx s ch).reg.kb_ref_to_alias.lookup ch.ref).isSome := by
  obtain ⟨hwf, hobs⟩ := h
  obtain ⟨hwf', ⟨t1, hg1⟩, ⟨t2, hg2⟩, ⟨t3, hg3⟩, ⟨t4, hg4⟩, hlook, htok, href⟩ :=
    registerChunk_spec pfx s.reg ch hwf
  by_cases hseen : (registerChunk pfx s.reg ch).2.1 ∈ s.seen_in_obs
  · have hpc : processChunk pfx s ch =
        ⟨(registerChunk pfx s.reg ch).1, s.seen_in_obs, s.aliased_for_obs⟩ := by
      simp only [processChunk]
      rw [if_pos hseen]
    rw [hpc]
    refine ⟨⟨hwf', ?_⟩, ⟨t1, hg1⟩, ⟨t2, hg2⟩, ⟨t3, hg3⟩, ⟨t4, hg4⟩, ?_⟩
    · intro e he
      rw [hg1]
      exact lookup_append_left (hobs e he)
    · rw [hlook]
      rfl
  · have hpc : processChunk pfx s ch =
        ⟨(registerChunk pfx s.reg ch).1,
         s.seen_in_obs ++ [(registerChunk pfx s.reg ch).2.1],
         s.aliased_for_obs ++ [(registerChunk pfx s.reg ch).2.2]⟩ := by
      simp only [processChunk]
      rw [if_neg hseen]
    rw [hpc]
    refine ⟨⟨hwf', ?_⟩, ⟨t1, hg1⟩, ⟨t2, hg2⟩, ⟨t3, hg3⟩, ⟨t4, hg4⟩, ?_⟩
    · intro e he
      rcases List.mem_append.mp he with hold | hnew
      · rw [hg1]
        exact lookup_append_left (hobs e hold)
      · simp only [List.mem_singleton] at hnew
        subst hnew
        rw [href, htok]
        exact hlook
    · rw [hlook]
      rfl

theorem searchFold_inv (pfx : String) :
    ∀ (chunks : List KBChunk) (s : SearchFold), FoldInv pfx s →
      FoldInv pfx (chunks.foldl (processChunk pfx) s)
      ∧ (∃ t, (chunks.foldl (processChunk pfx) s).reg.kb_ref_to_alias
            = s.reg.kb_ref_to_alias ++ t)
      ∧ (∃ t, (chunks.foldl (processChunk pfx) s).reg.kb_alias_map
            = s.reg.kb_alias_map ++ t)
      ∧ (∃ t, (chunks.foldl (processChunk pfx) s).reg.kb_alias_to_chunk
            = s.reg.kb_alias_to_chunk ++ t)
      ∧ (∃ t, (chunks.foldl (processChunk pfx) s).reg.kb_all_aliased_chunks
            = s.reg.kb_all_aliased_chunks ++ t)
      ∧ (∀ ch ∈ chunks,
          ((chunks.foldl (processChunk pfx) s).reg.kb_ref_to_alias.lookup ch.ref).isSome) := by
  intro chunks
  induction chunks with
  | nil =>
    intro s h
    exact ⟨h, ⟨[], by simp⟩, ⟨[], by simp⟩, ⟨[], by simp⟩, ⟨[], by simp⟩, by simp⟩
  | cons ch rest ih =>
    intro s h
    obtain ⟨hinv1, ⟨t1, h1⟩, ⟨t2, h2⟩, ⟨t3, h3⟩, ⟨t4, h4⟩, hsome⟩ :=
      processChunk_inv pfx s ch h
    obtain ⟨hinvR, ⟨u1, g1⟩, ⟨u2, g2⟩, ⟨u3, g3⟩, ⟨u4, g4⟩, hallR⟩ :=
      ih (processChunk pfx s ch) hinv1
    rw [List.foldl_cons]
    refine ⟨hinvR,
      ⟨t1 ++ u1, by rw [g1, h1, List.append_assoc]⟩,
      ⟨t2 ++ u2, by rw [g2, h2, List.append_assoc]⟩,
      ⟨t3 ++ u3, by rw [g3, h3, List.append_assoc]⟩,
      ⟨t4 ++ u4, by rw [g4, h4, List.append_assoc]⟩, ?_⟩
    intro c hc
    rcases List.mem_cons.mp hc with he | hmem
    · subst he
      obtain ⟨v, hv⟩ := Option.isSome_iff_exists.mp hsome
      rw [g1]
      rw [lookup_append_left hv]
      rfl
    · exact hallR c hmem

theorem kb_search_register_spec (pfx : String) (reg : KBReg) (chunks : List KBChunk)
    (hwf : RegWF pfx reg) :
    RegWF pfx (kb_search_register pfx reg chunks).1
    ∧ (∃ t, (kb_search_register pfx reg chunks).1.kb_ref_to_alias
          = reg.kb_ref_to_alias ++ t)
    ∧ (∃ t, (kb_search_register pfx reg chunks).1.kb_alias_map
          = reg.kb_alias_map ++ t)
    ∧ (∃ t, (kb_search_register pfx reg chunks).1.kb_alias_to_chunk
          = reg.kb_alias_to_chunk ++ t)
    ∧ (∃ t, (kb_search_register pfx reg chunks).1.kb_all_aliased_chunks
          = reg.kb_all_aliased_chunks ++ t)
    ∧ (∀ ch ∈ chunks,
        ((kb_search_register pfx reg chunks).1.kb_ref_to_alias.lookup ch.ref).isSome)
    ∧ (∀ e ∈ (kb_search_register pfx reg chunks).2,
        (kb_search_register pfx reg chunks).1.kb_ref_to_alias.lookup e.ref
          = some e.aliasTok) := by
  have h0 : FoldInv pfx ⟨reg, [], []⟩ := ⟨hwf, by simp⟩
  obtain ⟨⟨hwfF, hobsF⟩, g1, g2, g3, g4, hall⟩ := searchFold_inv pfx chunks ⟨reg, [], []⟩ h0
  exact ⟨hwfF, g1, g2, g3, g4, hall, hobsF⟩

theorem runFold_spec (pfx : String) :
    ∀ (searches : List (List KBChunk)) (reg : KBReg), RegWF pfx reg →
      RegWF pfx (searches.foldl (fun r c => (kb_search_register pfx r c).1) reg)
      ∧ (∃ t, (searches.foldl (fun r c => (kb_search_register pfx r c).1) reg).kb_ref_to_alias
            = reg.kb_ref_to_alias ++ t)
      ∧ (∃ t, (searches.foldl (fun r c => (kb_search_register pfx r c).1) reg).kb_alias_map
            = reg.kb_alias_map ++ t)
      ∧ (∃ t, (searches.foldl (fun r c => (kb_search_register pfx r c).1) reg).kb_alias_to_chunk
            = reg.kb_alias_to_chunk ++ t)
      ∧ (∃ t, (searches.foldl (fun r c => (kb_search_register pfx r c).1) reg).kb_all_aliased_chunks
            = reg.kb_all_aliased_chunks ++ t) := by
  intro searches
  induction searches with
  | nil =>
    intro reg hwf
    exact ⟨hwf, ⟨[], by simp⟩, ⟨[], by simp⟩, ⟨[], by simp⟩, ⟨[], by simp⟩⟩
  | cons cs rest ih =>
    intro reg hwf
    obtain ⟨hwf1, ⟨t1, h1⟩, ⟨t2, h2⟩, ⟨t3, h3⟩, ⟨t4, h4⟩, _, _⟩ :=
      kb_search_register_spec pfx reg cs hwf
    obtain ⟨hwfR, ⟨u1, g1⟩, ⟨u2, g2⟩, ⟨u3, g3⟩, ⟨u4, g4⟩⟩ :=
      ih (kb_search_register pfx reg cs).1 hwf1
    rw [List.foldl_cons]
    exact ⟨hwfR,
      ⟨t1 ++ u1, by rw [g1, h1, List.append_assoc]⟩,
      ⟨t2 ++ u2, by rw [g2, h2, List.append_assoc]⟩,
      ⟨t3 ++ u3, by rw [g3, h3, List.append_assoc]⟩,
      ⟨t4 ++ u4, by rw [g4, h4, List.append_assoc]⟩⟩

theorem runFold_all_present (pfx : String) :
    ∀ (searches : List (List KBChunk)) (reg : KBReg), RegWF pfx reg →
      ∀ cs ∈ searches, ∀ ch ∈ cs,
        (((searches.foldl (fun r c => (kb_search_register pfx r c).1) reg)).kb_ref_to_alias.lookup ch.ref).isSome := by
  intro searches
  induction searches with
  | nil => intro reg _ cs hcs; simp at hcs
  | cons c rest ih =>
    intro reg hwf cs hcs ch hch
    obtain ⟨hwf1, _, _, _, _, hall, _⟩ := kb_search_register_spec pfx reg c hwf
    rw [List.foldl_cons]
    rcases List.mem_cons.mp hcs with he | hmem
    · rw [he] at hch
      obtain ⟨v, hv⟩ := Option.isSome_iff_exists.mp (hall ch hch)
      obtain ⟨_, ⟨t, hg⟩, _, _, _⟩ :=
        runFold_spec pfx rest (kb_search_register pfx reg c).1 hwf1
      rw [hg, lookup_append_left hv]
      rfl
    · exact ih (kb_search_register pfx reg c).1 hwf1 cs hmem ch hch

theorem runKBSearches_wf (pfx : String) (searches : List (List KBChunk)) :
    RegWF pfx (runKBSearches pfx searches) :=
  (runFold_spec pfx searches initReg (initReg_wf pfx)).1

/-- C3: alias stability of the per-run evidence registry. Across every
sequence of `kb_search` actions within one run: (i) two distinct canonical
refs never share an alias; (ii) every ref retrieved by some search has an
alias assigned; (iii) an assigned alias is stable under any later searches;
(iv) all four registry structures only grow (entries are appended, never
removed or overwritten); and (v) every chunk surfaced by a further search
carries exactly the alias registered for its ref, so repeated retrieval of
the same reference reuses the alias. -/
theorem kb_alias_registry_spec (pfx : String)
    (searches more : List (List KBChunk)) (chunks : List KBChunk) :
    (∀ r₁ r₂ a, (runKBSearches pfx searches).kb_ref_to_alias.lookup r₁ = some a →
        (runKBSearches pfx searches).kb_ref_to_alias.lookup r₂ = some a → r₁ = r₂)
    ∧ (∀ cs ∈ searches, ∀ ch ∈ cs,
        ((runKBSearches pfx searches).kb_ref_to_alias.lookup ch.ref).isSome)
    ∧ (∀ r a, (runKBSearches pfx searches).kb_ref_to_alias.lookup r = some a →
        (runKBSearches pfx (searches ++ more)).kb_ref_to_alias.lookup r = some a)
    ∧ (∃ t₁ t₂ t₃ t₄,
        (runKBSearches pfx (searches ++ more)).kb_alias_map
            = (runKBSearches pfx searches).kb_alias_map ++ t₁ ∧
        (runKBSearches pfx (searches ++ more)).kb_ref_to_alias
            = (runKBSearches pfx searches).kb_ref_to_alias ++ t₂ ∧
        (runKBSearches pfx (searches ++ more)).kb_alias_to_chunk
            = (runKBSearches pfx searches).kb_alias_to_chunk ++ t₃ ∧
        (runKBSearches pfx (searches ++ more)).kb_all_aliased_chunks
            = (runKBSearches pfx searches).kb_all_aliased_chunks ++ t₄)
    ∧ (∀ e ∈ (kb_search_register pfx (runKBSearches pfx searches) chunks).2,
        (kb_search_register pfx (runKBSearches pfx searches) chunks).1.kb_ref_to_alias.lookup e.ref
          = some e.aliasTok) := by
  have hwf : RegWF pfx (runKBSearches pfx searches) := runKBSearches_wf pfx searches
  have happend : runKBSearches pfx (searches ++ more)
      = more.foldl (fun r c => (kb_search_register pfx r c).1) (runKBSearches pfx searches) := by
    rw [runKBSearches, runKBSearches, List.foldl_append]
  obtain ⟨_, ⟨t2, g2⟩, ⟨t1, g1⟩, ⟨t3, g3⟩, ⟨t4, g4⟩⟩ :=
    runFold_spec pfx more (runKBSearches pfx searches) hwf
  refine ⟨?_, ?_, ?_, ?_, ?_⟩
  · intro r₁ r₂ a hl1 hl2
    have hm1 : (r₁, a) ∈ (runKBSearches pfx searches).kb_ref_to_alias := lookup_some_mem hl1
    have hm2 : (r₂, a) ∈ (runKBSearches pfx searches).kb_ref_to_alias := lookup_some_mem hl2
    have := List.inj_on_of_nodup_map hwf.aliasNodup hm1 hm2 rfl
    exact congrArg Prod.fst this
  · exact runFold_all_present pfx searches initReg (initReg_wf pfx)
  · intro r a hl
    rw [happend, g2]
    exact lookup_append_left hl
  · exact ⟨t1, t2, t3, t4, by rw [happend, g1], by rw [happend, g2],
      by rw [happend, g3], by rw [happend, g4]⟩
  · exact (kb_search_register_spec pfx (runKBSearches pfx searches) chunks hwf).2.2.2.2.2.2

/-- Witness for C3: after one search returning one chunk, its ref has an
alias registered. -/
theorem kb_alias_registry_spec_witness :
    (⟨"kb:r1", "s", "c", "ns", none⟩ : KBChunk) ∈
        ([⟨"kb:r1", "s", "c", "ns", none⟩] : List KBChunk) ∧
    ((runKBSearches "C" [[⟨"kb:r1", "s", "c", "ns", none⟩]]).kb_ref_to_alias.lookup
        "kb:r1").isSome :=
  ⟨List.mem_cons_self _ _,
   (kb_alias_registry_spec "C" [[⟨"kb:r1", "s", "c", "ns", none⟩]] [] []).2.1
     [⟨"kb:r1", "s", "c", "ns", none⟩] (List.mem_cons_self _ _)
     ⟨"kb:r1", "s", "c", "ns", none⟩ (List.mem_cons_self _ _)⟩

end KB

namespace Recap

/-- C7: the empty-subtasks termination rule. If the node has a parent but the
result is blank, the response is rejected: the parsed info is still recorded
on the same (still current) node, `latest_obs` carries the error text,
remaining subtasks are cleared and the state re-enters ACTION_TAKEN. If the
node is the root (in particular when its result is blank), the run fails:
the root must end via `generate_recipes`. Otherwise control pops to the
parent, the child's stripped result is carried forward, the depth drops by
one and execution re-enters UP with the parent's remaining subtasks equal to
all but the first entry of the parent's last recorded subtask list. -/
theorem recap_empty_subtasks_spec (rt : RT) (info : RecapInfo) (node parent : Node)
    (rest : List Node) :
    (rt.stack = node :: parent :: rest → pstrip info.result = "" →
      ∃ rt', stepEmptySubtasks rt info = .ok rt' ∧
        rt'.stack = node.set_info info :: parent :: rest ∧
        rt'.state = RecapState.ACTION_TAKEN ∧
        rt'.latest_obs = emptyResultError ∧
        rt'.remaining_subtasks = [])
    ∧ (rt.stack = [node] →
        stepEmptySubtasks rt info = .error .rootEndedWithoutGenerate)
    ∧ (rt.stack = node :: parent :: rest → pstrip info.result ≠ "" →
      ∃ rt', stepEmptySubtasks rt info = .ok rt' ∧
        rt'.stack = parent :: rest ∧
        rt'.state = RecapState.UP ∧
        rt'.done_task_name = node.task_name ∧
        rt'.done_task_result = pstrip info.result ∧
        rt'.depth = rt.depth - 1 ∧
        rt'.previous_stage_task_name = parent.task_name ∧
        rt'.previous_stage_think = parent.get_latest_info.think ∧
        rt'.remaining_subtasks = parent.get_latest_info.subtasks.drop 1) := by
  refine ⟨?_, ?_, ?_⟩
  · intro hstack hblank
    rw [stepEmptySubtasks, hstack]
    simp only [hblank, if_pos]
    exact ⟨_, rfl, rfl, rfl, rfl, rfl⟩
  · intro hstack
    rw [stepEmptySubtasks, hstack]
  · intro hstack hres
    rw [stepEmptySubtasks, hstack]
    simp only [if_neg hres]
    exact ⟨_, rfl, rfl, rfl, rfl, rfl, rfl, rfl, rfl, rfl⟩

/-- Witness for C7: a finished expert node popping back to its parent. -/
theorem recap_empty_subtasks_spec_witness :
    (RT.mk [⟨"sub", "mof_expert", [], []⟩,
            ⟨"root", "orchestrator", [⟨"plan", [⟨"task", []⟩, ⟨"task", []⟩], ""⟩], []⟩]
       RecapState.DOWN 1 "" [] "" "" "" "").stack =
      ⟨"sub", "mof_expert", [], []⟩ ::
      ⟨"root", "orchestrator", [⟨"plan", [⟨"task", []⟩, ⟨"task", []⟩], ""⟩], []⟩ :: [] ∧
    pstrip "found 3 linkers" ≠ "" ∧
    (∃ rt', stepEmptySubtasks
        (RT.mk [⟨"sub", "mof_expert", [], []⟩,
                ⟨"root", "orchestrator", [⟨"plan", [⟨"task", []⟩, ⟨"task", []⟩], ""⟩], []⟩]
           RecapState.DOWN 1 "" [] "" "" "" "")
        ⟨"think", [], "found 3 linkers"⟩ = .ok rt' ∧
      rt'.stack = ⟨"root", "orchestrator", [⟨"plan", [⟨"task", []⟩, ⟨"task", []⟩], ""⟩], []⟩ :: [] ∧
      rt'.state = RecapState.UP ∧
      rt'.done_task_name = "sub" ∧
      rt'.done_task_result = pstrip "found 3 linkers" ∧
      rt'.depth = 1 - 1 ∧
      rt'.previous_stage_task_name = "root" ∧
      rt'.previous_stage_think =
        (Node.mk "root" "orchestrator" [⟨"plan", [⟨"task", []⟩, ⟨"task", []⟩], ""⟩] []).get_latest_info.think ∧
      rt'.remaining_subtasks =
        (Node.mk "root" "orchestrator" [⟨"plan", [⟨"task", []⟩, ⟨"task", []⟩], ""⟩] []).get_latest_info.subtasks.drop 1) :=
  ⟨rfl, by decide,
   (recap_empty_subtasks_spec
      (RT.mk [⟨"sub", "mof_expert", [], []⟩,
              ⟨"root", "orchestrator", [⟨"plan", [⟨"task", []⟩, ⟨"task", []⟩], ""⟩], []⟩]
         RecapState.DOWN 1 "" [] "" "" "" "")
      ⟨"think", [], "found 3 linkers"⟩
      ⟨"sub", "mof_expert", [], []⟩
      ⟨"root", "orchestrator", [⟨"plan", [⟨"task", []⟩, ⟨"task", []⟩], ""⟩], []⟩
      []).2.2 rfl (by decide)⟩

theorem planRetryLoop_ok (oracle : Nat → ChatAttempt) (max_steps : Nat) :
    ∀ (attempts : List Nat) (steps : Nat) (extra : List Msg)
      {info : RecapInfo} {content : String} {steps' : Nat},
      planRetryLoop oracle max_steps attempts steps extra = .ok (info, content, steps') →
      ∃ pre k post, attempts = pre ++ k :: post ∧
        oracle k = .parsed info content ∧
        (∀ j ∈ pre, ∃ e c, oracle j = .parseError e c) ∧
        steps' = steps + pre.length + 1 := by
  intro attempts
  induction attempts with
  | nil => intro steps extra info content steps' h; cases h
  | cons a rest ih =>
    intro steps extra info content steps' h
    rw [planRetryLoop] at h
    split at h
    · cases h
    · cases ho : oracle a with
      | parsed i c =>
        rw [ho] at h
        injection h with hp
        injection hp with h1 hp2
        injection hp2 with h2 h3
        exact ⟨[], a, rest, rfl, by rw [ho, h1, h2], by simp, by rw [← h3]; simp⟩
      | parseError e c =>
        rw [ho] at h
        obtain ⟨pre, k, post, hsplit, hk, hpre, hsteps⟩ := ih (steps + 1) [formatErrorMsg e] h
        refine ⟨a :: pre, k, post, by rw [hsplit]; rfl, hk, ?_,
          by rw [hsteps, List.length_cons]; omega⟩
        intro j hj
        rcases List.mem_cons.mp hj with he | hm
        · exact ⟨e, c, by rw [he, ho]⟩
        · exact hpre j hm

/-- C8: parse-retry semantics of a planning step. A successful step used at
most 3 attempts: some attempt `k` of `[1, 2, 3]` parsed, every earlier
attempt failed, and the committed shared history is exactly the old history
plus the successful prompt/response pair (then window-trimmed) — it does not
depend on failed attempts, and the correction instruction only ever replaces
the ephemeral message list. If all three attempts fail (within the step
budget), the step raises a fatal planning error; exceeding the step budget
inside the loop is fatal too. -/
theorem planRetryLoop_nil (oracle : Nat → ChatAttempt) (max_steps steps : Nat)
    (extra : List Msg) :
    planRetryLoop oracle max_steps [] steps extra = .error .parseRetriesExhausted := rfl

theorem planRetryLoop_step_fail {oracle : Nat → ChatAttempt} {max_steps steps : Nat}
    {attempt : Nat} {rest : List Nat} {extra : List Msg} {e c : String}
    (ho : oracle attempt = .parseError e c) (hlt : steps < max_steps) :
    planRetryLoop oracle max_steps (attempt :: rest) steps extra
      = planRetryLoop oracle max_steps rest (steps + 1) [formatErrorMsg e] := by
  rw [planRetryLoop, if_neg (by omega), ho]

theorem plan_parse_retry_spec (oracle : Nat → ChatAttempt)
    (max_steps max_rounds : Nat) (history : List Msg) (prompt : String) (steps : Nat) :
    (∀ info hist' steps',
      planStep oracle max_steps max_rounds history prompt steps = .ok (info, hist', steps') →
      ∃ pre k post content, ([1, 2, 3] : List Nat) = pre ++ k :: post ∧
        oracle k = .parsed info content ∧
        (∀ j ∈ pre, ∃ e c, oracle j = .parseError e c) ∧
        hist' = _trim_history (history ++ [⟨"user", prompt⟩, ⟨"assistant", content⟩])
          max_rounds ∧
        steps' = steps + pre.length + 1)
    ∧ ((∀ j, 1 ≤ j → j ≤ 3 → ∃ e c, oracle j = .parseError e c) →
        steps + 3 ≤ max_steps →
        planStep oracle max_steps max_rounds history prompt steps
          = .error .parseRetriesExhausted)
    ∧ (∀ attempt rest extra e c, oracle attempt = .parseError e c →
        steps < max_steps →
        planRetryLoop oracle max_steps (attempt :: rest) steps extra
          = planRetryLoop oracle max_steps rest (steps + 1) [formatErrorMsg e])
    ∧ (max_steps ≤ steps → ∀ attempt rest extra,
        planRetryLoop oracle max_steps (attempt :: rest) steps extra
          = .error .maxStepsExceeded) := by
  refine ⟨?_, ?_, ?_, ?_⟩
  · intro info hist' steps' h
    rw [planStep] at h
    cases hloop : planRetryLoop oracle max_steps [1, 2, 3] steps [] with
    | error e => rw [hloop] at h; cases h
    | ok val =>
      obtain ⟨info0, content0, steps0⟩ := val
      rw [hloop] at h
      injection h with hp
      injection hp with h1 hp2
      injection hp2 with h2 h3
      obtain ⟨pre, k, post, hsplit, hk, hpre, hsteps⟩ :=
        planRetryLoop_ok oracle max_steps [1, 2, 3] steps [] hloop
      exact ⟨pre, k, post, content0, hsplit, by rw [h1] at hk; exact hk, hpre,
        by rw [← h2], by omega⟩
  · intro hfail hbudget
    rw [planStep]
    obtain ⟨e1, c1, h1⟩ := hfail 1 (by norm_num) (by norm_num)
    obtain ⟨e2, c2, h2⟩ := hfail 2 (by norm_num) (by norm_num)
    obtain ⟨e3, c3, h3⟩ := hfail 3 (by norm_num) (by norm_num)
    rw [planRetryLoop_step_fail h1 (by omega),
        planRetryLoop_step_fail h2 (by omega),
        planRetryLoop_step_fail h3 (by omega), planRetryLoop_nil]
  · intro attempt rest extra e c ho hlt
    exact planRetryLoop_step_fail ho (by omega)
  · intro hge attempt rest extra
    rw [planRetryLoop, if_pos hge]

/-- Witness for C8: first attempt fails, second parses; only the successful
exchange is committed. -/
theorem plan_parse_retry_spec_witness :
    (∀ j, 1 ≤ j → j ≤ 3 →
      ∃ e c, (fun _ => ChatAttempt.parseError "bad json" "x") j
        = ChatAttempt.parseError e c) ∧
    0 + 3 ≤ 10 ∧
    planStep (fun _ => ChatAttempt.parseError "bad json" "x") 10 4 [] "plan" 0
      = .error .parseRetriesExhausted :=
  ⟨fun _ _ _ => ⟨"bad json", "x", rfl⟩, by norm_num,
   (plan_parse_retry_spec (fun _ => ChatAttempt.parseError "bad json" "x") 10 4 [] "plan"
      0).2.1 (fun _ _ _ => ⟨"bad json", "x", rfl⟩) (by norm_num)⟩

end Recap

namespace Gen

theorem generateLoop_zero (ctx : GenCtx) (oracle : Nat → TurnOut) (turn : Nat)
    (gen_history : List GenMsg) (format_errors steps : Nat) :
    generateLoop ctx oracle turn 0 gen_history format_errors steps
      = .error .maxTurns := rfl

theorem generateLoop_succ (ctx : GenCtx) (oracle : Nat → TurnOut) (turn fuel : Nat)
    (gen_history : List GenMsg) (format_errors steps : Nat) :
    generateLoop ctx oracle turn (fuel + 1) gen_history format_errors steps =
      if ctx.max_steps ≤ steps then .error .maxSteps
      else
        match oracle turn with
        | .toolCalls msgs =>
          generateLoop ctx oracle (turn + 1) fuel (gen_history ++ msgs) format_errors
            (steps + 1)
        | .finalAttempt cand parseErr =>
          if ctx.max_steps ≤ steps + 1 then .error .maxSteps
          else
            match cand with
            | none =>
              if 3 ≤ format_errors + 1 then .error .formatErrors3
              else
                generateLoop ctx oracle (turn + 1) fuel
                  (gen_history ++ [formatErrMsg parseErr]) (format_errors + 1) (steps + 2)
            | some parsed =>
              match validateFinal ctx parsed with
              | .accepted recipes citations mems => .ok (parsed, citations, mems)
              | v =>
                generateLoop ctx oracle (turn + 1) fuel
                  (gen_history ++ [correctionMsg v]) format_errors (steps + 2) := rfl

theorem resolve_fold_error (alias_map : List (String × String)) :
    ∀ (as : List String) (e : String),
      as.foldl (resolveStep alias_map) (Except.error e) = .error e := by
  intro as
  induction as with
  | nil => intro e; rfl
  | cons a rest ih => intro e; exact ih e

theorem resolve_fold_ok_forall {alias_map : List (String × String)} :
    ∀ (as : List String) (acc m : List (String × String)),
      as.foldl (resolveStep alias_map) (Except.ok acc) = .ok m →
      ∀ a ∈ as, (alias_map.lookup a).isSome := by
  intro as
  induction as with
  | nil => intro acc m _ a ha; simp at ha
  | cons a rest ih =>
    intro acc m h b hb
    rw [List.foldl_cons] at h
    cases hl : alias_map.lookup a with
    | none =>
      rw [resolveStep, hl] at h
      rw [resolve_fold_error] at h
      cases h
    | some r =>
      rw [resolveStep, hl] at h
      rcases List.mem_cons.mp hb with he | hm
      · rw [he, hl]; rfl
      · exact ih (acc ++ [(a, r)]) m h b hm

theorem resolve_aliases_ok_forall {alias_map : List (String × String)}
    {as : List String} {m : List (String × String)}
    (h : resolve_aliases as alias_map = .ok m) :
    ∀ a ∈ as, (alias_map.lookup a).isSome :=
  resolve_fold_ok_forall as [] m h

theorem validateFinal_accepted {ctx : GenCtx} {parsed : ParsedOut}
    {recipes : List RecipeObj} {citations : List (String × String)} {mems : List String}
    (h : validateFinal ctx parsed = .accepted recipes citations mems) :
    parsed.recipes = some recipes ∧
    recipes.length = ctx.recipes_per_run ∧
    (∀ r ∈ recipes, r.isDict = true →
      ¬((Cit.extract_citation_aliases r.rationale).isEmpty = true ∧
        (Cit.extract_memory_ids r.rationale).isEmpty = true)) ∧
    resolve_aliases (Cit.extract_citation_aliases parsed.dump) ctx.kb_alias_map
      = .ok citations ∧
    (∀ a ∈ Cit.extract_citation_aliases parsed.dump, (ctx.kb_alias_map.lookup a).isSome) ∧
    mems = Cit.extract_memory_ids parsed.dump ∧
    (∀ mid ∈ mems, ∃ it, ctx.mem_id_to_item.lookup mid = some it ∧
      it.status = "active") := by
  cases hrec : parsed.recipes with
  | none => simp [validateFinal, hrec] at h
  | some rs =>
    by_cases hcount : rs.length = ctx.recipes_per_run
    swap
    · have hv : validateFinal ctx parsed = .countError := by
        simp [validateFinal, hrec, hcount]
      rw [hv] at h
      cases h
    by_cases hmiss : (rs.filter recipeLacksCitation).length = 0
    swap
    · have hv : validateFinal ctx parsed = .missingCitations := by
        simp [validateFinal, hrec, hcount, hmiss]
      rw [hv] at h
      cases h
    by_cases hnocit : ((Cit.extract_citation_aliases parsed.dump).isEmpty &&
        (Cit.extract_memory_ids parsed.dump).isEmpty) = true
    · have hv : validateFinal ctx parsed = .noCitations := by
        simp [validateFinal, hrec, hcount, hmiss, hnocit]
      rw [hv] at h
      cases h
    cases hres : resolve_aliases (Cit.extract_citation_aliases parsed.dump)
        ctx.kb_alias_map with
    | error a =>
      have hv : validateFinal ctx parsed = .unknownAlias a := by
        simp [validateFinal, hrec, hcount, hmiss, hnocit, hres]
      rw [hv] at h
      cases h
    | ok cits =>
    by_cases hinv : ((Cit.extract_memory_ids parsed.dump).filter (memUnknown ctx)).isEmpty
        = true
    swap
    · have hv : validateFinal ctx parsed = .unknownMem
          ((Cit.extract_memory_ids parsed.dump).filter (memUnknown ctx)) := by
        simp [validateFinal, hrec, hcount, hmiss, hnocit, hres, hinv]
      rw [hv] at h
      cases h
    by_cases harch : ((Cit.extract_memory_ids parsed.dump).filter (memArchived ctx)).isEmpty
        = true
    swap
    · have hv : validateFinal ctx parsed = .archivedMem
          ((Cit.extract_memory_ids parsed.dump).filter (memArchived ctx)) := by
        simp [validateFinal, hrec, hcount, hmiss, hnocit, hres, hinv, harch]
      rw [hv] at h
      cases h
    have hv : validateFinal ctx parsed
        = .accepted rs cits (Cit.extract_memory_ids parsed.dump) := by
      simp [validateFinal, hrec, hcount, hmiss, hnocit, hres, hinv, harch]
    rw [hv] at h
    injection h with h1 h2 h3
    subst h1
    subst h2
    subst h3
    refine ⟨rfl, hcount, ?_, rfl, resolve_aliases_ok_forall hres, rfl, ?_⟩
    · intro r hr hdict hcit
      rw [List.length_eq_zero, List.filter_eq_nil_iff] at hmiss
      exact hmiss r hr (by simp [recipeLacksCitation, hdict, hcit.1, hcit.2])
    · intro mid hmid
      rw [List.isEmpty_iff, List.filter_eq_nil_iff] at hinv harch
      have h1 := hinv mid hmid
      have h2 := harch mid hmid
      rw [Bool.not_eq_true, memUnknown, Option.isNone_eq_false_iff,
        Option.isSome_iff_exists] at h1
      obtain ⟨it, hit⟩ := h1
      refine ⟨it, hit, ?_⟩
      rw [Bool.not_eq_true, memArchived, hit] at h2
      simpa using h2

theorem generateLoop_ok (ctx : GenCtx) (oracle : Nat → TurnOut) :
    ∀ (fuel turn : Nat) (gen_history : List GenMsg) (format_errors steps : Nat)
      {parsed : ParsedOut} {citations : List (String × String)} {mems : List String},
      generateLoop ctx oracle turn fuel gen_history format_errors steps
        = .ok (parsed, citations, mems) →
      ∃ recipes, validateFinal ctx parsed = .accepted recipes citations mems := by
  intro fuel
  induction fuel with
  | zero =>
    intro turn gh fe st parsed citations mems h
    rw [generateLoop_zero] at h
    cases h
  | succ f ih =>
    intro turn gh fe st parsed citations mems h
    rw [generateLoop_succ] at h
    by_cases hb1 : ctx.max_steps ≤ st
    · rw [if_pos hb1] at h
      cases h
    rw [if_neg hb1] at h
    cases ho : oracle turn with
    | toolCalls msgs =>
      rw [ho] at h
      exact ih (turn + 1) (gh ++ msgs) fe (st + 1) h
    | finalAttempt cand parseErr =>
      rw [ho] at h
      by_cases hb2 : ctx.max_steps ≤ st + 1
      · have h2 : (Except.error GenErr.maxSteps :
            Except GenErr (ParsedOut × List (String × String) × List String))
            = .ok (parsed, citations, mems) := by
          rw [← h]
          show _ = if ctx.max_steps ≤ st + 1 then _ else _
          rw [if_pos hb2]
        cases h2
      cases cand with
      | none =>
        by_cases hb3 : 3 ≤ fe + 1
        · have h2 : (Except.error GenErr.formatErrors3 :
              Except GenErr (ParsedOut × List (String × String) × List String))
              = .ok (parsed, citations, mems) := by
            rw [← h]
            show _ = if ctx.max_steps ≤ st + 1 then _
              else if 3 ≤ fe + 1 then _ else _
            rw [if_neg hb2, if_pos hb3]
          cases h2
        · have h2 : generateLoop ctx oracle (turn + 1) f (gh ++ [formatErrMsg parseErr])
              (fe + 1) (st + 2) = .ok (parsed, citations, mems) := by
            rw [← h]
            show _ = if ctx.max_steps ≤ st + 1 then _
              else if 3 ≤ fe + 1 then _ else _
            rw [if_neg hb2, if_neg hb3]
          exact ih (turn + 1) (gh ++ [formatErrMsg parseErr]) (fe + 1) (st + 2) h2
      | some parsed0 =>
        have h2 : (if ctx.max_steps ≤ st + 1 then
              (Except.error GenErr.maxSteps :
                Except GenErr (ParsedOut × List (String × String) × List String))
            else
              match validateFinal ctx parsed0 with
              | .accepted recipes citations mems => .ok (parsed0, citations, mems)
              | v =>
                generateLoop ctx oracle (turn + 1) f (gh ++ [correctionMsg v]) fe
                  (st + 2)) = .ok (parsed, citations, mems) := h
        rw [if_neg hb2] at h2
        cases hv : validateFinal ctx parsed0 with
        | accepted r c m =>
          rw [hv] at h2
          have h3 : (Except.ok (parsed0, c, m) :
              Except GenErr (ParsedOut × List (String × String) × List String))
              = .ok (parsed, citations, mems) := h2
          injection h3 with hp
          injection hp with hp1 hp2
          injection hp2 with hp2a hp2b
          subst hp1
          subst hp2a
          subst hp2b
          exact ⟨r, hv⟩
        | countError =>
          rw [hv] at h2
          exact ih (turn + 1) (gh ++ [correctionMsg .countError]) fe (st + 2) h2
        | missingCitations =>
          rw [hv] at h2
          exact ih (turn + 1) (gh ++ [correctionMsg .missingCitations]) fe (st + 2) h2
        | noCitations =>
          rw [hv] at h2
          exact ih (turn + 1) (gh ++ [correctionMsg .noCitations]) fe (st + 2) h2
        | unknownAlias a =>
          rw [hv] at h2
          exact ih (turn + 1) (gh ++ [correctionMsg (.unknownAlias a)]) fe (st + 2) h2
        | unknownMem ids =>
          rw [hv] at h2
          exact ih (turn + 1) (gh ++ [correctionMsg (.unknownMem ids)]) fe (st + 2) h2
        | archivedMem ids =>
          rw [hv] at h2
          exact ih (turn + 1) (gh ++ [correctionMsg (.archivedMem ids)]) fe (st + 2) h2

/-- C4: final-answer acceptance. (1) A `generate_recipes` loop that returns
`ok` only does so for an output passing the whole validation chain: a
`recipes` list of exactly `recipes_per_run` entries, every dict recipe's
rationale containing at least one citation token, every cited knowledge
alias resolving in the run's alias map, and every cited memory id present in
the run's memory registry with status `active` (so no completed run can cite
an unknown alias or an archived memory id). (2)-(3) The recipe-count check
fires first, for a missing or wrong-sized recipes list. (4) A candidate that
passes validation is returned as is; any violation appends the corresponding
corrective instruction to the generation history and re-enters the loop
(never silently dropping a citation). (5) A JSON-parse failure on the third
strike is fatal, earlier strikes append a format correction and retry.
(6) Exhausting the bounded number of generation turns is fatal. -/
theorem generate_recipes_acceptance_spec (ctx : GenCtx) (oracle : Nat → TurnOut)
    (history : List GenMsg) (gen_prompt : String) (steps : Nat) :
    (∀ parsed citations mems,
      generate_recipes_loop ctx oracle history gen_prompt steps
        = .ok (parsed, citations, mems) →
      ∃ recipes, parsed.recipes = some recipes ∧
        recipes.length = ctx.recipes_per_run ∧
        (∀ r ∈ recipes, r.isDict = true →
          ¬((Cit.extract_citation_aliases r.rationale).isEmpty = true ∧
            (Cit.extract_memory_ids r.rationale).isEmpty = true)) ∧
        (∀ a ∈ Cit.extract_citation_aliases parsed.dump,
          (ctx.kb_alias_map.lookup a).isSome) ∧
        mems = Cit.extract_memory_ids parsed.dump ∧
        (∀ mid ∈ mems, ∃ it, ctx.mem_id_to_item.lookup mid = some it ∧
          it.status = "active"))
    ∧ (∀ parsed, parsed.recipes = none → validateFinal ctx parsed = .countError)
    ∧ (∀ parsed rs, parsed.recipes = some rs → rs.length ≠ ctx.recipes_per_run →
        validateFinal ctx parsed = .countError)
    ∧ (∀ turn fuel gh fe st parsed pe, st + 2 ≤ ctx.max_steps →
        oracle turn = .finalAttempt (some parsed) pe →
        (∀ r c m, validateFinal ctx parsed = Verdict.accepted r c m →
          generateLoop ctx oracle turn (fuel + 1) gh fe st = .ok (parsed, c, m)) ∧
        (∀ v, validateFinal ctx parsed = v →
          (∀ r c m, v ≠ Verdict.accepted r c m) →
          generateLoop ctx oracle turn (fuel + 1) gh fe st
            = generateLoop ctx oracle (turn + 1) fuel (gh ++ [correctionMsg v]) fe
                (st + 2)))
    ∧ (∀ turn fuel gh st pe, st + 2 ≤ ctx.max_steps →
        oracle turn = .finalAttempt none pe →
        generateLoop ctx oracle turn (fuel + 1) gh 2 st = .error .formatErrors3 ∧
        ∀ fe, fe + 1 < 3 →
          generateLoop ctx oracle turn (fuel + 1) gh fe st
            = generateLoop ctx oracle (turn + 1) fuel (gh ++ [formatErrMsg pe]) (fe + 1)
                (st + 2))
    ∧ (∀ turn gh fe st,
        generateLoop ctx oracle turn 0 gh fe st = .error .maxTurns) := by
  refine ⟨?_, ?_, ?_, ?_, ?_, ?_⟩
  · intro parsed citations mems h
    obtain ⟨recipes, hv⟩ := generateLoop_ok ctx oracle 20 1
      (history ++ [GenMsg.mk "user" gen_prompt]) 0 steps h
    obtain ⟨h1, h2, h3, _, h5, h6, h7⟩ := validateFinal_accepted hv
    exact ⟨recipes, h1, h2, h3, h5, h6, h7⟩
  · intro parsed hrec
    simp [validateFinal, hrec]
  · intro parsed rs hrec hne
    simp [validateFinal, hrec, hne]
  · intro turn fuel gh fe st parsed pe hbudget ho
    constructor
    · intro r c m hv
      simp only [generateLoop_succ, ho, hv]
      rw [if_neg (show ¬ ctx.max_steps ≤ st by omega),
        if_neg (show ¬ ctx.max_steps ≤ st + 1 by omega)]
    · intro v hv hne
      cases v with
      | accepted r c m => exact absurd rfl (hne r c m)
      | countError =>
        simp only [generateLoop_succ, ho, hv]
        rw [if_neg (show ¬ ctx.max_steps ≤ st by omega),
          if_neg (show ¬ ctx.max_steps ≤ st + 1 by omega)]
      | missingCitations =>
        simp only [generateLoop_succ, ho, hv]
        rw [if_neg (show ¬ ctx.max_steps ≤ st by omega),
          if_neg (show ¬ ctx.max_steps ≤ st + 1 by omega)]
      | noCitations =>
        simp only [generateLoop_succ, ho, hv]
        rw [if_neg (show ¬ ctx.max_steps ≤ st by omega),
          if_neg (show ¬ ctx.max_steps ≤ st + 1 by omega)]
      | unknownAlias a =>
        simp only [generateLoop_succ, ho, hv]
        rw [if_neg (show ¬ ctx.max_steps ≤ st by omega),
          if_neg (show ¬ ctx.max_steps ≤ st + 1 by omega)]
      | unknownMem ids =>
        simp only [generateLoop_succ, ho, hv]
        rw [if_neg (show ¬ ctx.max_steps ≤ st by omega),
          if_neg (show ¬ ctx.max_steps ≤ st + 1 by omega)]
      | archivedMem ids =>
        simp only [generateLoop_succ, ho, hv]
        rw [if_neg (show ¬ ctx.max_steps ≤ st by omega),
          if_neg (show ¬ ctx.max_steps ≤ st + 1 by omega)]
  · intro turn fuel gh st pe hbudget ho
    constructor
    · simp only [generateLoop_succ, ho]
      rw [if_neg (show ¬ ctx.max_steps ≤ st by omega),
        if_neg (show ¬ ctx.max_steps ≤ st + 1 by omega),
        if_pos (show 3 ≤ 2 + 1 by omega)]
    · intro fe hfe
      simp only [generateLoop_succ, ho]
      rw [if_neg (show ¬ ctx.max_steps ≤ st by omega),
        if_neg (show ¬ ctx.max_steps ≤ st + 1 by omega),
        if_neg (show ¬ 3 ≤ fe + 1 by omega)]
  · intro turn gh fe st
    exact generateLoop_zero ctx oracle turn gh fe st

/-- Witness for C4: a one-recipe run whose single candidate carries a valid
`[C1]` citation is accepted, and the acceptance facts follow. -/
theorem generate_recipes_acceptance_spec_witness :
    generate_recipes_loop ⟨1, [("C1", "kb:r1")], [], 10⟩
        (fun _ => TurnOut.finalAttempt (some ⟨some [⟨true, "use [C1]"⟩], "use [C1]"⟩) "")
        [] "go" 0
      = .ok (⟨some [⟨true, "use [C1]"⟩], "use [C1]"⟩, [("C1", "kb:r1")], []) ∧
    (∃ recipes,
      (ParsedOut.mk (some [⟨true, "use [C1]"⟩]) "use [C1]").recipes = some recipes ∧
      recipes.length = (GenCtx.mk 1 [("C1", "kb:r1")] [] 10).recipes_per_run ∧
      (∀ r ∈ recipes, r.isDict = true →
        ¬((Cit.extract_citation_aliases r.rationale).isEmpty = true ∧
          (Cit.extract_memory_ids r.rationale).isEmpty = true)) ∧
      (∀ a ∈ Cit.extract_citation_aliases
          (ParsedOut.mk (some [⟨true, "use [C1]"⟩]) "use [C1]").dump,
        ((GenCtx.mk 1 [("C1", "kb:r1")] [] 10).kb_alias_map.lookup a).isSome) ∧
      ([] : List String) = Cit.extract_memory_ids
          (ParsedOut.mk (some [⟨true, "use [C1]"⟩]) "use [C1]").dump ∧
      (∀ mid ∈ ([] : List String),
        ∃ it, ((GenCtx.mk 1 [("C1", "kb:r1")] [] 10).mem_id_to_item.lookup mid)
            = some it ∧ it.status = "active")) :=
  ⟨rfl,
   (generate_recipes_acceptance_spec ⟨1, [("C1", "kb:r1")], [], 10⟩
      (fun _ => TurnOut.finalAttempt (some ⟨some [⟨true, "use [C1]"⟩], "use [C1]"⟩) "")
      [] "go" 0).1
     ⟨some [⟨true, "use [C1]"⟩], "use [C1]"⟩ [("C1", "kb:r1")] [] rfl⟩

end Gen

section PstripLemmas

theorem dropWhile_self {α : Type} (p : α → Bool) (l : List α) :
    (l.dropWhile p).dropWhile p = l.dropWhile p := by
  induction l with
  | nil => rfl
  | cons a t ih =>
    cases h : p a with
    | true => simp [List.dropWhile_cons, h, ih]
    | false => simp [List.dropWhile_cons, h]

theorem head_dropWhile_false {α : Type} (p : α → Bool) (l : List α) :
    ∀ a t, l.dropWhile p = a :: t → p a = false := by
  induction l with
  | nil => intro a t h; cases h
  | cons b t' ih =>
    intro a t h
    cases hp : p b with
    | true =>
      rw [List.dropWhile_cons, if_pos hp] at h
      exact ih a t h
    | false =>
      rw [List.dropWhile_cons, if_neg (by simp [hp])] at h
      injection h with h1 _
      rw [← h1]; exact hp

theorem dropWhile_eq_self_of {α : Type} (p : α → Bool) (l : List α)
    (h : ∀ a t, l = a :: t → p a = false) : l.dropWhile p = l := by
  cases l with
  | nil => rfl
  | cons a t =>
    rw [List.dropWhile_cons, if_neg]
    simp [h a t rfl]

theorem getLast?_dropWhile {α : Type} (p : α → Bool) (l : List α)
    (h : l.dropWhile p ≠ []) : (l.dropWhile p).getLast? = l.getLast? := by
  induction l with
  | nil => simp at h
  | cons a t ih =>
    cases hp : p a with
    | false => rw [List.dropWhile_cons, if_neg (by simp [hp])]
    | true =>
      rw [List.dropWhile_cons, if_pos hp] at h ⊢
      cases t with
      | nil => simp at h
      | cons b t' =>
        rw [ih h, List.getLast?_cons_cons]

theorem core_idem (l : List Char) :
    ((((((l.dropWhile Char.isWhitespace).reverse.dropWhile
        Char.isWhitespace).reverse).dropWhile
        Char.isWhitespace).reverse.dropWhile Char.isWhitespace).reverse)
      = ((l.dropWhile Char.isWhitespace).reverse.dropWhile
          Char.isWhitespace).reverse := by
  set w := Char.isWhitespace with hw
  set x := l.dropWhile w with hx
  set r := x.reverse.dropWhile w with hr
  have h1 : r.reverse.dropWhile w = r.reverse := by
    apply dropWhile_eq_self_of
    intro a t hat
    have hhead : r.getLast? = some a := by
      rw [← List.head?_reverse, hat]; rfl
    have hrne : r ≠ [] := by
      intro he; rw [he] at hhead; cases hhead
    have h2 : r.getLast? = x.reverse.getLast? := getLast?_dropWhile w x.reverse (hr ▸ hrne)
    rw [List.getLast?_reverse] at h2
    have hxne : x ≠ [] := by
      intro he
      rw [he] at h2
      rw [hhead] at h2
      cases h2
    obtain ⟨c, t', hct⟩ := List.exists_cons_of_ne_nil hxne
    have hc : w c = false := head_dropWhile_false w l c t' (hx ▸ hct)
    have : x.head? = some c := by rw [hct]; rfl
    rw [this] at h2
    rw [hhead] at h2
    injection h2 with h3
    rw [h3]; exact hc
  calc ((r.reverse.dropWhile w).reverse.dropWhile w).reverse
      = (r.reverse.reverse.dropWhile w).reverse := by rw [h1]
    _ = (r.dropWhile w).reverse := by rw [List.reverse_reverse]
    _ = ((x.reverse.dropWhile w).dropWhile w).reverse := by rw [hr]
    _ = (x.reverse.dropWhile w).reverse := by rw [dropWhile_self]
    _ = r.reverse := by rw [hr]

theorem data_pstrip (s : String) :
    (pstrip s).data
      = ((s.data.dropWhile Char.isWhitespace).reverse.dropWhile
          Char.isWhitespace).reverse := rfl

theorem pstrip_idem (s : String) : pstrip (pstrip s) = pstrip s := by
  apply String.ext
  exact core_idem s.data

end PstripLemmas

namespace RB

theorem find?_putItem_self (st : List MemoryItem) (item : MemoryItem) :
    (putItem st item).find? (fun it => it.mem_id = item.mem_id) = some item := by
  unfold putItem
  cases hany : st.any (fun it => it.mem_id = item.mem_id) with
  | false =>
    rw [if_neg (by simp [hany])]
    induction st with
    | nil => simp
    | cons a t ih =>
      simp only [List.any_cons, Bool.or_eq_false_iff] at hany
      rw [List.cons_append,
        List.find?_cons_of_neg _ (by simpa using hany.1)]
      exact ih hany.2
  | true =>
    rw [if_pos (by simp [hany])]
    induction st with
    | nil => simp at hany
    | cons a t ih =>
      by_cases ha : a.mem_id = item.mem_id
      · rw [List.map_cons, if_pos ha,
          List.find?_cons_of_pos _ (by simp)]
      · rw [List.map_cons, if_neg ha,
          List.find?_cons_of_neg _ (by simpa using ha)]
        apply ih
        simp only [List.any_cons, Bool.or_eq_true] at hany
        rcases hany with h | h
        · exact absurd (by simpa using h) ha
        · exact h

theorem find?_putItem_other (st : List MemoryItem) (item : MemoryItem)
    (mid : String) (h : mid ≠ item.mem_id) :
    (putItem st item).find? (fun it => it.mem_id = mid)
      = st.find? (fun it => it.mem_id = mid) := by
  by_cases hany : st.any (fun it => it.mem_id = item.mem_id) = true
  · rw [putItem, if_pos hany]
    clear hany
    induction st with
    | nil => rfl
    | cons a t ih =>
      by_cases ha : a.mem_id = item.mem_id
      · have hni : decide (item.mem_id = mid) = false := by
          simp only [decide_eq_false_iff_not]
          intro hc; exact h hc.symm
        have hna : decide (a.mem_id = mid) = false := by
          simp only [decide_eq_false_iff_not]
          intro hc; exact h (ha ▸ hc).symm
        rw [List.map_cons, if_pos ha]
        simp only [List.find?_cons, hni, hna]
        exact ih
      · rw [List.map_cons, if_neg ha]
        cases hc : decide (a.mem_id = mid) with
        | true => simp only [List.find?_cons, hc]
        | false =>
          simp only [List.find?_cons, hc]
          exact ih
  · rw [putItem, if_neg hany]
    clear hany
    induction st with
    | nil =>
      have hni : decide (item.mem_id = mid) = false := by
        simp only [decide_eq_false_iff_not]
        intro hc; exact h hc.symm
      rw [List.nil_append]
      simp only [List.find?_cons, hni, List.find?_nil]
    | cons a t ih =>
      rw [List.cons_append]
      cases hc : decide (a.mem_id = mid) with
      | true => simp only [List.find?_cons, hc]
      | false =>
        simp only [List.find?_cons, hc]
        exact ih

theorem mem_putItem_of_mem (st : List MemoryItem) (item : MemoryItem)
    (it : MemoryItem) (h : it ∈ st) :
    ∃ it', it' ∈ putItem st item ∧ it'.mem_id = it.mem_id := by
  unfold putItem
  split
  · refine ⟨if it.mem_id = item.mem_id then item else it,
      List.mem_map.mpr ⟨it, h, rfl⟩, ?_⟩
    by_cases hc : it.mem_id = item.mem_id
    · rw [if_pos hc, hc]
    · rw [if_neg hc]
  · exact ⟨it, List.mem_append_left _ h, rfl⟩

theorem wfStore_putItem {st : List MemoryItem} {item : MemoryItem}
    (h : wfStore st = true) (hit : wfItem item = true) :
    wfStore (putItem st item) = true := by
  unfold wfStore putItem
  rw [wfStore] at h
  split
  · rw [List.all_eq_true]
    intro x hx
    obtain ⟨y, hy, hxy⟩ := List.mem_map.mp hx
    by_cases hc : y.mem_id = item.mem_id
    · rw [← hxy, if_pos hc]; exact hit
    · rw [← hxy, if_neg hc]; exact List.all_eq_true.mp h y hy
  · rw [List.all_append, h, List.all_cons, hit]
    rfl

theorem _parse_status_ok {s t : String} (h : _parse_status s = .ok t) :
    (t = "active" ∨ t = "archived") ∧ pstrip t = t := by
  simp only [_parse_status] at h
  split at h
  · injection h with h1
    subst h1
    constructor
    · rename_i hcond
      rcases Bool.or_eq_true _ _ |>.mp hcond with h2 | h2
      · exact Or.inl (by simpa using h2)
      · exact Or.inr (by simpa using h2)
    · exact pstrip_idem s
  · cases h

theorem _parse_role_ok {s t : String} (h : _parse_role s = .ok t) :
    (t = "global" ∨ t = "orchestrator" ∨ t = "mof_expert" ∨ t = "tio2_expert")
      ∧ pstrip t = t := by
  simp only [_parse_role] at h
  split at h
  · injection h with h1
    subst h1
    refine ⟨?_, pstrip_idem s⟩
    rename_i hcond
    rcases Bool.or_eq_true _ _ |>.mp hcond with h2 | h2
    · rcases Bool.or_eq_true _ _ |>.mp h2 with h3 | h3
      · rcases Bool.or_eq_true _ _ |>.mp h3 with h4 | h4
        · exact Or.inl (by simpa using h4)
        · exact Or.inr (Or.inl (by simpa using h4))
      · exact Or.inr (Or.inr (Or.inl (by simpa using h3)))
    · exact Or.inr (Or.inr (Or.inr (by simpa using h2)))
  · cases h

theorem _parse_type_ok {s t : String} (h : _parse_type s = .ok t) :
    (t = "reasoningbank_item" ∨ t = "manual_note") ∧ pstrip t = t := by
  simp only [_parse_type] at h
  split at h
  · injection h with h1
    subst h1
    constructor
    · rename_i hcond
      rcases Bool.or_eq_true _ _ |>.mp hcond with h2 | h2
      · exact Or.inl (by simpa using h2)
      · exact Or.inr (by simpa using h2)
    · exact pstrip_idem s
  · cases h

theorem _parse_status_fix {s : String} (h1 : s = "active" ∨ s = "archived") :
    _parse_status s = .ok s := by
  rcases h1 with h | h <;> subst h <;> rfl

theorem _parse_role_fix {s : String}
    (h1 : s = "global" ∨ s = "orchestrator" ∨ s = "mof_expert" ∨ s = "tio2_expert") :
    _parse_role s = .ok s := by
  rcases h1 with h | h | h | h <;> subst h <;> rfl

theorem _parse_type_fix {s : String}
    (h1 : s = "reasoningbank_item" ∨ s = "manual_note") :
    _parse_type s = .ok s := by
  rcases h1 with h | h <;> subst h <;> rfl

end RB

namespace RB

theorem rbGet_eq (st : List MemoryItem) (mid : String)
    (h1 : pstrip mid = mid) (h2 : mid ≠ "") :
    rbGet st mid = st.find? (fun it => it.mem_id = mid) := by
  simp only [rbGet, h1, if_neg h2]

theorem rbGet_putItem_self (st : List MemoryItem) (item : MemoryItem)
    (h1 : pstrip item.mem_id = item.mem_id) (h2 : item.mem_id ≠ "") :
    rbGet (putItem st item) item.mem_id = some item := by
  rw [rbGet_eq _ _ h1 h2]
  exact find?_putItem_self st item

theorem rbGet_putItem_other (st : List MemoryItem) (item : MemoryItem)
    (mid : String) (h1 : pstrip mid = mid) (hne : mid ≠ item.mem_id) :
    rbGet (putItem st item) mid = rbGet st mid := by
  by_cases h2 : mid = ""
  · subst h2
    have hp : pstrip "" = "" := rfl
    simp [rbGet, hp]
  · rw [rbGet_eq _ _ h1 h2, rbGet_eq _ _ h1 h2]
    exact find?_putItem_other st item mid hne

theorem upsert_eq (st : List MemoryItem) (clock : Nat) (mid : String)
    (status role type content : String) (src : Option String) (sv : Nat)
    (extra : List (String × String)) (now_ts : Option Nat) (freshId : String)
    (stS rlS tyS : String)
    (hm : pstrip mid = mid) (hne : mid ≠ "")
    (hs : _parse_status status = Except.ok stS)
    (hr : _parse_role role = Except.ok rlS)
    (ht : _parse_type type = Except.ok tyS)
    (hc : pstrip content ≠ "") :
    ∃ item : MemoryItem,
      upsert st clock (some mid) status role type content src sv extra now_ts
        true freshId = .ok (item, putItem st item) ∧
      item = { mem_id := mid, status := stS, role := rlS, type := tyS,
               content := pstrip content, source_run_id := src.map pstrip,
               created_at := match rbGet st mid with
                 | some e => e.created_at
                 | none => match now_ts with | some t => t | none => clock,
               updated_at := match now_ts with | some t => t | none => clock,
               schema_version := sv, extra := extra } := by
  refine ⟨_, ?_, rfl⟩
  simp only [upsert, hm, if_neg hne, hs, hr, ht, if_neg hc, if_true]

theorem wfItem_mk (mid stS rlS tyS c : String) (src : Option String)
    (ca ua sv : Nat) (ex : List (String × String))
    (hm : pstrip mid = mid) (hne : mid ≠ "")
    (hst : stS = "active" ∨ stS = "archived")
    (hrl : rlS = "global" ∨ rlS = "orchestrator" ∨ rlS = "mof_expert"
      ∨ rlS = "tio2_expert")
    (hty : tyS = "reasoningbank_item" ∨ tyS = "manual_note")
    (hc1 : pstrip c = c) (hc2 : c ≠ "") (hu : 0 < ua) :
    wfItem { mem_id := mid, status := stS, role := rlS, type := tyS,
             content := c, source_run_id := src, created_at := ca,
             updated_at := ua, schema_version := sv, extra := ex } = true := by
  rcases hst with h1 | h1 <;> subst h1 <;>
    rcases hty with h3 | h3 <;> subst h3 <;>
    rcases hrl with h2 | h2 | h2 | h2 <;> subst h2 <;>
    simp [wfItem, hm, hne, hc1, hc2, hu]

theorem wfItem_fields {it : MemoryItem} (h : wfItem it = true) :
    pstrip it.mem_id = it.mem_id ∧ it.mem_id ≠ "" ∧
    (it.status = "active" ∨ it.status = "archived") ∧
    (it.role = "global" ∨ it.role = "orchestrator" ∨ it.role = "mof_expert"
      ∨ it.role = "tio2_expert") ∧
    (it.type = "reasoningbank_item" ∨ it.type = "manual_note") ∧
    pstrip it.content = it.content ∧ it.content ≠ "" ∧ 0 < it.updated_at := by
  simp only [wfItem, Bool.and_eq_true, decide_eq_true_eq, ne_eq,
    Bool.or_eq_true] at h
  obtain ⟨⟨⟨⟨⟨⟨⟨h1, h2⟩, h3⟩, h4⟩, h5⟩, h6⟩, h7⟩, h8⟩ := h
  refine ⟨h1, by simpa using h2, h3, by tauto, h5, h6, by simpa using h7, h8⟩

theorem wfStore_mem {st : List MemoryItem} (h : wfStore st = true)
    {it : MemoryItem} (hm : it ∈ st) : wfItem it = true :=
  List.all_eq_true.mp h it hm

end RB

namespace RB

theorem restore_snapshot_ok (st : List MemoryItem) (clock : Nat)
    (snap : MemoryItem) (hwf : wfItem snap = true) :
    ∃ restored : MemoryItem,
      _restore_snapshot st clock snap = .ok (restored, putItem st restored) ∧
      restored.mem_id = snap.mem_id ∧ restored.status = snap.status ∧
      restored.role = snap.role ∧ restored.type = snap.type ∧
      restored.content = snap.content ∧ restored.extra = snap.extra ∧
      restored.updated_at = snap.updated_at ∧
      restored.created_at = (match rbGet st snap.mem_id with
        | some e => e.created_at
        | none => snap.updated_at) ∧
      wfItem restored = true := by
  obtain ⟨hm, hne, hst, hrl, hty, hc1, hc2, hu⟩ := wfItem_fields hwf
  have hstne : snap.status ≠ "" := by rcases hst with h | h <;> simp [h]
  have hrlne : snap.role ≠ "" := by rcases hrl with h | h | h | h <;> simp [h]
  have htyne : snap.type ≠ "" := by rcases hty with h | h <;> simp [h]
  have hune : snap.updated_at ≠ 0 := Nat.pos_iff_ne_zero.mp hu
  have hrw : _restore_snapshot st clock snap
      = upsert st clock (some snap.mem_id) snap.status snap.role snap.type
          snap.content
          (match snap.source_run_id with
           | none => none
           | some s => if pstrip s = "" then none else some (pstrip s))
          (if snap.schema_version = 0 then 1 else snap.schema_version)
          snap.extra (some snap.updated_at) true "" := by
    simp only [_restore_snapshot, hm, if_neg hne, if_neg hstne, if_neg hrlne,
      if_neg htyne, if_neg hune]
  obtain ⟨item, heq, hitem⟩ := upsert_eq st clock snap.mem_id snap.status
    snap.role snap.type snap.content
    (match snap.source_run_id with
     | none => none
     | some s => if pstrip s = "" then none else some (pstrip s))
    (if snap.schema_version = 0 then 1 else snap.schema_version)
    snap.extra (some snap.updated_at) "" snap.status snap.role snap.type
    hm hne (_parse_status_fix hst) (_parse_role_fix hrl) (_parse_type_fix hty)
    (by rw [hc1]; exact hc2)
  refine ⟨item, ?_, ?_, ?_, ?_, ?_, ?_, ?_, ?_, ?_, ?_⟩
  · rw [hrw]; exact heq
  · simp only [hitem]
  · simp only [hitem]
  · simp only [hitem]
  · simp only [hitem]
  · simp only [hitem]; exact hc1
  · simp only [hitem]
  · simp only [hitem]
  · simp only [hitem]
  · rw [hitem]
    exact wfItem_mk _ _ _ _ _ _ _ _ _ _ hm hne hst hrl hty
      (by rw [hc1]; exact hc1) (by rw [hc1]; exact hc2) hu

theorem archive_ok (st : List MemoryItem) (clock : Nat) (b : MemoryItem)
    (hclk : 0 < clock)
    (hget : rbGet st b.mem_id = some b) (hwf : wfItem b = true) :
    (b.status = "archived" ∧ archive st clock b.mem_id none = .ok (b, st)) ∨
    (b.status = "active" ∧ ∃ arch : MemoryItem,
      archive st clock b.mem_id none = .ok (arch, putItem st arch) ∧
      arch.mem_id = b.mem_id ∧ arch.status = "archived" ∧
      arch.content = b.content ∧ arch.created_at = b.created_at ∧
      arch.role = b.role ∧ arch.type = b.type ∧ arch.extra = b.extra ∧
      arch.updated_at = clock ∧ wfItem arch = true) := by
  obtain ⟨hm, hne, hst, hrl, hty, hc1, hc2, hu⟩ := wfItem_fields hwf
  rcases hst with hstv | hstv
  · right
    refine ⟨hstv, ?_⟩
    obtain ⟨item, heq, hitem⟩ := upsert_eq st clock b.mem_id "archived" b.role
      b.type b.content b.source_run_id b.schema_version b.extra none ""
      "archived" b.role b.type hm hne (_parse_status_fix (Or.inr rfl))
      (_parse_role_fix hrl) (_parse_type_fix hty) (by rw [hc1]; exact hc2)
    have harch : archive st clock b.mem_id none
        = upsert st clock (some b.mem_id) "archived" b.role b.type b.content
            b.source_run_id b.schema_version b.extra none true "" := by
      simp only [archive, hget]
      rw [if_neg (by rw [hstv]; decide)]
    refine ⟨item, ?_, ?_, ?_, ?_, ?_, ?_, ?_, ?_, ?_, ?_⟩
    · rw [harch]; exact heq
    · simp only [hitem]
    · simp only [hitem]
    · simp only [hitem]; exact hc1
    · simp only [hitem]
      rw [hget]
    · simp only [hitem]
    · simp only [hitem]
    · simp only [hitem]
    · simp only [hitem]
    · rw [hitem]
      exact wfItem_mk _ _ _ _ _ _ _ _ _ _ hm hne (Or.inr rfl) hrl hty
        (by rw [hc1]; exact hc1) (by rw [hc1]; exact hc2) hclk
  · left
    refine ⟨hstv, ?_⟩
    simp only [archive, hget]
    rw [if_pos hstv]

end RB

namespace RB

theorem upsert_ok_parses (st : List MemoryItem) (clock : Nat)
    (mem_id : Option String) (status role type content : String)
    (src : Option String) (sv : Nat) (extra : List (String × String))
    (now_ts : Option Nat) (fid : String)
    {res : MemoryItem} {stOut : List MemoryItem}
    (h : upsert st clock mem_id status role type content src sv extra now_ts
      true fid = .ok (res, stOut)) :
    ∃ stS rlS tyS, _parse_status status = .ok stS ∧ _parse_role role = .ok rlS
      ∧ _parse_type type = .ok tyS ∧ pstrip content ≠ "" := by
  simp only [upsert] at h
  cases hs : _parse_status status with
  | error e => rw [hs] at h; cases h
  | ok stS =>
  rw [hs] at h
  cases hr : _parse_role role with
  | error e => rw [hr] at h; cases h
  | ok rlS =>
  rw [hr] at h
  cases ht : _parse_type type with
  | error e => rw [ht] at h; cases h
  | ok tyS =>
  rw [ht] at h
  simp only at h
  by_cases hcc : pstrip content = ""
  · rw [if_pos hcc] at h; cases h
  · exact ⟨stS, rlS, tyS, rfl, rfl, rfl, hcc⟩

theorem upsert_eq_none (st : List MemoryItem) (clock : Nat)
    (status role type content : String) (src : Option String) (sv : Nat)
    (extra : List (String × String)) (now_ts : Option Nat) (fid : String)
    (stS rlS tyS : String)
    (hs : _parse_status status = Except.ok stS)
    (hr : _parse_role role = Except.ok rlS)
    (ht : _parse_type type = Except.ok tyS)
    (hc : pstrip content ≠ "") :
    ∃ item : MemoryItem,
      upsert st clock none status role type content src sv extra now_ts
        true fid = .ok (item, putItem st item) ∧
      item = { mem_id := fid, status := stS, role := rlS, type := tyS,
               content := pstrip content, source_run_id := src.map pstrip,
               created_at := match rbGet st fid with
                 | some e => e.created_at
                 | none => match now_ts with | some t => t | none => clock,
               updated_at := match now_ts with | some t => t | none => clock,
               schema_version := sv, extra := extra } := by
  refine ⟨_, ?_, rfl⟩
  have hp : pstrip "" = "" := rfl
  simp only [upsert, hp, if_pos rfl, hs, hr, ht, if_neg hc, if_true]

end RB

namespace RB

theorem rollbackOps_cons (clock : Nat) (op : RBOp) (rest : List RBOp)
    (st : List MemoryItem) :
    rollbackOps clock (op :: rest) st
      = match rollbackOne clock st op with
        | .error e => .error e
        | .ok st' => rollbackOps clock rest st' := rfl

theorem rollbackOps_append (clock : Nat) (l1 l2 : List RBOp) :
    ∀ st, rollbackOps clock (l1 ++ l2) st
      = match rollbackOps clock l1 st with
        | .error e => .error e
        | .ok st' => rollbackOps clock l2 st' := by
  induction l1 with
  | nil => intro st; rfl
  | cons op rest ih =>
    intro st
    rw [List.cons_append, rollbackOps_cons, rollbackOps_cons]
    cases h : rollbackOne clock st op with
    | error e => rfl
    | ok st' => exact ih st'

theorem rollbackOne_update_snap (clock : Nat) (st : List MemoryItem)
    (mid : String) (snap : MemoryItem) (hmid : pstrip mid ≠ "")
    (hwf : wfItem snap = true) :
    ∃ restored : MemoryItem,
      rollbackOne clock st (.update mid (some snap))
        = .ok (putItem st restored) ∧
      restored.mem_id = snap.mem_id ∧ restored.status = snap.status ∧
      restored.role = snap.role ∧ restored.type = snap.type ∧
      restored.content = snap.content ∧ restored.extra = snap.extra ∧
      restored.updated_at = snap.updated_at ∧
      restored.created_at = (match rbGet st snap.mem_id with
        | some e => e.created_at
        | none => snap.updated_at) ∧
      wfItem restored = true := by
  obtain ⟨restored, heq, hf1, hf2, hf3, hf4, hf5, hf6, hf7, hf8, hf9⟩ :=
    restore_snapshot_ok st clock snap hwf
  refine ⟨restored, ?_, hf1, hf2, hf3, hf4, hf5, hf6, hf7, hf8, hf9⟩
  simp only [rollbackOne, if_neg hmid, heq]

theorem rollbackOne_archive_snap (clock : Nat) (st : List MemoryItem)
    (mid : String) (snap : MemoryItem) (hmid : pstrip mid ≠ "")
    (hwf : wfItem snap = true) :
    ∃ restored : MemoryItem,
      rollbackOne clock st (.archiveOp mid (some snap))
        = .ok (putItem st restored) ∧
      restored.mem_id = snap.mem_id ∧ restored.status = snap.status ∧
      restored.content = snap.content ∧ restored.extra = snap.extra ∧
      restored.updated_at = snap.updated_at ∧
      restored.created_at = (match rbGet st snap.mem_id with
        | some e => e.created_at
        | none => snap.updated_at) ∧
      wfItem restored = true := by
  obtain ⟨restored, heq, hf1, hf2, _, _, hf5, hf6, hf7, hf8, hf9⟩ :=
    restore_snapshot_ok st clock snap hwf
  refine ⟨restored, ?_, hf1, hf2, hf5, hf6, hf7, hf8, hf9⟩
  simp only [rollbackOne, if_neg hmid, heq]

theorem rollbackOne_add (clock : Nat) (st : List MemoryItem) (mid : String)
    (hclk : 0 < clock) (hwfs : wfStore st = true) :
    ∃ st', rollbackOne clock st (.add mid) = .ok st' ∧ wfStore st' = true ∧
      (∀ it ∈ st, ∃ it', it' ∈ st' ∧ it'.mem_id = it.mem_id) ∧
      (∀ mid', pstrip mid' = mid' → mid' ≠ pstrip mid →
        rbGet st' mid' = rbGet st mid') ∧
      (rbGet st (pstrip mid) = none → st' = st) ∧
      (∀ b, rbGet st (pstrip mid) = some b →
        ∃ it1, rbGet st' (pstrip mid) = some it1 ∧ it1.status = "archived" ∧
          it1.content = b.content ∧ it1.created_at = b.created_at) := by
  by_cases hmid : pstrip mid = ""
  · refine ⟨st, ?_, hwfs, fun it h => ⟨it, h, rfl⟩, fun _ _ _ => rfl,
      fun _ => rfl, ?_⟩
    · simp only [rollbackOne, if_pos hmid]
    · intro b hb
      rw [hmid] at hb
      rw [show rbGet st "" = none from rfl] at hb
      cases hb
  · cases hg : rbGet st (pstrip mid) with
    | none =>
      refine ⟨st, ?_, hwfs, fun it h => ⟨it, h, rfl⟩, fun _ _ _ => rfl,
        fun _ => rfl, ?_⟩
      · simp only [rollbackOne, if_neg hmid, hg]
      · intro b hb
        cases hb
    | some b =>
      have hg' : st.find? (fun it => it.mem_id = pstrip mid) = some b := by
        rw [← rbGet_eq st (pstrip mid) (pstrip_idem mid) hmid]
        exact hg
      have hbmem : b ∈ st := List.mem_of_find?_eq_some hg'
      have hbm : b.mem_id = pstrip mid := by
        have := List.find?_some hg'
        simpa using this
      have hwb : wfItem b = true := wfStore_mem hwfs hbmem
      have hgetb : rbGet st b.mem_id = some b := by rw [hbm]; exact hg
      rcases archive_ok st clock b hclk hgetb hwb with
        ⟨hbst, harch⟩ | ⟨hbst, arch, harch, ha1, ha2, ha3, ha4, _, _, _, _, ha9⟩
      · refine ⟨st, ?_, hwfs, fun it h => ⟨it, h, rfl⟩, fun _ _ _ => rfl,
          fun _ => rfl, ?_⟩
        · have harch' : archive st clock (pstrip mid) none = .ok (b, st) := by
            rw [← hbm]; exact harch
          simp only [rollbackOne, if_neg hmid, hg, harch']
        · intro b' hb'
          injection hb' with hb2
          refine ⟨b, hg, hbst, ?_, ?_⟩ <;> rw [← hb2]
      · obtain ⟨ham, hane, _, _, _, hac1, hac2, _⟩ := wfItem_fields ha9
        refine ⟨putItem st arch, ?_, wfStore_putItem hwfs ha9,
          mem_putItem_of_mem st arch, ?_, ?_, ?_⟩
        · have harch' : archive st clock (pstrip mid) none
              = .ok (arch, putItem st arch) := by
            rw [← hbm]; exact harch
          simp only [rollbackOne, if_neg hmid, hg, harch']
        · intro mid' h1' h2'
          exact rbGet_putItem_other st arch mid' h1'
            (by rw [ha1, hbm]; exact h2')
        · intro hnone
          cases hnone
        · intro b' hb'
          injection hb' with hb2
          have hself : rbGet (putItem st arch) arch.mem_id = some arch :=
            rbGet_putItem_self st arch ham hane
          rw [ha1, hbm] at hself
          refine ⟨arch, hself, ha2, ?_, ?_⟩ <;> rw [← hb2]
          · exact ha3
          · exact ha4
      
end RB

namespace RB

theorem rbGet_mem {st : List MemoryItem} {x : String} {y : MemoryItem}
    (h : rbGet st x = some y) : y ∈ st ∧ y.mem_id = pstrip x := by
  simp only [rbGet] at h
  split at h
  · cases h
  · exact ⟨List.mem_of_find?_eq_some h, by simpa using List.find?_some h⟩

theorem targets_update_cons (it : MemoryItem) (rest : List RBOp)
    (hm : pstrip it.mem_id = it.mem_id) (hne : it.mem_id ≠ "") :
    targets (RBOp.update it.mem_id (some it) :: rest)
      = it.mem_id :: targets rest := by
  simp only [targets, List.filterMap_cons, opTarget, hm, if_neg hne]

theorem targets_add_cons (m : String) (rest : List RBOp)
    (hm : pstrip m = m) (hne : m ≠ "") :
    targets (RBOp.add m :: rest) = m :: targets rest := by
  simp only [targets, List.filterMap_cons, opTarget, hm, if_neg hne]

theorem recorded_rollback (clock clock2 : Nat) (hclk : 0 < clock)
    (hclk2 : 0 < clock2) {st0 : List MemoryItem} {ops : List RBOp}
    {st1 : List MemoryItem} (hrec : Recorded clock st0 ops st1) :
    wfStore st0 = true →
    ∀ st2 : List MemoryItem, wfStore st2 = true →
    ∃ st3, rollbackOps clock2 ops.reverse st2 = .ok st3 ∧
      wfStore st3 = true ∧
      (∀ it ∈ st2, ∃ it', it' ∈ st3 ∧ it'.mem_id = it.mem_id) ∧
      (∀ mid, pstrip mid = mid → mid ∉ targets ops →
        rbGet st3 mid = rbGet st2 mid) ∧
      (∀ mid it0, pstrip mid = mid → rbGet st0 mid = some it0 →
        mid ∈ targets ops →
        ∃ it3, rbGet st3 mid = some it3 ∧ it3.content = it0.content ∧
          it3.status = it0.status ∧ it3.role = it0.role ∧
          it3.type = it0.type ∧ it3.extra = it0.extra ∧
          it3.updated_at = it0.updated_at ∧
          (∀ it2, rbGet st2 mid = some it2 →
            it3.created_at = it2.created_at)) := by
  induction hrec with
  | nil st =>
    intro _ st2 hwf2
    refine ⟨st2, rfl, hwf2, fun it h => ⟨it, h, rfl⟩, fun _ _ _ => rfl, ?_⟩
    intro mid it0 _ _ hmem
    simp [targets] at hmem
  | update st stFin rest it res stMid content extra hget hup hrest ih =>
    intro hwf0 st2 hwf2
    have hitmem := rbGet_mem hget
    have hwfit : wfItem it = true := wfStore_mem hwf0 hitmem.1
    obtain ⟨hm, hne, hstv, hrlv, htyv, hc1, hc2, hu⟩ := wfItem_fields hwfit
    obtain ⟨stS, rlS, tyS, _, _, _, hcc⟩ :=
      upsert_ok_parses _ _ _ _ _ _ _ _ _ _ _ _ hup
    obtain ⟨item, hequ, hitem⟩ := upsert_eq st clock it.mem_id it.status
      it.role it.type content it.source_run_id it.schema_version extra none
      "" it.status it.role it.type hm hne (_parse_status_fix hstv)
      (_parse_role_fix hrlv) (_parse_type_fix htyv) hcc
    rw [hequ] at hup
    injection hup with h1
    injection h1 with hres hstm
    have hitemid : item.mem_id = it.mem_id := by rw [hitem]
    have hitemwf : wfItem item = true := by
      rw [hitem]
      exact wfItem_mk _ _ _ _ _ _ _ _ _ _ hm hne hstv hrlv htyv
        (pstrip_idem content) (by exact hcc) (by exact hclk)
    have hwfMid : wfStore stMid = true := by
      rw [← hstm]
      exact wfStore_putItem hwf0 hitemwf
    obtain ⟨st3', hroll', hwf3', hmem', hunt', hrest'⟩ := ih hwfMid st2 hwf2
    have hmidne : pstrip it.mem_id ≠ "" := by rw [hm]; exact hne
    obtain ⟨restored, heq1, f1, f2, f3, f4, f5, f6, f7, f8, f9⟩ :=
      rollbackOne_update_snap clock2 st3' it.mem_id it hmidne hwfit
    have htg : targets (RBOp.update it.mem_id (some it) :: rest)
        = it.mem_id :: targets rest := targets_update_cons it rest hm hne
    have hroll : rollbackOps clock2
        (RBOp.update it.mem_id (some it) :: rest).reverse st2
        = .ok (putItem st3' restored) := by
      rw [List.reverse_cons, rollbackOps_append, hroll']
      show rollbackOps clock2 [RBOp.update it.mem_id (some it)] st3'
        = .ok (putItem st3' restored)
      rw [rollbackOps_cons, heq1]
      rfl
    obtain ⟨rm, rne, _, _, _, _, _, _⟩ := wfItem_fields f9
    refine ⟨putItem st3' restored, hroll, wfStore_putItem hwf3' f9, ?_, ?_, ?_⟩
    · intro x hx
      obtain ⟨x', hx', hxid⟩ := hmem' x hx
      obtain ⟨x'', hx'', hxid'⟩ := mem_putItem_of_mem st3' restored x' hx'
      exact ⟨x'', hx'', by rw [hxid', hxid]⟩
    · intro mid hmidc hnt
      rw [htg] at hnt
      have hne1 : mid ≠ it.mem_id := fun hc => hnt (by rw [hc]; exact List.mem_cons_self _ _)
      have hne2 : mid ∉ targets rest := fun hc => hnt (List.mem_cons_of_mem _ hc)
      rw [rbGet_putItem_other st3' restored mid hmidc (by rw [f1]; exact hne1)]
      exact hunt' mid hmidc hne2
    · intro mid it0 hmidc hg0 hmem
      rw [htg] at hmem
      by_cases hcase : mid = it.mem_id
      · subst hcase
        have hit0 : it0 = it := by
          rw [hget] at hg0
          injection hg0 with h2
          exact h2.symm
        rw [hit0]
        have hself : rbGet (putItem st3' restored) restored.mem_id
            = some restored := rbGet_putItem_self st3' restored rm rne
        rw [f1] at hself
        refine ⟨restored, hself, f5, f2, f3, f4, f6, f7, ?_⟩
        intro it2 h2
        by_cases htr : it.mem_id ∈ targets rest
        · have hgetMid : rbGet stMid it.mem_id = some item := by
            rw [← hstm, ← hitemid]
            exact rbGet_putItem_self st item
              (by rw [hitemid]; exact hm) (by rw [hitemid]; exact hne)
          obtain ⟨it3', hg3', _, _, _, _, _, _, hcr'⟩ :=
            hrest' it.mem_id item hmidc hgetMid htr
          rw [f8, hg3']
          exact hcr' it2 h2
        · have := hunt' it.mem_id hmidc htr
          rw [f8, this, h2]
      · rcases List.mem_cons.mp hmem with hc | hc
        · exact absurd hc hcase
        have hgetMid : rbGet stMid mid = some it0 := by
          rw [← hstm, rbGet_putItem_other st item mid hmidc
            (by rw [hitemid]; exact hcase)]
          exact hg0
        obtain ⟨it3, hg3, g1, g2, g3, g4, g5, g6, hcr⟩ :=
          hrest' mid it0 hmidc hgetMid hc
        refine ⟨it3, ?_, g1, g2, g3, g4, g5, g6, hcr⟩
        rw [rbGet_putItem_other st3' restored mid hmidc
          (by rw [f1]; exact hcase)]
        exact hg3
  | add st stFin rest res stMid role type content source extra fresh hfr
      hfne hnew hup hrest ih =>
    intro hwf0 st2 hwf2
    obtain ⟨stS, rlS, tyS, hs0, hr0, ht0, hcc⟩ :=
      upsert_ok_parses _ _ _ _ _ _ _ _ _ _ _ _ hup
    obtain ⟨item, hequ, hitem⟩ := upsert_eq_none st clock "active" role type
      content source 1 extra none fresh stS rlS tyS hs0 hr0 ht0 hcc
    rw [hequ] at hup
    injection hup with h1
    injection h1 with hres hstm
    have hitemid : item.mem_id = fresh := by rw [hitem]
    have hresid : res.mem_id = fresh := by rw [← hres, hitemid]
    have hitemwf : wfItem item = true := by
      rw [hitem]
      exact wfItem_mk _ _ _ _ _ _ _ _ _ _ hfr hfne (_parse_status_ok hs0).1
        (_parse_role_ok hr0).1 (_parse_type_ok ht0).1
        (pstrip_idem content) (by exact hcc) (by exact hclk)
    have hwfMid : wfStore stMid = true := by
      rw [← hstm]
      exact wfStore_putItem hwf0 hitemwf
    obtain ⟨st3', hroll', hwf3', hmem', hunt', hrest'⟩ := ih hwfMid st2 hwf2
    obtain ⟨st3, heqadd, hwfadd, hmemadd, huntadd, _, _⟩ :=
      rollbackOne_add clock2 st3' res.mem_id hclk2 hwf3'
    have hprm : pstrip res.mem_id = fresh := by rw [hresid, hfr]
    have htg : targets (RBOp.add res.mem_id :: rest)
        = fresh :: targets rest := by
      rw [show RBOp.add res.mem_id = RBOp.add fresh by rw [hresid]]
      exact targets_add_cons fresh rest hfr hfne
    have hroll : rollbackOps clock2 (RBOp.add res.mem_id :: rest).reverse st2
        = .ok st3 := by
      rw [List.reverse_cons, rollbackOps_append, hroll']
      show rollbackOps clock2 [RBOp.add res.mem_id] st3' = .ok st3
      rw [rollbackOps_cons, heqadd]
      rfl
    refine ⟨st3, hroll, hwfadd, ?_, ?_, ?_⟩
    · intro x hx
      obtain ⟨x', hx', hxid⟩ := hmem' x hx
      obtain ⟨x'', hx'', hxid'⟩ := hmemadd x' hx'
      exact ⟨x'', hx'', by rw [hxid', hxid]⟩
    · intro mid hmidc hnt
      rw [htg] at hnt
      have hne1 : mid ≠ fresh := fun hc => hnt (by rw [hc]; exact List.mem_cons_self _ _)
      have hne2 : mid ∉ targets rest := fun hc => hnt (List.mem_cons_of_mem _ hc)
      rw [huntadd mid hmidc (by rw [hprm]; exact hne1)]
      exact hunt' mid hmidc hne2
    · intro mid it0 hmidc hg0 hmem
      rw [htg] at hmem
      by_cases hcase : mid = fresh
      · subst hcase
        rw [hnew] at hg0
        cases hg0
      · rcases List.mem_cons.mp hmem with hc | hc
        · exact absurd hc hcase
        have hgetMid : rbGet stMid mid = some it0 := by
          rw [← hstm, rbGet_putItem_other st item mid hmidc
            (by rw [hitemid]; exact hcase)]
          exact hg0
        obtain ⟨it3', hg3, g1, g2, g3, g4, g5, g6, hcr⟩ :=
          hrest' mid it0 hmidc hgetMid hc
        refine ⟨it3', ?_, g1, g2, g3, g4, g5, g6, hcr⟩
        rw [huntadd mid hmidc (by rw [hprm]; exact hcase)]
        exact hg3

end RB

namespace RB

/-- C5: Rollback exactness. (1) `rollback_rb_delta` on a non-rolled-back
delta replays the delta's recorded ops in reverse order over the memory
store and marks the delta row `rolled_back`; (2) replaying a recorded op
list undoes the op recorded last first. (3) An `add` op is undone by
archiving the created item, never by deleting it: every mem_id present
before survives, and the added item keeps its content and `created_at`
with only its status flipped to `archived`. (4)/(5) An `update`/`archive`
op carrying a recorded `before` snapshot is undone by writing back exactly
the snapshot's content, status, role, type, extra and `updated_at`, while
preserving the currently stored item's `created_at`. (6) Consequently, for
any delta recorded by the learn pass, applying it and later rolling it
back — even after arbitrary intervening edits yielding any well-formed
store — restores every touched pre-delta item's content, status, role,
type, extra and `updated_at` exactly, keeps every untouched mem_id
unchanged, and never deletes an item. -/
theorem rollback_rb_delta_spec (clock clock2 : Nat) (hclk : 0 < clock)
    (hclk2 : 0 < clock2) :
    (∀ (S : RBState) (rid : String) (d : RBDelta),
      pstrip rid = rid → rid ≠ "" →
      pstrip d.delta_id = d.delta_id → d.delta_id ≠ "" →
      S.deltas.find? (fun x => x.delta_id = d.delta_id) = some d →
      d.run_id = rid → d.status ≠ "rolled_back" →
      rollback_rb_delta clock2 S rid (some d.delta_id)
        = match rollbackOps clock2 d.ops.reverse S.mems with
          | .error e => .error e
          | .ok mems' => .ok (d.delta_id,
              { mems := mems',
                deltas := markRolledBack d.delta_id S.deltas }))
    ∧ (∀ (ops : List RBOp) (op : RBOp) (st : List MemoryItem),
        rollbackOps clock2 (ops ++ [op]).reverse st
          = match rollbackOne clock2 st op with
            | .error e => .error e
            | .ok st' => rollbackOps clock2 ops.reverse st')
    ∧ (∀ (st : List MemoryItem) (mid : String), wfStore st = true →
        ∃ st', rollbackOne clock2 st (.add mid) = .ok st' ∧
          wfStore st' = true ∧
          (∀ it ∈ st, ∃ it', it' ∈ st' ∧ it'.mem_id = it.mem_id) ∧
          (∀ mid', pstrip mid' = mid' → mid' ≠ pstrip mid →
            rbGet st' mid' = rbGet st mid') ∧
          (rbGet st (pstrip mid) = none → st' = st) ∧
          (∀ b, rbGet st (pstrip mid) = some b →
            ∃ it1, rbGet st' (pstrip mid) = some it1 ∧
              it1.status = "archived" ∧ it1.content = b.content ∧
              it1.created_at = b.created_at))
    ∧ (∀ (st : List MemoryItem) (mid : String) (snap : MemoryItem),
        pstrip mid ≠ "" → wfItem snap = true →
        ∃ restored : MemoryItem,
          rollbackOne clock2 st (.update mid (some snap))
            = .ok (putItem st restored) ∧
          restored.mem_id = snap.mem_id ∧ restored.status = snap.status ∧
          restored.role = snap.role ∧ restored.type = snap.type ∧
          restored.content = snap.content ∧ restored.extra = snap.extra ∧
          restored.updated_at = snap.updated_at ∧
          restored.created_at = (match rbGet st snap.mem_id with
            | some e => e.created_at
            | none => snap.updated_at) ∧
          wfItem restored = true)
    ∧ (∀ (st : List MemoryItem) (mid : String) (snap : MemoryItem),
        pstrip mid ≠ "" → wfItem snap = true →
        ∃ restored : MemoryItem,
          rollbackOne clock2 st (.archiveOp mid (some snap))
            = .ok (putItem st restored) ∧
          restored.mem_id = snap.mem_id ∧ restored.status = snap.status ∧
          restored.content = snap.content ∧ restored.extra = snap.extra ∧
          restored.updated_at = snap.updated_at ∧
          restored.created_at = (match rbGet st snap.mem_id with
            | some e => e.created_at
            | none => snap.updated_at) ∧
          wfItem restored = true)
    ∧ (∀ (st0 : List MemoryItem) (ops : List RBOp) (st1 : List MemoryItem),
        Recorded clock st0 ops st1 → wfStore st0 = true →
        ∀ st2 : List MemoryItem, wfStore st2 = true →
        ∃ st3, rollbackOps clock2 ops.reverse st2 = .ok st3 ∧
          wfStore st3 = true ∧
          (∀ it ∈ st2, ∃ it', it' ∈ st3 ∧ it'.mem_id = it.mem_id) ∧
          (∀ mid, pstrip mid = mid → mid ∉ targets ops →
            rbGet st3 mid = rbGet st2 mid) ∧
          (∀ mid it0, pstrip mid = mid → rbGet st0 mid = some it0 →
            mid ∈ targets ops →
            ∃ it3, rbGet st3 mid = some it3 ∧ it3.content = it0.content ∧
              it3.status = it0.status ∧ it3.role = it0.role ∧
              it3.type = it0.type ∧ it3.extra = it0.extra ∧
              it3.updated_at = it0.updated_at ∧
              (∀ it2, rbGet st2 mid = some it2 →
                it3.created_at = it2.created_at))) := by
  refine ⟨?_, ?_, ?_, ?_, ?_, ?_⟩
  · intro S rid d hr hne hdc hdne hfind hrun hst
    simp only [rollback_rb_delta, hr]
    rw [if_neg hne]
    simp only [hdc]
    rw [if_neg hdne]
    simp only [hfind]
    rw [if_neg (show ¬ d.run_id ≠ rid from fun hcc => hcc hrun),
      if_neg hst]
  · intro ops op st
    rw [show (ops ++ [op]).reverse = op :: ops.reverse by simp]
    rfl
  · intro st mid hwfs
    exact rollbackOne_add clock2 st mid hclk2 hwfs
  · intro st mid snap hmid hwf
    exact rollbackOne_update_snap clock2 st mid snap hmid hwf
  · intro st mid snap hmid hwf
    exact rollbackOne_archive_snap clock2 st mid snap hmid hwf
  · intro st0 ops st1 hrec hwf0 st2 hwf2
    exact recorded_rollback clock clock2 hclk hclk2 hrec hwf0 st2 hwf2

/-- Witness for C5: a one-op delta over the item `m1` (content
`"fact one"`, created at 5) is applied (content becomes `"fact two"`),
the item is edited again in between (content `"other note"`), and the
rollback replay still restores content/status/updated_at from the
recorded snapshot while keeping `created_at` 5. -/
theorem rollback_rb_delta_spec_witness :
    (0 < 9 ∧ 0 < 13) ∧
    Recorded 9
      [⟨"m1", "active", "global", "manual_note", "fact one", none, 5, 7, 1, []⟩]
      [RBOp.update "m1"
        (some ⟨"m1", "active", "global", "manual_note", "fact one", none, 5, 7, 1, []⟩)]
      [⟨"m1", "active", "global", "manual_note", "fact two", none, 5, 9, 1, []⟩] ∧
    wfStore [⟨"m1", "active", "global", "manual_note", "fact one", none, 5, 7, 1, []⟩]
      = true ∧
    wfStore [⟨"m1", "active", "global", "manual_note", "other note", none, 5, 11, 1, []⟩]
      = true ∧
    ∃ st3, rollbackOps 13
        [RBOp.update "m1"
          (some ⟨"m1", "active", "global", "manual_note", "fact one", none, 5, 7, 1, []⟩)].reverse
        [⟨"m1", "active", "global", "manual_note", "other note", none, 5, 11, 1, []⟩]
      = .ok st3 ∧
      ∃ it3, rbGet st3 "m1" = some it3 ∧ it3.content = "fact one" ∧
        it3.status = "active" ∧ it3.updated_at = 7 ∧ it3.created_at = 5 := by
  have hrec : Recorded 9
      [⟨"m1", "active", "global", "manual_note", "fact one", none, 5, 7, 1, []⟩]
      [RBOp.update "m1"
        (some ⟨"m1", "active", "global", "manual_note", "fact one", none, 5, 7, 1, []⟩)]
      [⟨"m1", "active", "global", "manual_note", "fact two", none, 5, 9, 1, []⟩] :=
    Recorded.update
      [⟨"m1", "active", "global", "manual_note", "fact one", none, 5, 7, 1, []⟩]
      [⟨"m1", "active", "global", "manual_note", "fact two", none, 5, 9, 1, []⟩]
      []
      ⟨"m1", "active", "global", "manual_note", "fact one", none, 5, 7, 1, []⟩
      ⟨"m1", "active", "global", "manual_note", "fact two", none, 5, 9, 1, []⟩
      [⟨"m1", "active", "global", "manual_note", "fact two", none, 5, 9, 1, []⟩]
      "fact two" [] rfl rfl
      (Recorded.nil
        [⟨"m1", "active", "global", "manual_note", "fact two", none, 5, 9, 1, []⟩])
  refine ⟨⟨by decide, by decide⟩, hrec, by decide, by decide, ?_⟩
  obtain ⟨st3, h1, _, _, _, hres⟩ :=
    (rollback_rb_delta_spec 9 13 (by decide) (by decide)).2.2.2.2.2
      [⟨"m1", "active", "global", "manual_note", "fact one", none, 5, 7, 1, []⟩]
      [RBOp.update "m1"
        (some ⟨"m1", "active", "global", "manual_note", "fact one", none, 5, 7, 1, []⟩)]
      [⟨"m1", "active", "global", "manual_note", "fact two", none, 5, 9, 1, []⟩]
      hrec (by decide)
      [⟨"m1", "active", "global", "manual_note", "other note", none, 5, 11, 1, []⟩]
      (by decide)
  obtain ⟨it3, hg, hc, hs, _, _, _, hu, hcr⟩ :=
    hres "m1" ⟨"m1", "active", "global", "manual_note", "fact one", none, 5, 7, 1, []⟩
      (by decide) (by decide) (by decide)
  refine ⟨st3, h1, it3, hg, hc.trans rfl, hs.trans rfl, hu.trans rfl, ?_⟩
  exact (hcr ⟨"m1", "active", "global", "manual_note", "other note", none, 5, 11, 1, []⟩
    (by decide)).trans rfl

end RB

namespace RB

theorem forall2_mem_left {R : RBDelta → RBDelta → Prop}
    {l l' : List RBDelta} (h : List.Forall₂ R l l') :
    ∀ d ∈ l, ∃ d' ∈ l', R d d' := by
  induction h with
  | nil => intro d hd; cases hd
  | cons hr _ ih =>
    intro d hd
    rcases List.mem_cons.mp hd with he | hm
    · exact ⟨_, List.mem_cons_self _ _, he ▸ hr⟩
    · obtain ⟨d', hd', hrd⟩ := ih d hm
      exact ⟨d', List.mem_cons_of_mem _ hd', hrd⟩

theorem forall2_mem_right {R : RBDelta → RBDelta → Prop}
    {l l' : List RBDelta} (h : List.Forall₂ R l l') :
    ∀ d' ∈ l', ∃ d ∈ l, R d d' := by
  induction h with
  | nil => intro d hd; cases hd
  | cons hr _ ih =>
    intro d' hd'
    rcases List.mem_cons.mp hd' with he | hm
    · exact ⟨_, List.mem_cons_self _ _, he ▸ hr⟩
    · obtain ⟨d, hd, hrd⟩ := ih d' hm
      exact ⟨d, List.mem_cons_of_mem _ hd, hrd⟩

theorem rolledForward_trans {a b c : RBDelta} (h1 : rolledForward a b)
    (h2 : rolledForward b c) : rolledForward a c := by
  obtain ⟨i1, r1, o1, c1, s1⟩ := h1
  obtain ⟨i2, r2, o2, c2, s2⟩ := h2
  refine ⟨i2.trans i1, r2.trans r1, o2.trans o1, c2.trans c1, ?_⟩
  rcases s2 with s2 | s2
  · rw [s2]; exact s1
  · exact Or.inr s2

theorem forall2_rolledForward_trans {l1 l2 l3 : List RBDelta}
    (h1 : List.Forall₂ rolledForward l1 l2)
    (h2 : List.Forall₂ rolledForward l2 l3) :
    List.Forall₂ rolledForward l1 l3 := by
  induction h1 generalizing l3 with
  | nil => cases h2; constructor
  | cons hr hrest ih =>
    cases h2 with
    | cons hr2 hrest2 =>
      exact List.Forall₂.cons (rolledForward_trans hr hr2) (ih hrest2)

theorem forall2_rolledForward_refl (l : List RBDelta) :
    List.Forall₂ rolledForward l l := by
  induction l with
  | nil => constructor
  | cons d rest ih =>
    exact List.Forall₂.cons ⟨rfl, rfl, rfl, rfl, Or.inl rfl⟩ ih

theorem markRolledBack_forall2 (did : String) (l : List RBDelta) :
    List.Forall₂ rolledForward l (markRolledBack did l) := by
  induction l with
  | nil => constructor
  | cons d rest ih =>
    rw [markRolledBack, List.map_cons]
    refine List.Forall₂.cons ?_ ih
    by_cases hc : d.delta_id = did
    · rw [if_pos hc]
      exact ⟨rfl, rfl, rfl, rfl, Or.inr rfl⟩
    · rw [if_neg hc]
      exact ⟨rfl, rfl, rfl, rfl, Or.inl rfl⟩

theorem markRolledBack_map_id (did : String) (l : List RBDelta) :
    (markRolledBack did l).map (fun d => d.delta_id)
      = l.map (fun d => d.delta_id) := by
  simp only [markRolledBack, List.map_map]
  apply List.map_congr_left
  intro d _
  by_cases hc : d.delta_id = did
  · simp [Function.comp, hc]
  · simp [Function.comp, hc]

theorem markRolledBack_marks {did : String} {l : List RBDelta} {d : RBDelta}
    (hd : d ∈ l) (hid : d.delta_id = did) :
    ∃ d' ∈ markRolledBack did l, d'.delta_id = d.delta_id ∧
      d'.status = "rolled_back" := by
  refine ⟨{ d with status := "rolled_back" }, ?_, rfl, rfl⟩
  rw [markRolledBack]
  exact List.mem_map.mpr ⟨d, hd, by rw [if_pos hid]⟩

theorem rollback_rb_delta_ok_deltas (clock : Nat) (S S' : RBState)
    (rid did0 did : String)
    (hnodup : (S.deltas.map (fun d => d.delta_id)).Nodup)
    (h : rollback_rb_delta clock S rid (some did0) = .ok (did, S')) :
    S'.deltas.map (fun d => d.delta_id)
      = S.deltas.map (fun d => d.delta_id) ∧
    List.Forall₂ rolledForward S.deltas S'.deltas ∧
    (∀ d ∈ S.deltas, d.delta_id = pstrip did0 →
      ∃ d' ∈ S'.deltas, d'.delta_id = d.delta_id ∧
        d'.status = "rolled_back") := by
  simp only [rollback_rb_delta] at h
  by_cases hrid : pstrip rid = ""
  · rw [if_pos hrid] at h; cases h
  rw [if_neg hrid] at h
  by_cases hdid : pstrip did0 = ""
  · rw [if_pos hdid] at h; cases h
  rw [if_neg hdid] at h
  cases hfind : S.deltas.find? (fun x => x.delta_id = pstrip did0) with
  | none => rw [hfind] at h; cases h
  | some d0 =>
    simp only [hfind] at h
    have hd0mem : d0 ∈ S.deltas := List.mem_of_find?_eq_some hfind
    have hd0id : d0.delta_id = pstrip did0 := by
      simpa using List.find?_some hfind
    by_cases hrun : d0.run_id = pstrip rid
    swap
    · rw [if_pos hrun] at h; cases h
    rw [if_neg (fun hx => hx hrun)] at h
    by_cases hrb : d0.status = "rolled_back"
    · rw [if_pos hrb] at h
      injection h with h1
      injection h1 with hdid' hS
      have hS' : S' = S := hS.symm
      subst hS'
      refine ⟨rfl, forall2_rolledForward_refl _, ?_⟩
      intro d hd hid
      have hde : d = d0 :=
        List.inj_on_of_nodup_map hnodup hd hd0mem (by rw [hid, hd0id])
      exact ⟨d, hd, rfl, by rw [hde]; exact hrb⟩
    · rw [if_neg hrb] at h
      cases hops : rollbackOps clock d0.ops.reverse S.mems with
      | error e => rw [hops] at h; cases h
      | ok mems' =>
        rw [hops] at h
        injection h with h1
        injection h1 with hdid' hS
        subst hS
        refine ⟨markRolledBack_map_id _ _, markRolledBack_forall2 _ _, ?_⟩
        intro d hd hid
        exact markRolledBack_marks hd (by rw [hid, hd0id])

theorem rollbackForRelearn_ok (clock : Nat) (rid : String) :
    ∀ (ids : List String) (S S' : RBState),
      (S.deltas.map (fun d => d.delta_id)).Nodup →
      rollbackForRelearn clock rid ids S = .ok S' →
      S'.deltas.map (fun d => d.delta_id)
        = S.deltas.map (fun d => d.delta_id) ∧
      List.Forall₂ rolledForward S.deltas S'.deltas ∧
      (∀ did ∈ ids, ∀ d ∈ S.deltas, d.delta_id = pstrip did →
        ∃ d' ∈ S'.deltas, d'.delta_id = d.delta_id ∧
          d'.status = "rolled_back") := by
  intro ids
  induction ids with
  | nil =>
    intro S S' _ h
    injection h with h1
    subst h1
    refine ⟨rfl, forall2_rolledForward_refl _, ?_⟩
    intro did hdid
    cases hdid
  | cons did rest ih =>
    intro S S' hnodup h
    rw [rollbackForRelearn] at h
    cases hstep : rollback_rb_delta clock S rid (some did) with
    | error e => rw [hstep] at h; cases h
    | ok p =>
      rw [hstep] at h
      obtain ⟨did1, S1⟩ := p
      obtain ⟨hmap1, hf1, hfound1⟩ :=
        rollback_rb_delta_ok_deltas clock S S1 rid did did1 hnodup hstep
      have hnodup1 : (S1.deltas.map (fun d => d.delta_id)).Nodup := by
        rw [hmap1]; exact hnodup
      obtain ⟨hmap2, hf2, hfound2⟩ := ih S1 S' hnodup1 h
      refine ⟨hmap2.trans hmap1, forall2_rolledForward_trans hf1 hf2, ?_⟩
      intro did' hdid' d hd hid
      rcases List.mem_cons.mp hdid' with he | hm
      · obtain ⟨d1, hd1, hid1, hst1⟩ := hfound1 d hd (by rw [hid, he])
        obtain ⟨d', hd', hrd⟩ := forall2_mem_left hf2 d1 hd1
        obtain ⟨i2, _, _, _, s2⟩ := hrd
        refine ⟨d', hd', by rw [i2, hid1], ?_⟩
        rcases s2 with s2 | s2
        · rw [s2]; exact hst1
        · exact s2
      · obtain ⟨d1, hd1, hrd⟩ := forall2_mem_left hf1 d hd
        obtain ⟨i1, _, _, _, _⟩ := hrd
        obtain ⟨d', hd', hid', hst'⟩ := hfound2 did' hm d1 hd1
          (by rw [i1, hid])
        exact ⟨d', hd', by rw [hid', i1], hst'⟩

end RB

namespace RB

theorem forall2_filter_run_length {rid : String} {l l' : List RBDelta}
    (h : List.Forall₂ rolledForward l l') :
    (l'.filter (fun d => d.run_id = rid)).length
      = (l.filter (fun d => d.run_id = rid)).length := by
  induction h with
  | nil => rfl
  | @cons a b l1 l2 hr hrest ih =>
    obtain ⟨_, hrun, _, _, _⟩ := hr
    by_cases hc : a.run_id = rid
    · have hc' : b.run_id = rid := by rw [hrun]; exact hc
      simp [List.filter_cons, hc, hc', ih]
    · have hc' : ¬ b.run_id = rid := by rw [hrun]; exact hc
      simp [List.filter_cons, hc, hc', ih]

theorem mem_appliedIdsFor {deltas : List RBDelta} {rid : String}
    {d : RBDelta} (hd : d ∈ deltas) (hrun : d.run_id = rid)
    (hst : d.status = "applied") :
    d.delta_id ∈ appliedIdsFor deltas rid := by
  simp only [appliedIdsFor, List.mem_reverse, List.mem_map]
  exact ⟨d, List.mem_filter.mpr ⟨hd, by simp [hrun, hst]⟩, rfl⟩

/-- C6: Learn idempotence per run. For a successful learn pass: the pass
first rolls back, one by one, exactly the run's deltas whose status is
currently `applied`, and only then runs the mutation phase on the
post-rollback memories; every previously applied delta of the run ends up
`rolled_back`; the pass appends exactly one new delta row for the run —
also when the mutation phase produced zero ops — so the run's delta count
grows by exactly one and the new row (status `applied`, carrying the
pass's ops) is afterwards the only applied delta of the run. -/
theorem learn_reasoningbank_for_run_spec (clock : Nat) (st : RBState)
    (run_id : String)
    (mutate : List MemoryItem → List MemoryItem × List RBOp)
    (freshDeltaId : String)
    (hnodup : (st.deltas.map (fun d => d.delta_id)).Nodup)
    (hfresh : freshDeltaId ∉ st.deltas.map (fun d => d.delta_id))
    (hwfd : wfDeltas st.deltas = true) :
    ∀ did' st',
      learn_reasoningbank_for_run clock st run_id mutate freshDeltaId
        = .ok (did', st') →
      did' = freshDeltaId ∧
      (∃ st1 : RBState,
        rollbackForRelearn clock (pstrip run_id)
          (appliedIdsFor st.deltas (pstrip run_id)) st = .ok st1 ∧
        st'.mems = (mutate st1.mems).1 ∧
        st'.deltas = st1.deltas ++
          [{ delta_id := freshDeltaId, run_id := pstrip run_id,
             created_at := clock, status := "applied",
             ops := (mutate st1.mems).2 }]) ∧
      (st'.deltas.filter (fun d => d.run_id = pstrip run_id)).length
        = (st.deltas.filter (fun d => d.run_id = pstrip run_id)).length
            + 1 ∧
      (∀ d ∈ st.deltas, d.run_id = pstrip run_id → d.status = "applied" →
        ∃ d' ∈ st'.deltas, d'.delta_id = d.delta_id ∧
          d'.status = "rolled_back") ∧
      (∀ d' ∈ st'.deltas, d'.run_id = pstrip run_id →
        d'.status = "applied" → d'.delta_id = freshDeltaId) := by
  intro did' st' h
  have hfixAll : ∀ d ∈ st.deltas, pstrip d.delta_id = d.delta_id := by
    intro d hd
    have hh := List.all_eq_true.mp hwfd d hd
    simp only [wfDelta, Bool.and_eq_true, decide_eq_true_eq] at hh
    exact hh.1.1
  simp only [learn_reasoningbank_for_run] at h
  by_cases hrid : pstrip run_id = ""
  · rw [if_pos hrid] at h; cases h
  rw [if_neg hrid] at h
  cases hrb : rollbackForRelearn clock (pstrip run_id)
      (appliedIdsFor st.deltas (pstrip run_id)) st with
  | error e => rw [hrb] at h; cases h
  | ok st1 =>
    rw [hrb] at h
    simp only [create_rb_delta] at h
    injection h with h1
    injection h1 with hdid hst'
    obtain ⟨hmap, hf2, hfound⟩ := rollbackForRelearn_ok clock
      (pstrip run_id) (appliedIdsFor st.deltas (pstrip run_id)) st st1
      hnodup hrb
    have hnodup1 : (st1.deltas.map (fun d => d.delta_id)).Nodup := by
      rw [hmap]; exact hnodup
    refine ⟨hdid.symm, ⟨st1, rfl, ?_, ?_⟩, ?_, ?_, ?_⟩
    · rw [← hst']
    · rw [← hst']
    · rw [← hst', List.filter_append, List.length_append,
        forall2_filter_run_length hf2]
      simp [List.filter_cons]
    · intro d hd hrun hst0
      have hid : d.delta_id ∈ appliedIdsFor st.deltas (pstrip run_id) :=
        mem_appliedIdsFor hd hrun hst0
      obtain ⟨d1, hd1, hid1, hst1⟩ :=
        hfound d.delta_id hid d hd (hfixAll d hd).symm
      exact ⟨d1, by rw [← hst']; exact List.mem_append_left _ hd1, hid1,
        hst1⟩
    · intro d' hd' hrun' hstA
      rw [← hst'] at hd'
      rcases List.mem_append.mp hd' with hm | hm
      · obtain ⟨d, hd, hrd⟩ := forall2_mem_right hf2 d' hm
        obtain ⟨i1, r1, _, _, s1⟩ := hrd
        have hdst : d.status = "applied" := by
          rcases s1 with s1 | s1
          · rw [← s1]; exact hstA
          · rw [s1] at hstA
            exact absurd hstA (by decide)
        have hdrun : d.run_id = pstrip run_id := by
          rw [← r1]; exact hrun'
        have hid : d.delta_id ∈ appliedIdsFor st.deltas (pstrip run_id) :=
          mem_appliedIdsFor hd hdrun hdst
        obtain ⟨d'', hd'', hid'', hst''⟩ :=
          hfound d.delta_id hid d hd (hfixAll d hd).symm
        have hde : d' = d'' :=
          List.inj_on_of_nodup_map hnodup1 hm hd'' (by rw [i1, hid''])
        rw [hde, hst''] at hstA
        exact absurd hstA (by decide)
      · have hde : d' = RBDelta.mk freshDeltaId (pstrip run_id) clock
            "applied" (mutate st1.mems).2 := by
          simpa using hm
        rw [hde]

end RB

namespace RB

/-- Witness for C6: a state with one applied delta for `run1` (plus an
applied delta of another run); the learn pass with zero extracted ops
rolls the `run1` delta back and still records exactly one new delta. -/
theorem learn_reasoningbank_for_run_spec_witness :
    ((List.map (fun d => d.delta_id)
        [RBDelta.mk "rbd1" "run1" 1 "applied"
          [RBOp.update "m1" (some ⟨"m1", "active", "global", "manual_note",
            "fact one", none, 5, 7, 1, []⟩)],
         RBDelta.mk "rbd2" "run2" 2 "applied" []]).Nodup ∧
      "rbd3" ∉ List.map (fun d => d.delta_id)
        [RBDelta.mk "rbd1" "run1" 1 "applied"
          [RBOp.update "m1" (some ⟨"m1", "active", "global", "manual_note",
            "fact one", none, 5, 7, 1, []⟩)],
         RBDelta.mk "rbd2" "run2" 2 "applied" []] ∧
      wfDeltas
        [RBDelta.mk "rbd1" "run1" 1 "applied"
          [RBOp.update "m1" (some ⟨"m1", "active", "global", "manual_note",
            "fact one", none, 5, 7, 1, []⟩)],
         RBDelta.mk "rbd2" "run2" 2 "applied" []] = true) ∧
    (([RBDelta.mk "rbd1" "run1" 1 "rolled_back"
          [RBOp.update "m1" (some ⟨"m1", "active", "global", "manual_note",
            "fact one", none, 5, 7, 1, []⟩)],
       RBDelta.mk "rbd2" "run2" 2 "applied" [],
       RBDelta.mk "rbd3" "run1" 20 "applied" []].filter
        (fun d => d.run_id = pstrip "run1")).length
      = ([RBDelta.mk "rbd1" "run1" 1 "applied"
            [RBOp.update "m1" (some ⟨"m1", "active", "global", "manual_note",
              "fact one", none, 5, 7, 1, []⟩)],
          RBDelta.mk "rbd2" "run2" 2 "applied" []].filter
          (fun d => d.run_id = pstrip "run1")).length + 1) ∧
    (∃ d' ∈ [RBDelta.mk "rbd1" "run1" 1 "rolled_back"
          [RBOp.update "m1" (some ⟨"m1", "active", "global", "manual_note",
            "fact one", none, 5, 7, 1, []⟩)],
        RBDelta.mk "rbd2" "run2" 2 "applied" [],
        RBDelta.mk "rbd3" "run1" 20 "applied" []],
      d'.delta_id = "rbd1" ∧ d'.status = "rolled_back") ∧
    (∀ d' ∈ [RBDelta.mk "rbd1" "run1" 1 "rolled_back"
          [RBOp.update "m1" (some ⟨"m1", "active", "global", "manual_note",
            "fact one", none, 5, 7, 1, []⟩)],
        RBDelta.mk "rbd2" "run2" 2 "applied" [],
        RBDelta.mk "rbd3" "run1" 20 "applied" []],
      d'.run_id = pstrip "run1" → d'.status = "applied" →
      d'.delta_id = "rbd3") := by
  have happ := learn_reasoningbank_for_run_spec 20
    ⟨[⟨"m1", "active", "global", "manual_note", "other note", none, 5, 11,
        1, []⟩],
     [RBDelta.mk "rbd1" "run1" 1 "applied"
        [RBOp.update "m1" (some ⟨"m1", "active", "global", "manual_note",
          "fact one", none, 5, 7, 1, []⟩)],
      RBDelta.mk "rbd2" "run2" 2 "applied" []]⟩
    "run1" (fun mems => (mems, [])) "rbd3" (by decide) (by decide)
    (by decide) "rbd3"
    ⟨[⟨"m1", "active", "global", "manual_note", "fact one", none, 5, 7, 1,
        []⟩],
     [RBDelta.mk "rbd1" "run1" 1 "rolled_back"
        [RBOp.update "m1" (some ⟨"m1", "active", "global", "manual_note",
          "fact one", none, 5, 7, 1, []⟩)],
      RBDelta.mk "rbd2" "run2" 2 "applied" [],
      RBDelta.mk "rbd3" "run1" 20 "applied" []]⟩ rfl
  refine ⟨⟨by decide, by decide, by decide⟩, happ.2.2.1, ?_, happ.2.2.2.2⟩
  exact happ.2.2.2.1
    (RBDelta.mk "rbd1" "run1" 1 "applied"
      [RBOp.update "m1" (some ⟨"m1", "active", "global", "manual_note",
        "fact one", none, 5, 7, 1, []⟩)])
    (List.mem_cons_self _ _) rfl rfl

end RB
